import Mathlib

/-
Verification development for the MongoToMySQLAdapter repository
(src/lib/index.js): a translator from MongoDB-style query objects to
parameterized MySQL statements.  The JavaScript source is shallowly
embedded below: JS values are the inductive type JVal, the mutable
params array is threaded as an explicit list, thrown exceptions are
modelled with Except, and every JS function of interest keeps its
source name.  JS for-in loops over object keys become recursion over
entry lists (JS objects preserve insertion order for string keys).
-/

set_option maxHeartbeats 1000000

namespace MongoAdapter

/-- jsStartsWithDollar models the JS test key.startsWith('$'):
it checks whether the first character of the string is the dollar sign. -/
def startsWithDollar (s : String) : Bool :=
  match s.data with
  | [] => false
  | c :: _ => c = '$'

/-- countQM counts the occurrences of the placeholder character in a string. -/
def countQM (s : String) : Nat := s.data.count '?'

/-- noQMb decides that a string contains no placeholder character. -/
def noQMb (s : String) : Bool := s.data.all (fun c => c ≠ '?')

/-- joinSep models JS Array.prototype.join: empty list gives the empty
string, otherwise the elements separated by the separator. -/
def joinSep (sep : String) : List String → String
  | [] => ""
  | c :: rest => rest.foldl (fun acc x => acc ++ sep ++ x) c

/-- Err models a thrown JS Error: its constructor name and its message. -/
structure Err where
  name : String
  message : String
deriving Repr, DecidableEq

/-- QueryParseError models `new QueryParseError(message, context)`
(src/lib/index.js lines 52-57): the stored message is the class tag,
the given message and the context. -/
def QueryParseError (message context : String) : Err :=
  Err.mk "QueryParseError" ("[QueryParseError] " ++ message ++ " | Context: " ++ context)

/-- handleErrorSQLGen models `handleError(errMsg, context, SQLGenerationError)`
(src/lib/index.js lines 69-72): the thrown error's message is built from the
errMsg, the JSON.stringify of the context string, and — because handleError
passes a single argument to the error constructor — the literal text
"undefined" for the constructor's own context parameter. -/
def handleErrorSQLGen (errMsg context : String) : Err :=
  Err.mk "SQLGenerationError"
    ("[SQLGenerationError] " ++ errMsg ++ " | Context: \"" ++ context ++ "\" | Context: undefined")

/-- typeErrValueMap models the TypeError thrown by JS when `.map` is called
on a non-array value (reached when a logical operator's value is not an
array in the `$or`/`$nor`/`$and` branches of parseMongoQuery). -/
def typeErrValueMap : Err := Err.mk "TypeError" "value.map is not a function"

/-- OPERATORS_MYSQL is the static operator table of src/lib/index.js lines 77-91. -/
def OPERATORS_MYSQL : String → Option String
  | "$eq" => some "="
  | "$ne" => some "<>"
  | "$gt" => some ">"
  | "$gte" => some ">="
  | "$lt" => some "<"
  | "$lte" => some "<="
  | "$in" => some "IN"
  | "$nin" => some "NOT IN"
  | "$and" => some "AND"
  | "$or" => some "OR"
  | "$not" => some "NOT"
  | "$regex" => some "REGEXP"
  | "$like" => some "LIKE"
  | _ => none

/-- JoinConfig is one join configuration entry consumed by
prepareJoinMappings / generateJoinClause.  The JS `alias` field may be
absent; absence is modelled by the empty string, which is exactly the
falsy test the source performs.  The JS field `on` is named onStr here. -/
structure JoinConfig where
  tableName : String
  aliasStr : String
  joinType : String
  onStr : String
deriving Repr, DecidableEq

mutual
/-- JVal is a JS runtime value as far as the translator observes it:
null, undefined, booleans, numbers, strings, arrays, plain objects
(entry lists in insertion order), and SubQuery class instances. -/
inductive JVal where
  | null
  | undef
  | boolV (b : Bool)
  | num (n : Int)
  | str (s : String)
  | arr (xs : List JVal)
  | obj (fs : List (String × JVal))
  | sub (q : SubQuery)
deriving Repr

/-- SubQuery is the class of src/lib/index.js lines 427-442: it owns a
MongoQueryBuilder and a lazily populated cache slot for its compiled SQL. -/
inductive SubQuery where
  | mk (queryBuilder : MongoQueryBuilder) (cachedSQL : Option String)
deriving Repr

/-- MongoQueryBuilder is the SELECT builder state of src/lib/index.js
lines 896-988: table name, accumulated filter, optional projection,
join configurations, sort clause, and optional limit/offset values. -/
inductive MongoQueryBuilder where
  | mk (tableName : String) (filter : List (String × JVal))
       (projection : Option (List String)) (joinConfigs : List JoinConfig)
       (sortClause : String) (limitValue : Option Int) (offsetValue : Option Int)
deriving Repr
end

namespace MongoQueryBuilder

def tableName : MongoQueryBuilder → String
  | .mk t _ _ _ _ _ _ => t

def filter : MongoQueryBuilder → List (String × JVal)
  | .mk _ f _ _ _ _ _ => f

def projection : MongoQueryBuilder → Option (List String)
  | .mk _ _ p _ _ _ _ => p

def joinConfigs : MongoQueryBuilder → List JoinConfig
  | .mk _ _ _ j _ _ _ => j

def sortClause : MongoQueryBuilder → String
  | .mk _ _ _ _ s _ _ => s

def limitValue : MongoQueryBuilder → Option Int
  | .mk _ _ _ _ _ l _ => l

def offsetValue : MongoQueryBuilder → Option Int
  | .mk _ _ _ _ _ _ o => o

end MongoQueryBuilder

namespace SubQuery

def queryBuilder : SubQuery → MongoQueryBuilder
  | .mk b _ => b

def cachedSQL : SubQuery → Option String
  | .mk _ c => c

end SubQuery

/-- jsTruthy is JS truthiness of a value. -/
def jsTruthy : JVal → Bool
  | .null => false
  | .undef => false
  | .boolV b => b
  | .num n => n ≠ 0
  | .str s => s ≠ ""
  | .arr _ => true
  | .obj _ => true
  | .sub _ => true

/-- isSubQ decides the JS test `v instanceof SubQuery`. -/
def isSubQ : JVal → Bool
  | .sub _ => true
  | _ => false

/-- lookupJ is JS property access on an object modelled as an entry list
(first occurrence; JS objects cannot hold duplicate keys). -/
def lookupJ : List (String × JVal) → String → Option JVal
  | [], _ => none
  | (k, v) :: rest, key => if k = key then some v else lookupJ rest key

/-- assocReplace replaces the value of the first occurrence of a key,
keeping its position, as JS in-place property assignment does. -/
def assocReplace : List (String × JVal) → String → JVal → List (String × JVal)
  | [], _, _ => []
  | (k, v) :: rest, key, nv =>
    if k = key then (k, nv) :: rest else (k, v) :: assocReplace rest key nv

/-- jsonEscape escapes the quote and backslash characters for JSON string
output (control-character escapes are elided; no input of interest
contains them). -/
def jsonEscape (s : String) : String :=
  String.mk (s.data.flatMap (fun c =>
    if c = '"' then ['\\', '"'] else if c = '\\' then ['\\', '\\'] else [c]))

mutual
/-- jsonStringify models JSON.stringify on the values the translator
serializes ($all / $elemMatch operands).  A standalone undefined is not
serializable in JS; it is mapped to "null" here (as it is inside arrays);
no translated operand is undefined. -/
def jsonStringify : JVal → String
  | .null => "null"
  | .undef => "null"
  | .boolV b => if b then "true" else "false"
  | .num n => toString n
  | .str s => "\"" ++ jsonEscape s ++ "\""
  | .arr xs => "[" ++ joinSep "," (jsonList xs) ++ "]"
  | .obj fs => "\x7b" ++ joinSep "," (jsonFields fs) ++ "\x7d"
  | .sub q => jsonSub q

def jsonList : List JVal → List String
  | [] => []
  | x :: rest => jsonStringify x :: jsonList rest

def jsonFields : List (String × JVal) → List String
  | [] => []
  | (k, v) :: rest => ("\"" ++ jsonEscape k ++ "\":" ++ jsonStringify v) :: jsonFields rest

/-- jsonSub serializes a SubQuery instance's own enumerable fields, as
JSON.stringify would. -/
def jsonSub : SubQuery → String
  | .mk b cached =>
    "\x7b\"queryBuilder\":" ++ jsonQB b ++ ",\"cachedSQL\":" ++
      (match cached with
       | some c => "\"" ++ jsonEscape c ++ "\""
       | none => "null") ++ "\x7d"

def jsonQB : MongoQueryBuilder → String
  | .mk t f proj joins sort lim off =>
    "\x7b\"tableName\":\"" ++ jsonEscape t ++ "\",\"filter\":\x7b" ++
      joinSep "," (jsonFields f) ++ "\x7d,\"projection\":" ++
      (match proj with
       | some fs => "[" ++ joinSep "," (fs.map (fun s => "\"" ++ jsonEscape s ++ "\"")) ++ "]"
       | none => "null") ++ ",\"joinConfigs\":[" ++
      joinSep "," (joins.map (fun j =>
        "\x7b\"tableName\":\"" ++ jsonEscape j.tableName ++ "\",\"alias\":\"" ++
          jsonEscape j.aliasStr ++ "\",\"joinType\":\"" ++ jsonEscape j.joinType ++
          "\",\"on\":\"" ++ jsonEscape j.onStr ++ "\"\x7d")) ++ "],\"sortClause\":\"" ++
      jsonEscape sort ++ "\",\"limitValue\":" ++
      (match lim with
       | some n => toString n
       | none => "null") ++ ",\"offsetValue\":" ++
      (match off with
       | some n => toString n
       | none => "null") ++ "\x7d"
end

mutual
/-- jsToString is JS template-literal interpolation of a value (arrays
coerce to their comma-joined elements, objects to the object tag). -/
def jsToString : JVal → String
  | .null => "null"
  | .undef => "undefined"
  | .boolV b => if b then "true" else "false"
  | .num n => toString n
  | .str s => s
  | .arr xs => joinSep "," (jsToStringList xs)
  | .obj _ => "[object Object]"
  | .sub _ => "[object Object]"

def jsToStringList : List JVal → List String
  | [] => []
  | x :: rest => jsToString x :: jsToStringList rest
end

/-- OperatorPlugin is a registered custom operator handler
(src/lib/index.js lines 96-110).  The process-wide mutable registry is
modelled as an explicit list argument of the translation functions; the
handler receives field, operand, current conditions, current params and
context, and returns the updated conditions and params. -/
structure OperatorPlugin where
  operator : String
  handler : String → JVal → List String → List JVal → String → (List String × List JVal)

end MongoAdapter

namespace MongoAdapter

/-- takeUntilDot is the text before the first dot of a string
(parts-0 of the JS `key.split(".")`). -/
def takeUntilDot (s : String) : String :=
  String.mk (s.data.takeWhile (fun c => c ≠ '.'))

/-- secondSeg is the text between the first and the second dot of a
string (parts-1 of the JS `key.split(".")`, for keys that contain a dot). -/
def secondSeg (s : String) : String :=
  String.mk (((s.data.dropWhile (fun c => c ≠ '.')).drop 1).takeWhile (fun c => c ≠ '.'))

/-- containsDot decides `key.indexOf('.') !== -1`. -/
def containsDot (s : String) : Bool := s.data.contains '.'

/-- prepareJoinMappings (src/lib/index.js lines 364-377) maps each join
alias (falling back to the table name) to its configuration.  The JS
dictionary is modelled as an association list; only membership lookups
are performed on it. -/
def prepareJoinMappings (joinConfigs : List JoinConfig) : List (String × JoinConfig) :=
  joinConfigs.foldl (fun m j =>
    let alias0 := if j.aliasStr ≠ "" then j.aliasStr else j.tableName
    (m.filter (fun p => p.1 ≠ alias0)) ++ [(alias0, j)]) []

/-- mappingsHas decides membership of an alias in the join mappings. -/
def mappingsHas (m : List (String × JoinConfig)) (a : String) : Bool :=
  m.any (fun p => p.1 = a)

/-- parseProjectStageWithJoinsOptimized (src/lib/index.js lines 379-398)
builds the aliased SELECT column list for a projection under joins. -/
def parseProjectStageWithJoinsOptimized (projectFields : List String)
    (joinMappings : List (String × JoinConfig)) (mainTableName : String) : String :=
  joinSep ", " (projectFields.map (fun key =>
    if containsDot key then
      let alias0 := takeUntilDot key
      let col := secondSeg key
      if mappingsHas joinMappings alias0 then
        alias0 ++ "." ++ col ++ " AS " ++ alias0 ++ "_" ++ col
      else
        mainTableName ++ "." ++ key ++ " AS " ++ mainTableName ++ "_" ++ key
    else
      mainTableName ++ "." ++ key ++ " AS " ++ mainTableName ++ "_" ++ key))

/-- generateJoinClause (src/lib/index.js lines 400-407). -/
def generateJoinClause (joinConfigs : List JoinConfig) : String :=
  joinSep " " (joinConfigs.map (fun j =>
    let aliasPart := if j.aliasStr ≠ "" then " AS " ++ j.aliasStr else ""
    " " ++ j.joinType ++ " " ++ j.tableName ++ aliasPart ++ " ON " ++ j.onStr))

/-- strEntriesGo iterates the characters of a string value the way the JS
for-in loop iterates a string: index keys and one-character values, each
producing an equality condition and one parameter. -/
def strEntriesGo : List Char → Nat → List String × List JVal
  | [], _ => ([], [])
  | c :: rest, i =>
    let (cs, ps) := strEntriesGo rest (i + 1)
    ((toString i ++ " = ?") :: cs, JVal.str (String.mk [c]) :: ps)

mutual
/-- wfEntries: well-formedness of a filter-tree object.  Keys carry no
placeholder character, values of logical (dollar) keys are arrays of
nested filter objects, field values are well-formed. -/
def wfEntries : List (String × JVal) → Bool
  | [] => true
  | (k, v) :: rest =>
    noQMb k && (if startsWithDollar k then wfQueryArr v else wfFieldVal v) && wfEntries rest

def wfQueryArr : JVal → Bool
  | .arr xs => wfQueryElems xs
  | _ => false

def wfQueryElems : List JVal → Bool
  | [] => true
  | x :: rest => wfQueryElem x && wfQueryElems rest

def wfQueryElem : JVal → Bool
  | .obj fs => wfEntries fs
  | _ => false

def wfFieldVal : JVal → Bool
  | .sub s => wfSubQ s
  | .obj fs => wfOps fs
  | _ => true

def wfOps : List (String × JVal) → Bool
  | [] => true
  | (op, ov) :: rest => noQMb op && wfOperand ov && wfOps rest

def wfOperand : JVal → Bool
  | .sub s => wfSubQ s
  | .arr xs => wfArrElems xs
  | _ => true

def wfArrElems : List JVal → Bool
  | [] => true
  | x :: rest =>
    (match x with
     | .sub s => wfSubQ s
     | _ => true) && wfArrElems rest

def wfSubQ : SubQuery → Bool
  | .mk b cached => cached.isNone && wfQB b

def wfQB : MongoQueryBuilder → Bool
  | .mk t f proj joins sort _ _ =>
    noQMb t && wfEntries f &&
      (match proj with
       | some fs => fs.all noQMb
       | none => true) &&
      joins.all (fun j => noQMb j.tableName && noQMb j.aliasStr && noQMb j.joinType && noQMb j.onStr) &&
      noQMb sort
end

end MongoAdapter

namespace MongoAdapter

/-- opOrSelf is the lookup `OPERATORS_MYSQL[operator] || operator` used
when joining the sub-conditions of a generic logical operator. -/
def opOrSelf (operator : String) : String := (OPERATORS_MYSQL operator).getD operator

mutual
/-- parseMongoQuery is the recursive filter translator of
src/lib/index.js lines 144-228.  The JS for-in loop over the query
object's keys is recursion over the entry list; the local `conditions`
array and the caller-owned `params` array are accumulator arguments;
the final join of the conditions (line 225) happens at the end of the
list.  The per-key try/catch (lines 218-222) re-wraps any error thrown
while processing one key as a QueryParseError carrying the current
context; parseKey below is the body of one loop iteration. -/
def parseMongoQuery (pl : List OperatorPlugin) (query : List (String × JVal))
    (conditions : List String) (params : List JVal) (context : String) :
    Except Err (String × List JVal) :=
  match query with
  | [] => .ok (if conditions.isEmpty then "1=1" else joinSep " AND " conditions, params)
  | (key, value) :: rest =>
    match parseKey pl key value conditions params context with
    | .error e => .error (QueryParseError e.message context)
    | .ok (conditions1, params1) => parseMongoQuery pl rest conditions1 params1 context
termination_by structural query

/-- parseKey is the body of one iteration of parseMongoQuery's key loop
(src/lib/index.js lines 147-217): logical-operator dispatch for dollar
keys (with the generic handleLogicalOperators of lines 230-244 inlined
in the final dollar branch), then SubQuery / operator-object / literal
dispatch for field keys. -/
def parseKey (pl : List OperatorPlugin) (key : String) (value : JVal)
    (conditions : List String) (params : List JVal) (context : String) :
    Except Err (List String × List JVal) :=
  if startsWithDollar key then
    if key = "$or" then
      match value with
      | .arr xs => do
        let (cs, params1) ← parseQueryList pl xs params context "OR" 0
        let orConditions := cs.filter (fun c => c ≠ "" && c ≠ "1=1")
        if orConditions.length > 0 then
          .ok (conditions ++ ["(" ++ joinSep " OR " orConditions ++ ")"], params1)
        else
          .ok (conditions ++ ["1=0"], params1)
      | _ => .error typeErrValueMap
    else if key = "$nor" then
      match value with
      | .arr xs => do
        let (cs, params1) ← parseQueryList pl xs params context "NOR" 0
        let norConditions := cs.filter (fun c => c ≠ "" && c ≠ "1=1")
        if norConditions.length ≠ 0 then
          .ok (conditions ++ ["NOT (" ++ joinSep " OR " norConditions ++ ")"], params1)
        else
          .ok (conditions ++ ["1=1"], params1)
      | _ => .error typeErrValueMap
    else if key = "$and" then
      match value with
      | .arr xs => do
        let (cs, params1) ← parseQueryList pl xs params context "AND" 0
        let andConditions := cs.filter (fun c => c ≠ "")
        if andConditions.length ≠ 0 then
          .ok (conditions ++ [joinSep " AND " andConditions], params1)
        else
          .ok (conditions, params1)
      | _ => .error typeErrValueMap
    else
      -- handleLogicalOperators, src/lib/index.js lines 230-244, inlined
      match value with
      | .arr xs =>
        if xs.isEmpty then
          .ok (conditions ++ [if key = "$and" then "1=1" else "1=0"], params)
        else do
          let (cs, params1) ← parseQueryList pl xs params context key 0
          let subConds := cs.map (fun c => "(" ++ c ++ ")")
          if key = "$nor" then
            .ok (conditions ++ ["NOT (" ++ joinSep " OR " subConds ++ ")"], params1)
          else
            .ok (conditions ++ ["(" ++ joinSep (" " ++ opOrSelf key ++ " ") subConds ++ ")"],
              params1)
      | _ => .ok (conditions ++ [if key = "$and" then "1=1" else "1=0"], params)
  else
    match value with
    | .sub s => do
      let subResult ← SubQuery.toSQL pl s
      let conditions1 := conditions ++ [key ++ " IN " ++ subResult]
      let ps2 ← SubQuery.getParams pl s
      .ok (conditions1, params ++ ps2)
    | .obj fs => do
      let (fieldConds, params1) ← parseFieldOps pl key fs [] params context
      match fieldConds with
      | [] => .ok (conditions, params1)
      | [c] => .ok (conditions ++ [c], params1)
      | _ => .ok (conditions ++ ["(" ++ joinSep " AND " fieldConds ++ ")"], params1)
    | _ => .ok (conditions ++ [key ++ " = ?"], params ++ [value])
termination_by structural value

/-- parseQueryList is the `value.map(subQuery => parseMongoQuery(...))`
of the logical-operator branches, threading the shared params array and
building the per-element context path. -/
def parseQueryList (pl : List OperatorPlugin) (xs : List JVal) (params : List JVal)
    (context label : String) (idx : Nat) : Except Err (List String × List JVal) :=
  match xs with
  | [] => .ok ([], params)
  | x :: rest => do
    let (c, params1) ←
      parseValueQuery pl x params (context ++ "->" ++ label ++ "[" ++ toString idx ++ "]")
    let (cs, params2) ← parseQueryList pl rest params1 context label (idx + 1)
    .ok (c :: cs, params2)
termination_by structural xs

/-- parseValueQuery applies parseMongoQuery to an arbitrary JS value the
way the JS for-in loop would see it: objects iterate their entries,
arrays iterate index keys, strings iterate character index keys, and
primitive values have no enumerable keys (yielding the 1=1 clause).
A SubQuery instance's own enumerable fields would be iterated by JS;
no claim exercises that corner and it is modelled as no keys. -/
def parseValueQuery (pl : List OperatorPlugin) (x : JVal) (params : List JVal)
    (context : String) : Except Err (String × List JVal) :=
  match x with
  | .obj fs => parseMongoQuery pl fs [] params context
  | .arr ys => parseArrEntries pl ys 0 [] params context
  | .str s =>
    let (cs, ps2) := strEntriesGo s.data 0
    .ok (if cs.isEmpty then "1=1" else joinSep " AND " cs, params ++ ps2)
  | _ => .ok ("1=1", params)
termination_by structural x

/-- parseArrEntries is parseMongoQuery's key loop applied to an array
value: the keys are the decimal indices (which never start with the
dollar sign, so every element takes the field-key path), with the same
per-key error wrapping. -/
def parseArrEntries (pl : List OperatorPlugin) (ys : List JVal) (idx : Nat)
    (conditions : List String) (params : List JVal) (context : String) :
    Except Err (String × List JVal) :=
  match ys with
  | [] => .ok (if conditions.isEmpty then "1=1" else joinSep " AND " conditions, params)
  | y :: rest =>
    match parseKey pl (toString idx) y conditions params context with
    | .error e => .error (QueryParseError e.message context)
    | .ok (conditions1, params1) => parseArrEntries pl rest (idx + 1) conditions1 params1 context
termination_by structural ys

/-- parseFieldOps is the inner `for op in value` loop of
src/lib/index.js lines 191-207: SubQuery-valued $in, array operators,
plugin/built-in operators, and implicit equality for non-dollar keys,
accumulating into the per-field fieldConds array. -/
def parseFieldOps (pl : List OperatorPlugin) (field : String) (ops : List (String × JVal))
    (fieldConds : List String) (params : List JVal) (context : String) :
    Except Err (List String × List JVal) :=
  match ops with
  | [] => .ok (fieldConds, params)
  | (op, opValue) :: rest =>
    if startsWithDollar op then
      if op = "$in" && isSubQ opValue then
        match opValue with
        | .sub s => do
          let subResult ← SubQuery.toSQL pl s
          let fieldConds1 := fieldConds ++ [field ++ " IN " ++ subResult]
          let ps2 ← SubQuery.getParams pl s
          parseFieldOps pl field rest fieldConds1 (params ++ ps2) context
        | _ => parseFieldOps pl field rest fieldConds params context  -- unreachable: isSubQ
      else
        if op = "$in" || op = "$nin" || op = "$all" then do
          let (fieldConds1, params1) ←
            handleArrayOperators pl field opValue op fieldConds params context
          parseFieldOps pl field rest fieldConds1 params1 context
        else do
          let (fieldConds1, params1) ←
            handleOperator pl field opValue op fieldConds params context
          parseFieldOps pl field rest fieldConds1 params1 context
    else
      parseFieldOps pl field rest (fieldConds ++ [field ++ " = ?"]) (params ++ [opValue])
        context
termination_by structural ops

/-- handleArrayOperators is src/lib/index.js lines 246-298: empty or
non-array values collapse to the fixed truth values, arrays containing a
SubQuery produce a mixed IN list, and pure arrays produce IN / NOT IN /
JSON_CONTAINS forms.  The inner re-checks of emptiness (lines 273, 281)
are dead in the source and kept here verbatim. -/
def handleArrayOperators (pl : List OperatorPlugin) (field : String) (values : JVal)
    (operator : String) (conditions : List String) (params : List JVal)
    (context : String) : Except Err (List String × List JVal) :=
  match values with
  | .arr xs =>
    if xs.isEmpty then
      if operator = "$in" then .ok (conditions ++ ["1=0"], params)
      else if operator = "$nin" then .ok (conditions ++ ["1=1"], params)
      else .ok (conditions, params)
    else if xs.any isSubQ then do
      let (frags, params1) ← arrMixGo pl xs params
      .ok (conditions ++ [field ++ " IN (" ++ joinSep ", " frags ++ ")"], params1)
    else
      if operator = "$in" then
        if xs.length = 0 then .ok (conditions ++ ["1=0"], params)
        else
          let placeholders := joinSep ", " (xs.map (fun _ => "?"))
          .ok (conditions ++ [field ++ " IN (" ++ placeholders ++ ")"], params ++ xs)
      else if operator = "$nin" then
        if xs.length = 0 then .ok (conditions ++ ["1=1"], params)
        else
          let placeholders := joinSep ", " (xs.map (fun _ => "?"))
          .ok (conditions ++ [field ++ " NOT IN (" ++ placeholders ++ ")"], params ++ xs)
      else if operator = "$all" then
        let subConds := xs.map (fun _ => "JSON_CONTAINS(" ++ field ++ ", ?)")
        .ok (conditions ++ ["(" ++ joinSep " AND " subConds ++ ")"],
          params ++ xs.map (fun val => JVal.str (jsonStringify val)))
      else .ok (conditions, params)
  | _ =>
    if operator = "$in" then .ok (conditions ++ ["1=0"], params)
    else if operator = "$nin" then .ok (conditions ++ ["1=1"], params)
    else .ok (conditions, params)
termination_by structural values

/-- arrMixGo is the map of src/lib/index.js lines 261-269: each SubQuery
element contributes its own parameters (pushed before its SQL text is
read) and its compiled text, each literal element contributes one
placeholder and itself as a parameter. -/
def arrMixGo (pl : List OperatorPlugin) (xs : List JVal) (params : List JVal) :
    Except Err (List String × List JVal) :=
  match xs with
  | [] => .ok ([], params)
  | v :: rest =>
    match v with
    | .sub s => do
      let ps2 ← SubQuery.getParams pl s
      let t ← SubQuery.toSQL pl s
      let (frags, params1) ← arrMixGo pl rest (params ++ ps2)
      .ok (t :: frags, params1)
    | _ => do
      let (frags, params1) ← arrMixGo pl rest (params ++ [v])
      .ok ("?" :: frags, params1)
termination_by structural xs

/-- handleOperator is src/lib/index.js lines 300-345: registered plugins
are consulted first (first match wins and takes full responsibility),
then a SubQuery operand redirects to an IN clause, then the structural
operators, then the static comparison table; an unknown operator raises
the unsupported-operator SQLGenerationError via handleError. -/
def handleOperator (pl : List OperatorPlugin) (field : String) (opValue : JVal)
    (operator : String) (conditions : List String) (params : List JVal)
    (context : String) : Except Err (List String × List JVal) :=
  match pl.find? (fun p => p.operator == operator) with
  | some plugin => .ok (plugin.handler field opValue conditions params context)
  | none =>
    match opValue with
    | .sub s => do
      let subSql ← SubQuery.toSQL pl s
      let conditions1 := conditions ++ [field ++ " IN " ++ subSql]
      let ps2 ← SubQuery.getParams pl s
      .ok (conditions1, params ++ ps2)
    | _ =>
      if operator = "$exists" then
        .ok (conditions ++ [field ++ (if jsTruthy opValue then " IS NOT NULL" else " IS NULL")],
          params)
      else if operator = "$size" then
        .ok (conditions ++ ["JSON_LENGTH(" ++ field ++ ") = ?"], params ++ [opValue])
      else if operator = "$elemMatch" then
        .ok (conditions ++ ["JSON_CONTAINS(" ++ field ++ ", ?)"],
          params ++ [JVal.str (jsonStringify opValue)])
      else if operator = "$regex" then
        .ok (conditions ++ [field ++ " REGEXP ?"], params ++ [opValue])
      else if operator = "$like" then
        .ok (conditions ++ [field ++ " LIKE ?"], params ++ [opValue])
      else
        match OPERATORS_MYSQL operator with
        | some sqlOperator =>
          .ok (conditions ++ [field ++ " " ++ sqlOperator ++ " ?"], params ++ [opValue])
        | none =>
          .error (handleErrorSQLGen
            ("Unsupported operator \"" ++ operator ++ "\" for field \"" ++ field ++ "\"")
            context)
termination_by structural opValue

/-- SubQuery.toSQL is src/lib/index.js lines 432-438 as read during one
translation pass: the cache is used when populated, otherwise the
wrapped builder is compiled and its SQL parenthesized.  (The JS method
also stores the fresh text into this.cachedSQL; the stateful version is
subToSQLState below, defined outside this block.) -/
def SubQuery.toSQL (pl : List OperatorPlugin) (s : SubQuery) : Except Err String :=
  match s with
  | .mk queryBuilder cachedSQL =>
    match cachedSQL with
    | some c => .ok c
    | none => do
      let result ← MongoQueryBuilder.toSQL pl queryBuilder
      .ok ("(" ++ result.1 ++ ")")
termination_by structural s

/-- SubQuery.getParams is src/lib/index.js lines 439-441: it recompiles
the wrapped builder on every call and returns that pass's params,
ignoring the SQL cache. -/
def SubQuery.getParams (pl : List OperatorPlugin) (s : SubQuery) : Except Err (List JVal) :=
  match s with
  | .mk queryBuilder _ => do
    let result ← MongoQueryBuilder.toSQL pl queryBuilder
    .ok result.2
termination_by structural s

/-- MongoQueryBuilder.toSQL is src/lib/index.js lines 944-987: SELECT
clause from the projection (alias-qualified under joins), join clause,
WHERE clause from the translated filter, ORDER BY, and the paging rules
with the offset-without-limit sentinel. -/
def MongoQueryBuilder.toSQL (pl : List OperatorPlugin) (b : MongoQueryBuilder) :
    Except Err (String × List JVal) :=
  match b with
  | .mk tableName filter projection joinConfigs sortClause limitValue offsetValue => do
    let selectClause :=
      match projection with
      | some fields =>
        if joinConfigs.isEmpty then joinSep ", " fields
        else parseProjectStageWithJoinsOptimized fields (prepareJoinMappings joinConfigs)
          tableName
      | none => "*"
    let sql := "SELECT " ++ selectClause ++ " FROM " ++ tableName
    let sql := if joinConfigs.isEmpty then sql else sql ++ generateJoinClause joinConfigs
    let (whereClause, params) ← parseMongoQuery pl filter [] [] "SELECT"
    let sql := if whereClause ≠ "" then sql ++ " WHERE " ++ whereClause else sql
    let sql := if sortClause ≠ "" then sql ++ " ORDER BY " ++ sortClause else sql
    let sql :=
      match limitValue, offsetValue with
      | some l, some o => sql ++ " LIMIT " ++ toString l ++ " OFFSET " ++ toString o
      | some l, none => sql ++ " LIMIT " ++ toString l
      | none, some o => sql ++ " LIMIT 18446744073709551615 OFFSET " ++ toString o
      | none, none => sql
    .ok (sql, params)
termination_by structural b
end

end MongoAdapter

namespace MongoAdapter

/-- subToSQLState is the stateful reading of SubQuery.toSQL
(src/lib/index.js lines 432-438): on a cache miss the compiled
parenthesized SQL is stored into this.cachedSQL, and the updated
instance is returned alongside the text. -/
def subToSQLState (pl : List OperatorPlugin) (s : SubQuery) :
    Except Err (String × SubQuery) :=
  match s with
  | .mk b cached =>
    match cached with
    | some c => .ok (c, .mk b (some c))
    | none => do
      let result ← MongoQueryBuilder.toSQL pl b
      let t := "(" ++ result.1 ++ ")"
      .ok (t, .mk b (some t))

/-- mergeFilter is the shared body of the query(queryObj) methods of
MongoQueryBuilder, MongoUpdateBuilder and MongoDeleteBuilder
(src/lib/index.js lines 673-683, 804-813, 907-917): the first call sets
the filter verbatim; later calls wrap the accumulated filter into a
fresh single-key $and object unless a truthy $and property already
exists, then push the new filter onto the $and array.  Pushing onto a
truthy non-array $and raises the JS TypeError. -/
def mergeFilter (cur q : List (String × JVal)) : Except Err (List (String × JVal)) :=
  if cur.isEmpty then .ok q
  else
    match lookupJ cur "$and" with
    | some v =>
      if jsTruthy v then
        match v with
        | .arr xs => .ok (assocReplace cur "$and" (.arr (xs ++ [.obj q])))
        | _ => .error (Err.mk "TypeError" "this.filter.$and.push is not a function")
      else .ok [("$and", .arr [.obj cur, .obj q])]
    | none => .ok [("$and", .arr [.obj cur, .obj q])]

/-- MongoQueryBuilder.new is the constructor of src/lib/index.js
lines 897-905. -/
def MongoQueryBuilder.new (tableName : String) : MongoQueryBuilder :=
  .mk tableName [] none [] "" none none

/-- MongoQueryBuilder.query is src/lib/index.js lines 907-917. -/
def MongoQueryBuilder.query (b : MongoQueryBuilder) (queryObj : List (String × JVal)) :
    Except Err MongoQueryBuilder :=
  match b with
  | .mk t f proj joins sort lim off => do
    let f1 ← mergeFilter f queryObj
    .ok (.mk t f1 proj joins sort lim off)

/-- MongoQueryBuilder.project is src/lib/index.js lines 919-922. -/
def MongoQueryBuilder.project (b : MongoQueryBuilder) (fields : List String) :
    MongoQueryBuilder :=
  match b with
  | .mk t f _ joins sort lim off => .mk t f (some fields) joins sort lim off

/-- MongoQueryBuilder.join is src/lib/index.js lines 924-927. -/
def MongoQueryBuilder.join (b : MongoQueryBuilder) (joinConfigs : List JoinConfig) :
    MongoQueryBuilder :=
  match b with
  | .mk t f proj _ sort lim off => .mk t f proj joinConfigs sort lim off

/-- MongoQueryBuilder.sort is src/lib/index.js lines 929-932. -/
def MongoQueryBuilder.sort (b : MongoQueryBuilder) (sortBy : String) : MongoQueryBuilder :=
  match b with
  | .mk t f proj joins _ lim off => .mk t f proj joins sortBy lim off

/-- MongoQueryBuilder.limit is src/lib/index.js lines 934-937. -/
def MongoQueryBuilder.limit (b : MongoQueryBuilder) (n : Int) : MongoQueryBuilder :=
  match b with
  | .mk t f proj joins sort _ off => .mk t f proj joins sort (some n) off

/-- MongoQueryBuilder.skip is src/lib/index.js lines 939-942. -/
def MongoQueryBuilder.skip (b : MongoQueryBuilder) (n : Int) : MongoQueryBuilder :=
  match b with
  | .mk t f proj joins sort lim _ => .mk t f proj joins sort lim (some n)

/-- MongoUpdateBuilder is the UPDATE builder state of src/lib/index.js
lines 643-796. -/
structure MongoUpdateBuilder where
  tableName : String
  idField : String
  dataObj : Option (List (String × JVal))
  dataArray : Option (List (List (String × JVal)))
  filter : List (String × JVal)
  singleUpdate : Bool
deriving Repr

/-- MongoUpdateBuilder.new is the constructor (lines 644-651); idField
defaults to "id" at call sites. -/
def MongoUpdateBuilder.new (tableName idField : String) : MongoUpdateBuilder :=
  ⟨tableName, idField, none, none, [], false⟩

/-- MongoUpdateBuilder.update is src/lib/index.js lines 652-672: an
array of row objects each required to carry the identity field, or an
update-operations object (a plain field map is wrapped into $set). -/
def MongoUpdateBuilder.update (b : MongoUpdateBuilder) (updateData : JVal) :
    Except Err MongoUpdateBuilder :=
  match updateData with
  | .arr docs =>
    if docs.all (fun d =>
        match d with
        | .obj fs => (lookupJ fs b.idField).isSome
        | _ => false) then
      .ok { b with
        dataArray := some (docs.map (fun d =>
          match d with
          | .obj fs => fs
          | _ => [])),
        dataObj := none }
    else
      .error (handleErrorSQLGen ("每个更新对象必须包含 '" ++ b.idField ++ "' 字段")
        "MongoUpdateBuilder")
  | .obj fs =>
    if fs.all (fun kv => !startsWithDollar kv.1) then
      .ok { b with dataObj := some [("$set", .obj fs)], dataArray := none }
    else
      .ok { b with dataObj := some fs, dataArray := none }
  | _ => .error (handleErrorSQLGen "更新数据必须为对象或数组。" "MongoUpdateBuilder")

/-- MongoUpdateBuilder.query is src/lib/index.js lines 673-683. -/
def MongoUpdateBuilder.query (b : MongoUpdateBuilder) (queryObj : List (String × JVal)) :
    Except Err MongoUpdateBuilder := do
  let f1 ← mergeFilter b.filter queryObj
  .ok { b with filter := f1 }

/-- MongoUpdateBuilder.single is src/lib/index.js lines 684-687. -/
def MongoUpdateBuilder.single (b : MongoUpdateBuilder) : MongoUpdateBuilder :=
  { b with singleUpdate := true }

/-- updSetGo is the loop over the update-operations object of
MongoUpdateBuilder.toSQL (src/lib/index.js lines 697-736), producing
the SET clauses and their parameters. -/
def updSetGo (idCtxMsg : Unit) : List (String × JVal) → List String → List JVal →
    Except Err (List String × List JVal)
  | [], setClauses, params => .ok (setClauses, params)
  | (op, v) :: rest, setClauses, params => do
    let (setClauses1, params1) ←
      if op = "$set" then
        match v with
        | .obj [] =>
          .error (handleErrorSQLGen "无效的 $set 更新操作: 不能为空" "MongoUpdateBuilder.toSQL")
        | .obj fs =>
          if fs.any (fun kv => kv.2 matches JVal.undef) then
            .error (handleErrorSQLGen
              ("字段 " ++ ((fs.find? (fun kv => kv.2 matches JVal.undef)).map Prod.fst).getD ""
                ++ " 不能设置为 undefined")
              "MongoUpdateBuilder.toSQL")
          else
            .ok (setClauses ++ fs.map (fun kv => kv.1 ++ " = ?"), params ++ fs.map Prod.snd)
        | _ =>
          .error (handleErrorSQLGen "无效的 $set 更新操作: 不能为空" "MongoUpdateBuilder.toSQL")
      else if op = "$inc" then
        match v with
        | .obj fs =>
          .ok (setClauses ++ fs.map (fun kv => kv.1 ++ " = " ++ kv.1 ++ " + ?"),
            params ++ fs.map Prod.snd)
        | _ => .ok (setClauses, params)
      else if op = "$unset" then
        match v with
        | .obj fs => .ok (setClauses ++ fs.map (fun kv => kv.1 ++ " = NULL"), params)
        | .null => .ok (setClauses, params)
        | .arr xs =>
          .ok (setClauses ++ (List.range xs.length).map (fun i => toString i ++ " = NULL"),
            params)
        | _ =>
          .error (handleErrorSQLGen "无效的 $unset 语法，应为 \x7b field1: '', field2: '' \x7d"
            "MongoUpdateBuilder")
      else if op = "$mul" then
        match v with
        | .obj fs =>
          .ok (setClauses ++ fs.map (fun kv => kv.1 ++ " = " ++ kv.1 ++ " * ?"),
            params ++ fs.map Prod.snd)
        | _ => .ok (setClauses, params)
      else
        .error (handleErrorSQLGen ("不支持的更新操作符: " ++ op) "MongoUpdateBuilder")
    updSetGo idCtxMsg rest setClauses1 params1

/-- bulkUpdateColumns is the Set-building pass of the bulk branch
(src/lib/index.js lines 747-755): the distinct non-identity keys across
all rows, in first-seen order. -/
def bulkUpdateColumns (idField : String) (rows : List (List (String × JVal))) : List String :=
  rows.foldl (fun acc row =>
    row.foldl (fun acc2 kv =>
      if kv.1 ≠ idField && !(acc2.contains kv.1) then acc2 ++ [kv.1] else acc2) acc) []

/-- MongoUpdateBuilder.toSQL is src/lib/index.js lines 688-795: the
missing-filter guard, the update-operations form, and the bulk CASE
form, with the optional LIMIT 1 suffix from single(). -/
def MongoUpdateBuilder.toSQL (pl : List OperatorPlugin) (b : MongoUpdateBuilder) :
    Except Err (String × List JVal) :=
  if b.filter.isEmpty then
    .error (handleErrorSQLGen "更新操作必须指定查询条件，防止误更新所有记录。" "MongoUpdateBuilder")
  else
    match b.dataObj with
    | some updateOps => do
      let (setClauses, params) ← updSetGo () updateOps [] []
      if setClauses.isEmpty then
        .error (handleErrorSQLGen "未指定更新字段。" "MongoUpdateBuilder")
      else do
        let sql := "UPDATE " ++ b.tableName ++ " SET " ++ joinSep ", " setClauses
        let (whereClause, params1) ← parseMongoQuery pl b.filter [] params "UPDATE"
        let sql := sql ++ " WHERE " ++ whereClause
        .ok (sql ++ (if b.singleUpdate then " LIMIT 1" else ""), params1)
    | none =>
      match b.dataArray with
      | some rows =>
        if rows.isEmpty then
          .error (handleErrorSQLGen "未指定更新对象。" "MongoUpdateBuilder")
        else
          let updateColumns := bulkUpdateColumns b.idField rows
          if updateColumns.isEmpty then
            .error (handleErrorSQLGen "批量更新时，未检测到有效字段。" "MongoUpdateBuilder")
          else do
            let setClauses := updateColumns.map (fun col =>
              let cases := joinSep " "
                ((rows.map (fun row =>
                  if (lookupJ row col).isSome then "WHEN ? THEN ?" else "")).filter
                  (fun x => x ≠ ""))
              col ++ " = CASE " ++ b.idField ++ " " ++ cases ++ " ELSE " ++ col ++ " END")
            let caseParams := updateColumns.foldl (fun acc col =>
              rows.foldl (fun a2 row =>
                if (lookupJ row col).isSome then
                  a2 ++ [(lookupJ row b.idField).getD .undef, (lookupJ row col).getD .undef]
                else a2) acc) []
            let ids := rows.map (fun row => (lookupJ row b.idField).getD .undef)
            let placeholders := joinSep ", " (ids.map (fun _ => "?"))
            let bulkWhereClause := b.idField ++ " IN (" ++ placeholders ++ ")"
            let (extraCondition, extraParams) ← parseMongoQuery pl b.filter [] [] "BULK_UPDATE"
            let bulkWhereClause :=
              if extraCondition ≠ "1=1" then bulkWhereClause ++ " AND (" ++ extraCondition ++ ")"
              else bulkWhereClause
            let sql := "UPDATE " ++ b.tableName ++ " SET " ++ joinSep ", " setClauses ++
              " WHERE " ++ bulkWhereClause
            let params := caseParams ++ ids ++ extraParams
            .ok (sql ++ (if b.singleUpdate then " LIMIT 1" else ""), params)
      | none => .error (handleErrorSQLGen "未指定更新数据。" "MongoUpdateBuilder")

/-- MongoDeleteBuilder is the DELETE builder of src/lib/index.js
lines 798-832. -/
structure MongoDeleteBuilder where
  tableName : String
  filter : List (String × JVal)
  singleDelete : Bool
deriving Repr

def MongoDeleteBuilder.new (tableName : String) : MongoDeleteBuilder :=
  ⟨tableName, [], false⟩

/-- MongoDeleteBuilder.query is src/lib/index.js lines 804-813. -/
def MongoDeleteBuilder.query (b : MongoDeleteBuilder) (queryObj : List (String × JVal)) :
    Except Err MongoDeleteBuilder := do
  let f1 ← mergeFilter b.filter queryObj
  .ok { b with filter := f1 }

/-- MongoDeleteBuilder.single is src/lib/index.js lines 815-818. -/
def MongoDeleteBuilder.single (b : MongoDeleteBuilder) : MongoDeleteBuilder :=
  { b with singleDelete := true }

/-- MongoDeleteBuilder.toSQL is src/lib/index.js lines 819-831: the
missing-filter guard, then DELETE with the translated filter. -/
def MongoDeleteBuilder.toSQL (pl : List OperatorPlugin) (b : MongoDeleteBuilder) :
    Except Err (String × List JVal) :=
  if b.filter.isEmpty then
    .error (handleErrorSQLGen "删除操作必须指定查询条件，防止误删除所有记录。" "MongoDeleteBuilder")
  else do
    let (whereClause, params) ← parseMongoQuery pl b.filter [] [] "DELETE"
    let sql := "DELETE FROM " ++ b.tableName ++ " WHERE " ++ whereClause
    .ok (sql ++ (if b.singleDelete then " LIMIT 1" else ""), params)

end MongoAdapter

namespace MongoAdapter

/-- dropFirstChar models `s.substring(1)` (used to strip the dollar
sign from field references in group stages). -/
def dropFirstChar (s : String) : String := String.mk (s.data.drop 1)

/-- groupIdStr renders one value of a composite group _id mapping:
dollar-prefixed string references are stripped, other values are
interpolated. -/
def groupIdStr (v : JVal) : String :=
  match v with
  | .str s => if startsWithDollar s then dropFirstChar s else s
  | other => jsToString other

/-- groupAggsGo is the aggregate loop of parseGroupStage
(src/lib/index.js lines 480-506): every key other than _id must map to
a single-operator aggregate object; the first key of that object picks
the SQL function, an unknown operator fails through handleError. -/
def groupAggsGo : List (String × JVal) → List String → Except Err (List String)
  | [], acc => .ok acc
  | (key, v) :: rest, acc =>
    if key = "_id" then groupAggsGo rest acc
    else
      let entries := match v with
        | .obj fs => fs
        | _ => []
      match entries with
      | [] =>
        .error (handleErrorSQLGen "不支持的聚合操作符: undefined" "parseGroupStage")
      | (operator, operand) :: _ =>
        let sqlFunc :=
          if operator = "$sum" then some "SUM"
          else if operator = "$avg" then some "AVG"
          else if operator = "$min" then some "MIN"
          else if operator = "$max" then some "MAX"
          else none
        match sqlFunc with
        | none =>
          .error (handleErrorSQLGen ("不支持的聚合操作符: " ++ operator) "parseGroupStage")
        | some fn =>
          let operandStr :=
            match operand with
            | .str s => if startsWithDollar s then dropFirstChar s else s
            | .undef => "NULL"
            | other => jsToString other
          groupAggsGo rest (acc ++ [fn ++ "(" ++ operandStr ++ ") AS " ++ key])

/-- parseGroupStage is src/lib/index.js lines 447-512: the identity
specification contributes SELECT and GROUP BY fragments (skipped when
falsy), each named aggregate contributes a SELECT expression; the
result is (selectClause, groupByClause, havingClause), the HAVING part
always empty in the source. -/
def parseGroupStage (groupObj : List (String × JVal)) :
    Except Err (String × String × String) := do
  let gid := lookupJ groupObj "_id"
  let (selectParts, groupByParts) :=
    match gid with
    | some v =>
      if jsTruthy v then
        match v with
        | .obj fs =>
          let subFields := fs.map (fun kv => groupIdStr kv.2)
          ([joinSep ", " subFields], [joinSep ", " subFields])
        | .str s =>
          if startsWithDollar s then
            let field := dropFirstChar s
            ([field ++ " AS _id"], [field])
          else (["'" ++ s ++ "' AS _id"], ["_id"])
        | other => (["'" ++ jsToString other ++ "' AS _id"], ["_id"])
      else ([], [])
    | none => ([], [])
  let selectParts ← groupAggsGo groupObj selectParts
  .ok (joinSep ", " selectParts, joinSep ", " groupByParts, "")

/-- Stage is one aggregation pipeline stage as pushed by the
MongoAggregationBuilder methods (src/lib/index.js lines 520-551). -/
inductive Stage where
  | smatch (q : List (String × JVal))
  | group (groupObj : List (String × JVal))
  | project (fields : List String)
  | sort (fields : List (String × Int))
  | limit (n : Int)
  | skip (n : Int)
  | lookup (fromTable localField foreignField asField : String)
  | unwind (fieldPath : String)
deriving Repr

/-- MongoAggregationBuilder is src/lib/index.js lines 514-638. -/
structure MongoAggregationBuilder where
  tableName : String
  pipeline : List Stage
  joinClause : String
deriving Repr

def MongoAggregationBuilder.new (tableName : String) : MongoAggregationBuilder :=
  ⟨tableName, [], ""⟩

def MongoAggregationBuilder.match_ (b : MongoAggregationBuilder)
    (q : List (String × JVal)) : MongoAggregationBuilder :=
  { b with pipeline := b.pipeline ++ [.smatch q] }

def MongoAggregationBuilder.group (b : MongoAggregationBuilder)
    (g : List (String × JVal)) : MongoAggregationBuilder :=
  { b with pipeline := b.pipeline ++ [.group g] }

def MongoAggregationBuilder.project (b : MongoAggregationBuilder)
    (fields : List String) : MongoAggregationBuilder :=
  { b with pipeline := b.pipeline ++ [.project fields] }

def MongoAggregationBuilder.sort (b : MongoAggregationBuilder)
    (fields : List (String × Int)) : MongoAggregationBuilder :=
  { b with pipeline := b.pipeline ++ [.sort fields] }

def MongoAggregationBuilder.limit (b : MongoAggregationBuilder) (n : Int) :
    MongoAggregationBuilder :=
  { b with pipeline := b.pipeline ++ [.limit n] }

def MongoAggregationBuilder.skip (b : MongoAggregationBuilder) (n : Int) :
    MongoAggregationBuilder :=
  { b with pipeline := b.pipeline ++ [.skip n] }

def MongoAggregationBuilder.lookup (b : MongoAggregationBuilder)
    (fromTable localField foreignField asField : String) : MongoAggregationBuilder :=
  { b with pipeline := b.pipeline ++ [.lookup fromTable localField foreignField asField] }

def MongoAggregationBuilder.unwind (b : MongoAggregationBuilder) (fieldPath : String) :
    MongoAggregationBuilder :=
  { b with pipeline := b.pipeline ++ [.unwind fieldPath] }

/-- unwindComment is the inert comment emitted for an $unwind stage. -/
def unwindComment (fieldPath : String) : String :=
  "/" ++ "* UNWIND(" ++ fieldPath ++ ") *" ++ "/"

/-- AggState is the accumulator of the stage fold inside
MongoAggregationBuilder.toSQL (src/lib/index.js lines 552-600). -/
structure AggState where
  params : List JVal
  whereConditions : List String
  groupClause : String
  havingClause : String
  selectClause : String
  orderClause : String
  limitClause : Option Int
  offsetClause : Option Int
  joins : String
  comments : List String
deriving Repr

/-- foldStages folds the pipeline stages left to right
(src/lib/index.js lines 563-600).  The JS `if (stage.$limit)` and
`if (stage.$skip)` tests are truthy tests on the stage's numeric value,
so a zero limit or skip leaves the state unchanged; the limit/offset
accumulators therefore only ever hold nonzero values, matching the
truthiness tests of the final assembly. -/
def foldStages (pl : List OperatorPlugin) (tableName : String) :
    List Stage → AggState → Except Err AggState
  | [], st => .ok st
  | stage :: rest, st => do
    let st1 ←
      match stage with
      | .smatch q => do
        let (conditionStr, params1) ← parseMongoQuery pl q [] st.params "$match"
        if conditionStr ≠ "" then
          pure { { st with whereConditions := st.whereConditions ++ [conditionStr] }
            with params := params1 }
        else pure { st with params := params1 }
      | .group g => do
        let (sel, grp, hav) ← parseGroupStage g
        pure { st with selectClause := sel, groupClause := grp, havingClause := hav }
      | .project fields =>
        if st.selectClause = "*" then
          pure { st with selectClause := joinSep ", " fields }
        else
          pure { st with selectClause := joinSep ", " fields ++ ", " ++ st.selectClause }
      | .sort fields =>
        let ord := joinSep ", "
          (fields.map (fun kv => kv.1 ++ " " ++ (if kv.2 = -1 then "DESC" else "ASC")))
        pure { st with orderClause := ord }
      | .limit n =>
        if n ≠ 0 then pure { st with limitClause := some n } else pure st
      | .skip n =>
        if n ≠ 0 then pure { st with offsetClause := some n } else pure st
      | .lookup fromTable localField foreignField asField =>
        pure { st with joins := st.joins ++ " LEFT JOIN " ++ fromTable ++ " AS " ++ asField ++
          " ON " ++ tableName ++ "." ++ localField ++ " = " ++ asField ++ "." ++ foreignField }
      | .unwind fieldPath =>
        pure { st with comments := st.comments ++ [unwindComment fieldPath] }
    foldStages pl tableName rest st1

/-- assembleAgg is the final SQL assembly of
MongoAggregationBuilder.toSQL (src/lib/index.js lines 602-633),
including the offset-without-limit sentinel. -/
def assembleAgg (tableName : String) (st : AggState) : String :=
  let sql := "SELECT " ++ st.selectClause ++ " FROM " ++ tableName
  let sql := if st.joins ≠ "" then sql ++ st.joins else sql
  let sql := if st.comments.length > 0 then sql ++ " " ++ joinSep " " st.comments else sql
  let sql := if st.whereConditions.length > 0 then
    sql ++ " WHERE " ++ joinSep " AND " st.whereConditions else sql
  let sql := if st.groupClause ≠ "" then sql ++ " GROUP BY " ++ st.groupClause else sql
  let sql := if st.havingClause ≠ "" then sql ++ " HAVING " ++ st.havingClause else sql
  let sql := if st.orderClause ≠ "" then sql ++ " ORDER BY " ++ st.orderClause else sql
  match st.limitClause with
  | some n =>
    sql ++ " LIMIT " ++ toString n ++
      (match st.offsetClause with
       | some m => " OFFSET " ++ toString m
       | none => "")
  | none =>
    match st.offsetClause with
    | some m => sql ++ " LIMIT 18446744073709551615 OFFSET " ++ toString m
    | none => sql

/-- aggInitState is the accumulator initialization of toSQL
(src/lib/index.js lines 553-561); the joins accumulator starts from the
builder's joinClause field. -/
def aggInitState (b : MongoAggregationBuilder) : AggState :=
  ⟨[], [], "", "", "*", "", none, none, b.joinClause, []⟩

/-- MongoAggregationBuilder.toSQL is src/lib/index.js lines 552-637. -/
def MongoAggregationBuilder.toSQL (pl : List OperatorPlugin)
    (b : MongoAggregationBuilder) : Except Err (String × List JVal) := do
  let st ← foldStages pl b.tableName b.pipeline (aggInitState b)
  .ok (assembleAgg b.tableName st, st.params)

/-- listPrefixOf decides that the first char list is a prefix of the second. -/
def listPrefixOf (pat s : List Char) : Bool :=
  match pat, s with
  | [], _ => true
  | _ :: _, [] => false
  | c :: cs, d :: ds => c = d && listPrefixOf cs ds

/-- hasSubstrAux scans the char list for an occurrence of the pattern. -/
def hasSubstrAux (pat : List Char) : List Char → Bool
  | [] => pat.isEmpty
  | c :: rest => listPrefixOf pat (c :: rest) || hasSubstrAux pat rest

/-- hasSubstr decides whether the second string occurs inside the first. -/
def hasSubstr (s pat : String) : Bool := hasSubstrAux pat.data s.data

/-- selectPrefix names the part of MongoQueryBuilder.toSQL's statement
text that precedes the WHERE clause (src/lib/index.js lines 944-957):
SELECT list, FROM table, and the optional join clause. -/
def selectPrefix (t : String) (proj : Option (List String)) (joins : List JoinConfig) :
    String :=
  let selectClause :=
    match proj with
    | some fields =>
      if joins.isEmpty then joinSep ", " fields
      else parseProjectStageWithJoinsOptimized fields (prepareJoinMappings joins) t
    | none => "*"
  let sql := "SELECT " ++ selectClause ++ " FROM " ++ t
  if joins.isEmpty then sql else sql ++ generateJoinClause joins

/-- orderSuffix is the optional ORDER BY tail of the select statement
(src/lib/index.js lines 971-974). -/
def orderSuffix (sort : String) : String :=
  if sort ≠ "" then " ORDER BY " ++ sort else ""

/-- pagingSuffix is the LIMIT/OFFSET tail of the select statement with
the offset-without-limit sentinel (src/lib/index.js lines 976-983). -/
def pagingSuffix (lim off : Option Int) : String :=
  match lim, off with
  | some l, some o => " LIMIT " ++ toString l ++ " OFFSET " ++ toString o
  | some l, none => " LIMIT " ++ toString l
  | none, some o => " LIMIT 18446744073709551615 OFFSET " ++ toString o
  | none, none => ""

/-- Frag is one fragment of emitted SQL: literal text, or a placeholder
with the parameter value bound at its position.  render flattens a
fragment list to its SQL text, holes lists the bound parameters in
textual order; together they state what it means for a parameter list
to be aligned with the placeholders of a clause. -/
inductive Frag where
  | txt (s : String)
  | hole (v : JVal)

def render : List Frag → String
  | [] => ""
  | .txt s :: rest => s ++ render rest
  | .hole _ :: rest => "?" ++ render rest

def holes : List Frag → List JVal
  | [] => []
  | .txt _ :: rest => holes rest
  | .hole v :: rest => v :: holes rest

/-- joinFrags interleaves a textual separator between fragment lists,
mirroring joinSep. -/
def joinFrags (sep : String) : List (List Frag) → List Frag
  | [] => []
  | c :: rest => rest.foldl (fun acc x => acc ++ [Frag.txt sep] ++ x) c

/-- CleanF: every literal-text fragment is free of the placeholder
character, so each placeholder of the rendered text comes from exactly
one hole. -/
def CleanF (fs : List Frag) : Prop := ∀ s, Frag.txt s ∈ fs → countQM s = 0

/-- CleanLL lifts CleanF to a list of fragment lists. -/
def CleanLL (css : List (List Frag)) : Prop := ∀ c ∈ css, CleanF c

/-- bulkRowsSetting: the rows that actually set a column (claim C8's
"rows that actually set that column"). -/
def bulkRowsSetting (col : String) (rows : List (List (String × JVal))) :
    List (List (String × JVal)) :=
  rows.filter (fun row => (lookupJ row col).isSome)

/-- bulkFirstSeenColumns: the distinct non-identity columns across all
rows in first-seen order, stated as claim C8 states it: deduplication
of the concatenated per-row non-identity key lists. -/
def bulkFirstSeenColumns (idField : String) (rows : List (List (String × JVal))) :
    List String :=
  (rows.flatMap (fun row => (row.map Prod.fst).filter (fun k => k ≠ idField))).foldl
    (fun acc k => if !(acc.contains k) then acc ++ [k] else acc) []

/-- bulkCaseClause: claim C8's CASE expression for one column, with
WHEN/THEN arms only for the rows that set the column. -/
def bulkCaseClause (idField col : String) (rows : List (List (String × JVal))) : String :=
  col ++ " = CASE " ++ idField ++ " " ++
    joinSep " " ((bulkRowsSetting col rows).map (fun _ => "WHEN ? THEN ?")) ++
    " ELSE " ++ col ++ " END"

/-- bulkColumnParams: claim C8's (id, value) parameter pairs for one
column, one pair per row that sets the column, in row order. -/
def bulkColumnParams (idField col : String) (rows : List (List (String × JVal))) :
    List JVal :=
  (bulkRowsSetting col rows).flatMap (fun row =>
    [(lookupJ row idField).getD .undef, (lookupJ row col).getD .undef])

/-- bulkSpecStatement: the bulk update statement exactly as claim C8
words it — one CASE assignment per distinct non-identity column in
first-seen order; parameters ordered as all (id, value) pairs per
column, then the identity list of the IN restriction, then the extra
filter's parameters; the extra filter ANDed on only when it is not the
always-true predicate. -/
def bulkSpecStatement (tableName idField : String) (rows : List (List (String × JVal)))
    (extraCondition : String) (extraParams : List JVal) : String × List JVal :=
  let cols := bulkFirstSeenColumns idField rows
  let ids := rows.map (fun row => (lookupJ row idField).getD .undef)
  let base := idField ++ " IN (" ++ joinSep ", " (ids.map (fun _ => "?")) ++ ")"
  let whereC := if extraCondition ≠ "1=1" then base ++ " AND (" ++ extraCondition ++ ")"
    else base
  ("UPDATE " ++ tableName ++ " SET " ++
      joinSep ", " (cols.map (fun col => bulkCaseClause idField col rows)) ++
      " WHERE " ++ whereC,
    cols.flatMap (fun col => bulkColumnParams idField col rows) ++ ids ++ extraParams)

end MongoAdapter

namespace MongoAdapter

theorem countQM_append (a b : String) : countQM (a ++ b) = countQM a + countQM b := by
  simp [countQM, String.data_append, List.count_append]

theorem countQM_of_noQMb (s : String) (h : noQMb s = true) : countQM s = 0 := by
  simp only [noQMb, List.all_eq_true, decide_eq_true_eq] at h
  simp only [countQM, List.count_eq_zero]
  intro hmem
  exact h '?' hmem rfl

theorem countQM_joinSep_aux (sep : String) (cs : List String) (acc : String) :
    countQM (cs.foldl (fun a x => a ++ sep ++ x) acc)
      = countQM acc + (cs.map (fun x => countQM sep + countQM x)).sum := by
  induction cs generalizing acc with
  | nil => simp
  | cons c rest ih => simp [ih, countQM_append]; omega

theorem countQM_joinSep (sep : String) (cs : List String) (hsep : countQM sep = 0)
    (h : ∀ c ∈ cs, countQM c = 0) : countQM (joinSep sep cs) = 0 := by
  cases cs with
  | nil => simp [joinSep, countQM]
  | cons c rest =>
    rw [joinSep, countQM_joinSep_aux]
    have hc : countQM c = 0 := h c (by simp)
    have hsum : (rest.map (fun x => countQM sep + countQM x)).sum = 0 := by
      apply List.sum_eq_zero_iff.mpr
      intro x hx
      simp only [List.mem_map] at hx
      obtain ⟨y, hy, rfl⟩ := hx
      simp [hsep, h y (List.mem_cons_of_mem _ hy)]
    omega

theorem render_append (a b : List Frag) : render (a ++ b) = render a ++ render b := by
  induction a with
  | nil => simp [render]
  | cons f rest ih =>
    cases f <;> simp [render, ih, String.append_assoc]

theorem holes_append (a b : List Frag) : holes (a ++ b) = holes a ++ holes b := by
  induction a with
  | nil => simp [holes]
  | cons f rest ih => cases f <;> simp [holes, ih]

theorem render_joinFrags_aux (sep : String) (css : List (List Frag)) (acc : List Frag) :
    render (css.foldl (fun a x => a ++ [Frag.txt sep] ++ x) acc)
      = (css.map render).foldl (fun a x => a ++ sep ++ x) (render acc) := by
  induction css generalizing acc with
  | nil => rfl
  | cons c rest ih =>
    rw [List.foldl_cons, List.map_cons, List.foldl_cons, ih]
    congr 1
    simp [render_append, render, String.append_assoc]

theorem render_joinFrags (sep : String) (css : List (List Frag)) :
    render (joinFrags sep css) = joinSep sep (css.map render) := by
  cases css with
  | nil => rfl
  | cons c rest =>
    show render (rest.foldl (fun a x => a ++ [Frag.txt sep] ++ x) c) = _
    rw [render_joinFrags_aux]
    rfl

theorem holes_joinFrags_aux (css : List (List Frag)) (sep : String) (acc : List Frag) :
    holes (css.foldl (fun a x => a ++ [Frag.txt sep] ++ x) acc)
      = holes acc ++ css.flatMap holes := by
  induction css generalizing acc with
  | nil => simp
  | cons c rest ih =>
    rw [List.foldl_cons, ih, holes_append, holes_append]
    simp [holes]

theorem holes_joinFrags (sep : String) (css : List (List Frag)) :
    holes (joinFrags sep css) = css.flatMap holes := by
  cases css with
  | nil => rfl
  | cons c rest =>
    show holes (rest.foldl (fun a x => a ++ [Frag.txt sep] ++ x) c) = _
    rw [holes_joinFrags_aux]
    simp

theorem CleanF_nil : CleanF [] := by intro s hs; simp at hs

theorem CleanF_append {a b : List Frag} (ha : CleanF a) (hb : CleanF b) :
    CleanF (a ++ b) := by
  intro s hs
  rcases List.mem_append.mp hs with h | h
  · exact ha s h
  · exact hb s h

theorem CleanF_txt {s : String} (h : countQM s = 0) : CleanF [Frag.txt s] := by
  intro x hx
  simp at hx
  subst hx
  exact h

theorem CleanF_hole (v : JVal) : CleanF [Frag.hole v] := by
  intro x hx
  simp at hx

theorem CleanF_cons_txt {s : String} {fs : List Frag} (h : countQM s = 0)
    (hf : CleanF fs) : CleanF (Frag.txt s :: fs) := by
  intro x hx
  rcases List.mem_cons.mp hx with h1 | h1
  · injection h1 with h2; subst h2; exact h
  · exact hf x h1

theorem CleanF_cons_hole {v : JVal} {fs : List Frag} (hf : CleanF fs) :
    CleanF (Frag.hole v :: fs) := by
  intro x hx
  rcases List.mem_cons.mp hx with h1 | h1
  · exact absurd h1 (by simp)
  · exact hf x h1

theorem CleanF_joinFrags_aux {sep : String} (hsep : countQM sep = 0)
    (css : List (List Frag)) (acc : List Frag) (hacc : CleanF acc) (h : CleanLL css) :
    CleanF (css.foldl (fun a x => a ++ [Frag.txt sep] ++ x) acc) := by
  induction css generalizing acc with
  | nil => exact hacc
  | cons c rest ih =>
    rw [List.foldl_cons]
    apply ih
    · exact CleanF_append (CleanF_append hacc (CleanF_txt hsep)) (h c (by simp))
    · intro x hx
      exact h x (List.mem_cons_of_mem _ hx)

theorem CleanF_joinFrags {sep : String} {css : List (List Frag)} (hsep : countQM sep = 0)
    (h : CleanLL css) : CleanF (joinFrags sep css) := by
  cases css with
  | nil => exact CleanF_nil
  | cons c rest =>
    show CleanF (rest.foldl (fun a x => a ++ [Frag.txt sep] ++ x) c)
    apply CleanF_joinFrags_aux hsep rest c (h c (by simp))
    intro x hx
    exact h x (List.mem_cons_of_mem _ hx)

theorem CleanLL_nil : CleanLL [] := by intro c hc; simp at hc

theorem CleanLL_append {a b : List (List Frag)} (ha : CleanLL a) (hb : CleanLL b) :
    CleanLL (a ++ b) := by
  intro c hc
  rcases List.mem_append.mp hc with h | h
  · exact ha c h
  · exact hb c h

theorem CleanLL_singleton {c : List Frag} (h : CleanF c) : CleanLL [c] := by
  intro x hx
  simp at hx
  subst hx
  exact h

theorem countQM_render {fs : List Frag} (h : CleanF fs) :
    countQM (render fs) = (holes fs).length := by
  induction fs with
  | nil => simp [render, holes, countQM]
  | cons f rest ih =>
    cases f with
    | txt s =>
      have hs : countQM s = 0 := h s (by simp)
      have hr : CleanF rest := by
        intro x hx
        exact h x (List.mem_cons_of_mem _ hx)
      simp [render, holes, countQM_append, hs, ih hr]
    | hole v =>
      have hr : CleanF rest := by
        intro x hx
        exact h x (List.mem_cons_of_mem _ hx)
      have : countQM "?" = 1 := by decide
      simp [render, holes, countQM_append, this, ih hr]
      omega

end MongoAdapter

namespace MongoAdapter

theorem digitChar_ne_qm (n : Nat) : Nat.digitChar n ≠ '?' := by
  rcases Nat.lt_or_ge n 16 with h | h
  · interval_cases n <;> decide
  · show (if n = 0 then '0' else if n = 1 then '1' else if n = 2 then '2' else
      if n = 3 then '3' else if n = 4 then '4' else if n = 5 then '5' else
      if n = 6 then '6' else if n = 7 then '7' else if n = 8 then '8' else
      if n = 9 then '9' else if n = 10 then 'a' else if n = 11 then 'b' else
      if n = 12 then 'c' else if n = 13 then 'd' else if n = 14 then 'e' else
      if n = 15 then 'f' else '*') ≠ '?'
    repeat rw [if_neg (by omega)]
    decide

theorem toDigitsCore_ne_qm (b fuel n : Nat) (ds : List Char)
    (hds : ∀ c ∈ ds, c ≠ '?') : ∀ c ∈ Nat.toDigitsCore b fuel n ds, c ≠ '?' := by
  induction fuel generalizing n ds with
  | zero => simpa [Nat.toDigitsCore] using hds
  | succ f ih =>
    intro c hc
    rw [Nat.toDigitsCore] at hc
    by_cases h0 : n / b = 0
    · simp only [h0, if_pos rfl] at hc
      rcases List.mem_cons.mp hc with h1 | h1
      · subst h1; exact digitChar_ne_qm _
      · exact hds c h1
    · simp only [if_neg h0] at hc
      refine ih (n / b) (Nat.digitChar (n % b) :: ds) ?_ c hc
      intro x hx
      rcases List.mem_cons.mp hx with h1 | h1
      · subst h1; exact digitChar_ne_qm _
      · exact hds x h1

theorem countQM_natRepr (n : Nat) : countQM (Nat.repr n) = 0 := by
  simp only [countQM, Nat.repr, List.count_eq_zero]
  intro hmem
  have : ∀ c ∈ Nat.toDigits 10 n, c ≠ '?' :=
    toDigitsCore_ne_qm 10 (n + 1) n [] (by intro c hc; simp at hc)
  have hdata : (Nat.toDigits 10 n).asString.data = Nat.toDigits 10 n := rfl
  rw [hdata] at hmem
  exact this '?' hmem rfl

theorem countQM_natToString (n : Nat) : countQM (toString n) = 0 := countQM_natRepr n

theorem countQM_intToString (n : Int) : countQM (toString n) = 0 := by
  show countQM (Int.repr n) = 0
  cases n with
  | ofNat m => simpa [Int.repr] using countQM_natRepr m
  | negSucc m =>
    have : Int.repr (Int.negSucc m) = "-" ++ Nat.repr (m + 1) := rfl
    rw [this, countQM_append, countQM_natRepr]
    decide

theorem OPERATORS_MYSQL_clean (k v : String) (h : OPERATORS_MYSQL k = some v) :
    countQM v = 0 := by
  unfold OPERATORS_MYSQL at h
  split at h <;> simp_all <;> subst h <;> decide

theorem countQM_opOrSelf (k : String) (h : noQMb k = true) : countQM (opOrSelf k) = 0 := by
  unfold opOrSelf
  cases hx : OPERATORS_MYSQL k with
  | none => simpa using countQM_of_noQMb k h
  | some v => simpa using OPERATORS_MYSQL_clean k v hx

theorem countQM_mk (l : List Char) : countQM (String.mk l) = l.count '?' := rfl

theorem countQM_takeUntilDot (s : String) (h : countQM s = 0) :
    countQM (takeUntilDot s) = 0 := by
  rw [takeUntilDot, countQM_mk]
  rw [countQM] at h
  have hsub := (List.takeWhile_sublist (l := s.data) (p := fun c => c ≠ '.')).count_le '?'
  omega

theorem countQM_secondSeg (s : String) (h : countQM s = 0) :
    countQM (secondSeg s) = 0 := by
  rw [secondSeg, countQM_mk]
  rw [countQM] at h
  have h1 : List.Sublist
      (((s.data.dropWhile (fun c => c ≠ '.')).drop 1).takeWhile (fun c => c ≠ '.'))
      s.data := by
    refine List.Sublist.trans (List.takeWhile_sublist _) ?_
    refine List.Sublist.trans (List.drop_sublist _ _) (List.dropWhile_sublist _)
  have := h1.count_le '?'
  omega

theorem countQM_projFields (fields : List String) (h : fields.all noQMb = true) :
    countQM (joinSep ", " fields) = 0 := by
  apply countQM_joinSep _ _ (by decide)
  intro c hc
  exact countQM_of_noQMb c (by simpa using (List.all_eq_true.mp h c hc))

theorem countQM_projStage (fields : List String) (m : List (String × JoinConfig))
    (main : String) (hf : fields.all noQMb = true) (hm : noQMb main = true) :
    countQM (parseProjectStageWithJoinsOptimized fields m main) = 0 := by
  apply countQM_joinSep _ _ (by decide)
  intro c hc
  simp only [parseProjectStageWithJoinsOptimized, List.mem_map] at hc
  obtain ⟨key, hkey, rfl⟩ := hc
  have hk : countQM key = 0 :=
    countQM_of_noQMb key (by simpa using (List.all_eq_true.mp hf key hkey))
  have hmain : countQM main = 0 := countQM_of_noQMb main hm
  split
  · split
    · simp [countQM_append, countQM_takeUntilDot key hk, countQM_secondSeg key hk]
      decide
    · simp [countQM_append, hmain, hk]
      decide
  · simp [countQM_append, hmain, hk]
    decide

theorem countQM_genJoin (joins : List JoinConfig)
    (h : joins.all (fun j => noQMb j.tableName && noQMb j.aliasStr && noQMb j.joinType &&
      noQMb j.onStr) = true) :
    countQM (generateJoinClause joins) = 0 := by
  apply countQM_joinSep _ _ (by decide)
  intro c hc
  simp only [generateJoinClause, List.mem_map] at hc
  obtain ⟨j, hj, rfl⟩ := hc
  have hj4 := List.all_eq_true.mp h j hj
  simp only [Bool.and_eq_true] at hj4
  obtain ⟨⟨⟨h1, h2⟩, h3⟩, h4⟩ := hj4
  have e1 := countQM_of_noQMb _ h1
  have e2 := countQM_of_noQMb _ h2
  have e3 := countQM_of_noQMb _ h3
  have e4 := countQM_of_noQMb _ h4
  by_cases ha : j.aliasStr ≠ ""
  · simp only [if_pos ha, countQM_append]
    rw [e1, e2, e3, e4]
    decide
  · simp only [if_neg ha, countQM_append]
    rw [e1, e3, e4]
    decide

theorem filter_map_render (p : String → Bool) (csF : List (List Frag)) :
    (csF.map render).filter p = (csF.filter (fun cf => p (render cf))).map render := by
  induction csF with
  | nil => rfl
  | cons c rest ih =>
    by_cases hp : p (render c)
    · simp [List.filter_cons, hp, ih]
    · simp [List.filter_cons, hp, ih]

theorem flatMap_holes_filter (p : List Frag → Bool) (l : List (List Frag))
    (h : ∀ x ∈ l, p x = false → holes x = []) :
    l.flatMap holes = (l.filter p).flatMap holes := by
  induction l with
  | nil => rfl
  | cons c rest ih =>
    have hrest : ∀ x ∈ rest, p x = false → holes x = [] := by
      intro x hx
      exact h x (List.mem_cons_of_mem _ hx)
    by_cases hp : p c
    · simp [List.filter_cons, hp, ih hrest]
    · have hc : holes c = [] := h c (by simp) (by simpa using hp)
      simp [List.filter_cons, hp, hc, ih hrest]

theorem holes_nil_of_render_clean {cf : List Frag} (hc : CleanF cf)
    (h : countQM (render cf) = 0) : holes cf = [] := by
  have := countQM_render hc
  rw [h] at this
  exact List.eq_nil_of_length_eq_zero this.symm

theorem map_render_eq_nil {csF : List (List Frag)} (h : csF.map render = []) : csF = [] := by
  simpa using h

end MongoAdapter

namespace MongoAdapter

theorem bindOk {α β : Type} (a : α) (f : α → Except Err β) :
    (Except.ok a : Except Err α) >>= f = f a := rfl

theorem bindErr {α β : Type} (e : Err) (f : α → Except Err β) :
    ((Except.error e : Except Err α) >>= f) = .error e := rfl

theorem parseMongoQuery_nil (pl : List OperatorPlugin) (conds : List String)
    (ps : List JVal) (ctx : String) :
    parseMongoQuery pl [] conds ps ctx
      = .ok (if conds.isEmpty then "1=1" else joinSep " AND " conds, ps) := rfl

theorem parseMongoQuery_cons (pl : List OperatorPlugin) (key : String) (value : JVal)
    (rest : List (String × JVal)) (conds : List String) (ps : List JVal) (ctx : String) :
    parseMongoQuery pl ((key, value) :: rest) conds ps ctx
      = match parseKey pl key value conds ps ctx with
        | .error e => .error (QueryParseError e.message ctx)
        | .ok (conds1, ps1) => parseMongoQuery pl rest conds1 ps1 ctx := rfl

theorem parseKey_arr (pl : List OperatorPlugin) (key : String) (xs : List JVal)
    (conds : List String) (ps : List JVal) (ctx : String) :
    parseKey pl key (.arr xs) conds ps ctx =
      if startsWithDollar key then
        if key = "$or" then do
          let (cs, params1) ← parseQueryList pl xs ps ctx "OR" 0
          let orConditions := cs.filter (fun c => c ≠ "" && c ≠ "1=1")
          if orConditions.length > 0 then
            .ok (conds ++ ["(" ++ joinSep " OR " orConditions ++ ")"], params1)
          else
            .ok (conds ++ ["1=0"], params1)
        else if key = "$nor" then do
          let (cs, params1) ← parseQueryList pl xs ps ctx "NOR" 0
          let norConditions := cs.filter (fun c => c ≠ "" && c ≠ "1=1")
          if norConditions.length ≠ 0 then
            .ok (conds ++ ["NOT (" ++ joinSep " OR " norConditions ++ ")"], params1)
          else
            .ok (conds ++ ["1=1"], params1)
        else if key = "$and" then do
          let (cs, params1) ← parseQueryList pl xs ps ctx "AND" 0
          let andConditions := cs.filter (fun c => c ≠ "")
          if andConditions.length ≠ 0 then
            .ok (conds ++ [joinSep " AND " andConditions], params1)
          else
            .ok (conds, params1)
        else
          if xs.isEmpty then
            .ok (conds ++ [if key = "$and" then "1=1" else "1=0"], ps)
          else do
            let (cs, params1) ← parseQueryList pl xs ps ctx key 0
            let subConds := cs.map (fun c => "(" ++ c ++ ")")
            if key = "$nor" then
              .ok (conds ++ ["NOT (" ++ joinSep " OR " subConds ++ ")"], params1)
            else
              .ok (conds ++ ["(" ++ joinSep (" " ++ opOrSelf key ++ " ") subConds ++ ")"],
                params1)
      else
        .ok (conds ++ [key ++ " = ?"], ps ++ [.arr xs]) := rfl

theorem parseKey_sub (pl : List OperatorPlugin) (key : String) (s : SubQuery)
    (conds : List String) (ps : List JVal) (ctx : String) :
    parseKey pl key (.sub s) conds ps ctx =
      if startsWithDollar key then
        if key = "$or" then .error typeErrValueMap
        else if key = "$nor" then .error typeErrValueMap
        else if key = "$and" then .error typeErrValueMap
        else .ok (conds ++ [if key = "$and" then "1=1" else "1=0"], ps)
      else (do
        let subResult ← SubQuery.toSQL pl s
        let conditions1 := conds ++ [key ++ " IN " ++ subResult]
        let ps2 ← SubQuery.getParams pl s
        .ok (conditions1, ps ++ ps2)) := rfl

theorem parseKey_obj (pl : List OperatorPlugin) (key : String) (fs : List (String × JVal))
    (conds : List String) (ps : List JVal) (ctx : String) :
    parseKey pl key (.obj fs) conds ps ctx =
      if startsWithDollar key then
        if key = "$or" then .error typeErrValueMap
        else if key = "$nor" then .error typeErrValueMap
        else if key = "$and" then .error typeErrValueMap
        else .ok (conds ++ [if key = "$and" then "1=1" else "1=0"], ps)
      else (do
        let (fieldConds, params1) ← parseFieldOps pl key fs [] ps ctx
        match fieldConds with
        | [] => .ok (conds, params1)
        | [c] => .ok (conds ++ [c], params1)
        | _ => .ok (conds ++ ["(" ++ joinSep " AND " fieldConds ++ ")"], params1)) := rfl

theorem parseKey_null (pl : List OperatorPlugin) (key : String)
    (conds : List String) (ps : List JVal) (ctx : String) :
    parseKey pl key .null conds ps ctx =
      if startsWithDollar key then
        if key = "$or" then .error typeErrValueMap
        else if key = "$nor" then .error typeErrValueMap
        else if key = "$and" then .error typeErrValueMap
        else .ok (conds ++ [if key = "$and" then "1=1" else "1=0"], ps)
      else .ok (conds ++ [key ++ " = ?"], ps ++ [.null]) := rfl

theorem parseKey_undef (pl : List OperatorPlugin) (key : String)
    (conds : List String) (ps : List JVal) (ctx : String) :
    parseKey pl key .undef conds ps ctx =
      if startsWithDollar key then
        if key = "$or" then .error typeErrValueMap
        else if key = "$nor" then .error typeErrValueMap
        else if key = "$and" then .error typeErrValueMap
        else .ok (conds ++ [if key = "$and" then "1=1" else "1=0"], ps)
      else .ok (conds ++ [key ++ " = ?"], ps ++ [.undef]) := rfl

theorem parseKey_boolV (pl : List OperatorPlugin) (key : String) (b : Bool)
    (conds : List String) (ps : List JVal) (ctx : String) :
    parseKey pl key (.boolV b) conds ps ctx =
      if startsWithDollar key then
        if key = "$or" then .error typeErrValueMap
        else if key = "$nor" then .error typeErrValueMap
        else if key = "$and" then .error typeErrValueMap
        else .ok (conds ++ [if key = "$and" then "1=1" else "1=0"], ps)
      else .ok (conds ++ [key ++ " = ?"], ps ++ [.boolV b]) := rfl

theorem parseKey_num (pl : List OperatorPlugin) (key : String) (n : Int)
    (conds : List String) (ps : List JVal) (ctx : String) :
    parseKey pl key (.num n) conds ps ctx =
      if startsWithDollar key then
        if key = "$or" then .error typeErrValueMap
        else if key = "$nor" then .error typeErrValueMap
        else if key = "$and" then .error typeErrValueMap
        else .ok (conds ++ [if key = "$and" then "1=1" else "1=0"], ps)
      else .ok (conds ++ [key ++ " = ?"], ps ++ [.num n]) := rfl

theorem parseKey_str (pl : List OperatorPlugin) (key : String) (sv : String)
    (conds : List String) (ps : List JVal) (ctx : String) :
    parseKey pl key (.str sv) conds ps ctx =
      if startsWithDollar key then
        if key = "$or" then .error typeErrValueMap
        else if key = "$nor" then .error typeErrValueMap
        else if key = "$and" then .error typeErrValueMap
        else .ok (conds ++ [if key = "$and" then "1=1" else "1=0"], ps)
      else .ok (conds ++ [key ++ " = ?"], ps ++ [.str sv]) := rfl

theorem parseQueryList_nil (pl : List OperatorPlugin) (ps : List JVal)
    (ctx label : String) (idx : Nat) :
    parseQueryList pl [] ps ctx label idx = .ok ([], ps) := rfl

theorem parseQueryList_cons (pl : List OperatorPlugin) (x : JVal) (rest : List JVal)
    (ps : List JVal) (ctx label : String) (idx : Nat) :
    parseQueryList pl (x :: rest) ps ctx label idx = (do
      let (c, params1) ←
        parseValueQuery pl x ps (ctx ++ "->" ++ label ++ "[" ++ toString idx ++ "]")
      let (cs, params2) ← parseQueryList pl rest params1 ctx label (idx + 1)
      .ok (c :: cs, params2)) := rfl

theorem parseValueQuery_obj (pl : List OperatorPlugin) (fs : List (String × JVal))
    (ps : List JVal) (ctx : String) :
    parseValueQuery pl (.obj fs) ps ctx = parseMongoQuery pl fs [] ps ctx := rfl

theorem parseFieldOps_nil (pl : List OperatorPlugin) (field : String)
    (fcs : List String) (ps : List JVal) (ctx : String) :
    parseFieldOps pl field [] fcs ps ctx = .ok (fcs, ps) := rfl

theorem parseFieldOps_cons_notSub (pl : List OperatorPlugin) (field : String) (op : String)
    (ov : JVal) (rest : List (String × JVal)) (fcs : List String) (ps : List JVal)
    (ctx : String) (hv : ∀ s, ov ≠ .sub s) :
    parseFieldOps pl field ((op, ov) :: rest) fcs ps ctx =
      (if startsWithDollar op then
        if op = "$in" && isSubQ ov then
          parseFieldOps pl field rest fcs ps ctx
        else
          if op = "$in" || op = "$nin" || op = "$all" then do
            let (fieldConds1, params1) ← handleArrayOperators pl field ov op fcs ps ctx
            parseFieldOps pl field rest fieldConds1 params1 ctx
          else do
            let (fieldConds1, params1) ← handleOperator pl field ov op fcs ps ctx
            parseFieldOps pl field rest fieldConds1 params1 ctx
      else
        parseFieldOps pl field rest (fcs ++ [field ++ " = ?"]) (ps ++ [ov]) ctx) := by
  cases ov with
  | sub s => exact absurd rfl (hv s)
  | null => rfl
  | undef => rfl
  | boolV b => rfl
  | num n => rfl
  | str s => rfl
  | arr xs => rfl
  | obj fs => rfl

theorem parseFieldOps_cons_sub (pl : List OperatorPlugin) (field : String) (op : String)
    (s : SubQuery) (rest : List (String × JVal)) (fcs : List String) (ps : List JVal)
    (ctx : String) :
    parseFieldOps pl field ((op, .sub s) :: rest) fcs ps ctx =
      (if startsWithDollar op then
        if op = "$in" && isSubQ (.sub s) then do
          let subResult ← SubQuery.toSQL pl s
          let fieldConds1 := fcs ++ [field ++ " IN " ++ subResult]
          let ps2 ← SubQuery.getParams pl s
          parseFieldOps pl field rest fieldConds1 (ps ++ ps2) ctx
        else
          if op = "$in" || op = "$nin" || op = "$all" then do
            let (fieldConds1, params1) ←
              handleArrayOperators pl field (.sub s) op fcs ps ctx
            parseFieldOps pl field rest fieldConds1 params1 ctx
          else do
            let (fieldConds1, params1) ←
              handleOperator pl field (.sub s) op fcs ps ctx
            parseFieldOps pl field rest fieldConds1 params1 ctx
      else
        parseFieldOps pl field rest (fcs ++ [field ++ " = ?"]) (ps ++ [.sub s]) ctx) := rfl

theorem handleArrayOperators_arr (pl : List OperatorPlugin) (field : String)
    (xs : List JVal) (operator : String) (conds : List String) (ps : List JVal)
    (ctx : String) :
    handleArrayOperators pl field (.arr xs) operator conds ps ctx =
      if xs.isEmpty then
        if operator = "$in" then .ok (conds ++ ["1=0"], ps)
        else if operator = "$nin" then .ok (conds ++ ["1=1"], ps)
        else .ok (conds, ps)
      else if xs.any isSubQ then do
        let (frags, params1) ← arrMixGo pl xs ps
        .ok (conds ++ [field ++ " IN (" ++ joinSep ", " frags ++ ")"], params1)
      else
        if operator = "$in" then
          if xs.length = 0 then .ok (conds ++ ["1=0"], ps)
          else
            .ok (conds ++ [field ++ " IN (" ++ joinSep ", " (xs.map (fun _ => "?")) ++ ")"],
              ps ++ xs)
        else if operator = "$nin" then
          if xs.length = 0 then .ok (conds ++ ["1=1"], ps)
          else
            .ok (conds ++
              [field ++ " NOT IN (" ++ joinSep ", " (xs.map (fun _ => "?")) ++ ")"],
              ps ++ xs)
        else if operator = "$all" then
          .ok (conds ++
            ["(" ++ joinSep " AND " (xs.map (fun _ => "JSON_CONTAINS(" ++ field ++ ", ?)"))
              ++ ")"],
            ps ++ xs.map (fun val => JVal.str (jsonStringify val)))
        else .ok (conds, ps) := rfl

theorem handleArrayOperators_notArr (pl : List OperatorPlugin) (field : String)
    (v : JVal) (operator : String) (conds : List String) (ps : List JVal) (ctx : String)
    (hv : ∀ xs, v ≠ .arr xs) :
    handleArrayOperators pl field v operator conds ps ctx =
      if operator = "$in" then .ok (conds ++ ["1=0"], ps)
      else if operator = "$nin" then .ok (conds ++ ["1=1"], ps)
      else .ok (conds, ps) := by
  cases v with
  | arr xs => exact absurd rfl (hv xs)
  | null => rfl
  | undef => rfl
  | boolV b => rfl
  | num n => rfl
  | str s => rfl
  | obj fs => rfl
  | sub q => rfl

theorem arrMixGo_nil (pl : List OperatorPlugin) (ps : List JVal) :
    arrMixGo pl [] ps = .ok ([], ps) := rfl

theorem arrMixGo_cons_sub (pl : List OperatorPlugin) (s : SubQuery) (rest : List JVal)
    (ps : List JVal) :
    arrMixGo pl (.sub s :: rest) ps = (do
      let ps2 ← SubQuery.getParams pl s
      let t ← SubQuery.toSQL pl s
      let (frags, params1) ← arrMixGo pl rest (ps ++ ps2)
      .ok (t :: frags, params1)) := rfl

theorem arrMixGo_cons_notSub (pl : List OperatorPlugin) (v : JVal) (rest : List JVal)
    (ps : List JVal) (hv : ∀ s, v ≠ .sub s) :
    arrMixGo pl (v :: rest) ps = (do
      let (frags, params1) ← arrMixGo pl rest (ps ++ [v])
      .ok ("?" :: frags, params1)) := by
  cases v with
  | sub s => exact absurd rfl (hv s)
  | null => rfl
  | undef => rfl
  | boolV b => rfl
  | num n => rfl
  | str s => rfl
  | arr xs => rfl
  | obj fs => rfl

theorem handleOperator_empty_sub (field : String) (s : SubQuery) (operator : String)
    (conds : List String) (ps : List JVal) (ctx : String) :
    handleOperator [] field (.sub s) operator conds ps ctx = (do
      let subSql ← SubQuery.toSQL [] s
      let conditions1 := conds ++ [field ++ " IN " ++ subSql]
      let ps2 ← SubQuery.getParams [] s
      .ok (conditions1, ps ++ ps2)) := rfl

theorem handleOperator_empty_notSub (field : String) (ov : JVal) (operator : String)
    (conds : List String) (ps : List JVal) (ctx : String) (hv : ∀ s, ov ≠ .sub s) :
    handleOperator [] field ov operator conds ps ctx =
      (if operator = "$exists" then
        .ok (conds ++ [field ++ (if jsTruthy ov then " IS NOT NULL" else " IS NULL")], ps)
      else if operator = "$size" then
        .ok (conds ++ ["JSON_LENGTH(" ++ field ++ ") = ?"], ps ++ [ov])
      else if operator = "$elemMatch" then
        .ok (conds ++ ["JSON_CONTAINS(" ++ field ++ ", ?)"],
          ps ++ [JVal.str (jsonStringify ov)])
      else if operator = "$regex" then
        .ok (conds ++ [field ++ " REGEXP ?"], ps ++ [ov])
      else if operator = "$like" then
        .ok (conds ++ [field ++ " LIKE ?"], ps ++ [ov])
      else
        match OPERATORS_MYSQL operator with
        | some sqlOperator =>
          .ok (conds ++ [field ++ " " ++ sqlOperator ++ " ?"], ps ++ [ov])
        | none =>
          .error (handleErrorSQLGen
            ("Unsupported operator \"" ++ operator ++ "\" for field \"" ++ field ++ "\"")
            ctx)) := by
  cases ov with
  | sub s => exact absurd rfl (hv s)
  | null => rfl
  | undef => rfl
  | boolV b => rfl
  | num n => rfl
  | str s => rfl
  | arr xs => rfl
  | obj fs => rfl

theorem subToSQL_cached (pl : List OperatorPlugin) (b : MongoQueryBuilder) (c : String) :
    SubQuery.toSQL pl (.mk b (some c)) = .ok c := rfl

theorem subToSQL_fresh (pl : List OperatorPlugin) (b : MongoQueryBuilder) :
    SubQuery.toSQL pl (.mk b none) = (do
      let result ← MongoQueryBuilder.toSQL pl b
      .ok ("(" ++ result.1 ++ ")")) := rfl

theorem subGetParams_eq (pl : List OperatorPlugin) (b : MongoQueryBuilder)
    (cached : Option String) :
    SubQuery.getParams pl (.mk b cached) = (do
      let result ← MongoQueryBuilder.toSQL pl b
      .ok result.2) := rfl

theorem builderToSQL_eq (pl : List OperatorPlugin) (t : String)
    (f : List (String × JVal)) (proj : Option (List String)) (joins : List JoinConfig)
    (sort : String) (lim off : Option Int) :
    MongoQueryBuilder.toSQL pl (.mk t f proj joins sort lim off) = (do
      let selectClause :=
        match proj with
        | some fields =>
          if joins.isEmpty then joinSep ", " fields
          else parseProjectStageWithJoinsOptimized fields (prepareJoinMappings joins) t
        | none => "*"
      let sql := "SELECT " ++ selectClause ++ " FROM " ++ t
      let sql := if joins.isEmpty then sql else sql ++ generateJoinClause joins
      let (whereClause, params) ← parseMongoQuery pl f [] [] "SELECT"
      let sql := if whereClause ≠ "" then sql ++ " WHERE " ++ whereClause else sql
      let sql := if sort ≠ "" then sql ++ " ORDER BY " ++ sort else sql
      let sql :=
        match lim, off with
        | some l, some o => sql ++ " LIMIT " ++ toString l ++ " OFFSET " ++ toString o
        | some l, none => sql ++ " LIMIT " ++ toString l
        | none, some o => sql ++ " LIMIT 18446744073709551615 OFFSET " ++ toString o
        | none, none => sql
      .ok (sql, params)) := rfl

theorem parseKey_lit (pl : List OperatorPlugin) (key : String) (value : JVal)
    (conds : List String) (ps : List JVal) (ctx : String)
    (h1 : ∀ s, value ≠ .sub s) (h2 : ∀ fs, value ≠ .obj fs) (h3 : ∀ xs, value ≠ .arr xs) :
    parseKey pl key value conds ps ctx =
      if startsWithDollar key then
        if key = "$or" then .error typeErrValueMap
        else if key = "$nor" then .error typeErrValueMap
        else if key = "$and" then .error typeErrValueMap
        else .ok (conds ++ [if key = "$and" then "1=1" else "1=0"], ps)
      else .ok (conds ++ [key ++ " = ?"], ps ++ [value]) := by
  cases value with
  | sub s => exact absurd rfl (h1 s)
  | obj fs => exact absurd rfl (h2 fs)
  | arr xs => exact absurd rfl (h3 xs)
  | null => rfl
  | undef => rfl
  | boolV b => rfl
  | num n => rfl
  | str s => rfl

theorem isSubQ_false_of_ne (v : JVal) (h : ∀ s, v ≠ .sub s) : isSubQ v = false := by
  cases v <;> first | rfl | exact absurd rfl (h _)

theorem wfQueryArr_arr {v : JVal} (h : wfQueryArr v = true) :
    ∃ xs, v = .arr xs ∧ wfQueryElems xs = true := by
  cases v with
  | arr xs => exact ⟨xs, rfl, by simpa [wfQueryArr] using h⟩
  | null => simp [wfQueryArr] at h
  | undef => simp [wfQueryArr] at h
  | boolV b => simp [wfQueryArr] at h
  | num n => simp [wfQueryArr] at h
  | str s => simp [wfQueryArr] at h
  | obj fs => simp [wfQueryArr] at h
  | sub s => simp [wfQueryArr] at h

theorem wfArrElems_cons {v : JVal} {rest : List JVal}
    (h : wfArrElems (v :: rest) = true) :
    (∀ s, v = .sub s → wfSubQ s = true) ∧ wfArrElems rest = true := by
  cases v with
  | sub s =>
    simp only [wfArrElems, Bool.and_eq_true] at h
    exact ⟨fun s2 hs2 => by injection hs2 with hh; subst hh; exact h.1, h.2⟩
  | null =>
    simp only [wfArrElems, Bool.true_and] at h
    exact ⟨fun s2 hs2 => (nomatch hs2), h⟩
  | undef =>
    simp only [wfArrElems, Bool.true_and] at h
    exact ⟨fun s2 hs2 => (nomatch hs2), h⟩
  | boolV b =>
    simp only [wfArrElems, Bool.true_and] at h
    exact ⟨fun s2 hs2 => (nomatch hs2), h⟩
  | num n =>
    simp only [wfArrElems, Bool.true_and] at h
    exact ⟨fun s2 hs2 => (nomatch hs2), h⟩
  | str s =>
    simp only [wfArrElems, Bool.true_and] at h
    exact ⟨fun s2 hs2 => (nomatch hs2), h⟩
  | arr ys =>
    simp only [wfArrElems, Bool.true_and] at h
    exact ⟨fun s2 hs2 => (nomatch hs2), h⟩
  | obj fs =>
    simp only [wfArrElems, Bool.true_and] at h
    exact ⟨fun s2 hs2 => (nomatch hs2), h⟩

theorem strEqQM : (" = ?" : String) = " = " ++ "?" := rfl

theorem strCommaQMParen : (", ?)" : String) = ", " ++ ("?" ++ ")") := rfl

theorem strRegexQM : (" REGEXP ?" : String) = " REGEXP " ++ "?" := rfl

theorem strLikeQM : (" LIKE ?" : String) = " LIKE " ++ "?" := rfl

theorem strSpaceQM : (" ?" : String) = " " ++ "?" := rfl

theorem strParenEqQM : (") = ?" : String) = ") = " ++ "?" := rfl

theorem CleanLL_cons {c : List Frag} {cs : List (List Frag)} (h1 : CleanF c)
    (h2 : CleanLL cs) : CleanLL (c :: cs) := by
  intro x hx
  rcases List.mem_cons.mp hx with h3 | h3
  · subst h3; exact h1
  · exact h2 x h3

theorem CleanLL_filter {csF : List (List Frag)} (h : CleanLL csF) (q : List Frag → Bool) :
    CleanLL (csF.filter q) :=
  fun c hc => h c (List.mem_of_mem_filter hc)

theorem map_render_qm (xs : List JVal) :
    (xs.map (fun v => [Frag.hole v])).map render = xs.map (fun _ => "?") := by
  induction xs with
  | nil => rfl
  | cons v rest ih =>
    simp only [List.map_cons]
    rw [ih]
    rfl

theorem flatMap_holes_qm (xs : List JVal) :
    (xs.map (fun v => [Frag.hole v])).flatMap holes = xs := by
  induction xs with
  | nil => rfl
  | cons v rest ih => simp [holes, ih]

theorem CleanLL_qm (xs : List JVal) : CleanLL (xs.map (fun v => [Frag.hole v])) := by
  intro c hc
  simp only [List.mem_map] at hc
  obtain ⟨v, hv, rfl⟩ := hc
  exact CleanF_hole v

theorem map_paren_render (csF : List (List Frag)) :
    (csF.map render).map (fun c => "(" ++ c ++ ")")
      = (csF.map (fun cf => [Frag.txt "("] ++ cf ++ [Frag.txt ")"])).map render := by
  induction csF with
  | nil => rfl
  | cons c rest ih =>
    simp only [List.map_cons]
    rw [ih]
    congr 1
    simp only [List.append_eq, render_append, render, List.nil_append, List.cons_append,
      String.append_assoc, String.append_empty]

theorem flatMap_holes_paren (csF : List (List Frag)) :
    (csF.map (fun cf => [Frag.txt "("] ++ cf ++ [Frag.txt ")"])).flatMap holes
      = csF.flatMap holes := by
  induction csF with
  | nil => rfl
  | cons c rest ih =>
    simp only [List.map_cons, List.flatMap_cons]
    rw [ih]
    congr 1
    simp only [List.append_eq, holes_append, holes, List.nil_append, List.cons_append,
      List.append_nil]

theorem CleanLL_paren {csF : List (List Frag)} (h : CleanLL csF) :
    CleanLL (csF.map (fun cf => [Frag.txt "("] ++ cf ++ [Frag.txt ")"])) := by
  intro c hc
  simp only [List.mem_map] at hc
  obtain ⟨cf, hcf, rfl⟩ := hc
  exact CleanF_append (CleanF_append (CleanF_txt (by decide)) (h cf hcf))
    (CleanF_txt (by decide))

theorem map_render_jc (field : String) (xs : List JVal) :
    (xs.map (fun v => [Frag.txt ("JSON_CONTAINS(" ++ field), Frag.txt ", ",
        Frag.hole (JVal.str (jsonStringify v)), Frag.txt ")"])).map render
      = xs.map (fun _ => "JSON_CONTAINS(" ++ field ++ ", ?)") := by
  induction xs with
  | nil => rfl
  | cons v rest ih =>
    simp only [List.map_cons]
    rw [ih]
    simp only [render, strCommaQMParen, String.append_assoc, String.append_empty]

theorem flatMap_holes_jc (field : String) (xs : List JVal) :
    (xs.map (fun v => [Frag.txt ("JSON_CONTAINS(" ++ field), Frag.txt ", ",
        Frag.hole (JVal.str (jsonStringify v)), Frag.txt ")"])).flatMap holes
      = xs.map (fun v => JVal.str (jsonStringify v)) := by
  induction xs with
  | nil => rfl
  | cons v rest ih =>
    simp only [List.map_cons, List.flatMap_cons]
    rw [ih]
    simp [holes]

theorem CleanLL_jc (field : String) (hf : noQMb field = true) (xs : List JVal) :
    CleanLL (xs.map (fun v => [Frag.txt ("JSON_CONTAINS(" ++ field), Frag.txt ", ",
        Frag.hole (JVal.str (jsonStringify v)), Frag.txt ")"])) := by
  intro c hc
  simp only [List.mem_map] at hc
  obtain ⟨v, hv, rfl⟩ := hc
  intro s hs
  simp at hs
  rcases hs with hs | hs | hs
  · subst hs
    rw [countQM_append, countQM_of_noQMb field hf]
    decide
  · subst hs; decide
  · subst hs; decide

theorem align_push_none (condsF : List (List Frag)) (hc : CleanLL condsF)
    (ps0 : List JVal) (c1 : List String) (ps1 : List JVal)
    (h1 : condsF.map render = c1) (h2 : ps0 ++ condsF.flatMap holes = ps1) :
    ∃ outF : List (List Frag), CleanLL (condsF ++ outF) ∧
      c1 = (condsF ++ outF).map render ∧ ps1 = ps0 ++ (condsF ++ outF).flatMap holes := by
  refine ⟨[], ?_, ?_, ?_⟩
  · simpa using hc
  · rw [← h1]; simp
  · rw [← h2]; simp

theorem align_push_frag (condsF : List (List Frag)) (hc : CleanLL condsF) (cf : List Frag)
    (hcf : CleanF cf) (ps0 : List JVal) (c1 : List String) (ps1 : List JVal)
    (h1 : condsF.map render ++ [render cf] = c1)
    (h2 : (ps0 ++ condsF.flatMap holes) ++ holes cf = ps1) :
    ∃ outF : List (List Frag), CleanLL (condsF ++ outF) ∧
      c1 = (condsF ++ outF).map render ∧ ps1 = ps0 ++ (condsF ++ outF).flatMap holes := by
  refine ⟨[cf], CleanLL_append hc (CleanLL_singleton hcf), ?_, ?_⟩
  · rw [← h1, List.map_append]
    rfl
  · rw [← h2]
    simp [List.flatMap_append, holes, List.append_assoc]

theorem align_push_const (condsF : List (List Frag)) (hc : CleanLL condsF) (lit : String)
    (hlit : countQM lit = 0) (ps0 : List JVal) (c1 : List String) (ps1 : List JVal)
    (h1 : condsF.map render ++ [lit] = c1) (h2 : ps0 ++ condsF.flatMap holes = ps1) :
    ∃ outF : List (List Frag), CleanLL (condsF ++ outF) ∧
      c1 = (condsF ++ outF).map render ∧ ps1 = ps0 ++ (condsF ++ outF).flatMap holes := by
  refine ⟨[[Frag.txt lit]], ?_, ?_, ?_⟩
  · exact CleanLL_append hc (CleanLL_singleton (CleanF_txt hlit))
  · rw [← h1, List.map_append]
    simp only [List.map_cons, List.map_nil, render, String.append_empty]
  · rw [← h2]
    simp [List.flatMap_append, holes]

theorem orBranch_align (condsF csF : List (List Frag)) (q : String → Bool)
    (ps0 : List JVal) (conds1 : List String) (ps1 : List JVal)
    (hc : CleanLL condsF) (hcs1 : CleanLL csF)
    (hdrop : ∀ cf ∈ csF, q (render cf) = false → holes cf = [])
    (h : (if ((csF.map render).filter q).length > 0 then
            (.ok (condsF.map render ++ ["(" ++ joinSep " OR " ((csF.map render).filter q)
                ++ ")"],
              (ps0 ++ condsF.flatMap holes) ++ csF.flatMap holes)
              : Except Err (List String × List JVal))
          else .ok (condsF.map render ++ ["1=0"],
            (ps0 ++ condsF.flatMap holes) ++ csF.flatMap holes))
      = .ok (conds1, ps1)) :
    ∃ outF : List (List Frag), CleanLL (condsF ++ outF) ∧
      conds1 = (condsF ++ outF).map render ∧
      ps1 = ps0 ++ (condsF ++ outF).flatMap holes := by
  rw [filter_map_render] at h
  have hflt : csF.flatMap holes = (csF.filter (fun cf => q (render cf))).flatMap holes :=
    flatMap_holes_filter _ csF (fun cf hcf hq => hdrop cf hcf hq)
  split at h
  · simp only [Except.ok.injEq, Prod.mk.injEq] at h
    obtain ⟨h1, h2⟩ := h
    have hr : "(" ++ joinSep " OR " ((csF.filter (fun cf => q (render cf))).map render)
          ++ ")"
        = render ([Frag.txt "("] ++ joinFrags " OR " (csF.filter (fun cf => q (render cf)))
            ++ [Frag.txt ")"]) := by
      simp only [List.append_eq, render_append, render, render_joinFrags,
        List.nil_append, List.cons_append, String.append_assoc, String.append_empty]
    rw [hr] at h1
    have hh : holes ([Frag.txt "("] ++ joinFrags " OR " (csF.filter
          (fun cf => q (render cf))) ++ [Frag.txt ")"])
        = (csF.filter (fun cf => q (render cf))).flatMap holes := by
      simp [List.append_eq, holes_append, holes, holes_joinFrags, List.nil_append,
        List.cons_append]
    refine align_push_frag condsF hc _ ?_ ps0 conds1 ps1 h1 (by rw [hh, ← hflt]; exact h2)
    exact CleanF_append (CleanF_append (CleanF_txt (by decide))
      (CleanF_joinFrags (by decide) (CleanLL_filter hcs1 _))) (CleanF_txt (by decide))
  · rename_i hcond
    simp only [Except.ok.injEq, Prod.mk.injEq] at h
    obtain ⟨h1, h2⟩ := h
    have hkept : csF.filter (fun cf => q (render cf)) = [] := by
      rcases hx : csF.filter (fun cf => q (render cf)) with _ | ⟨a, l⟩
      · rfl
      · exfalso
        apply hcond
        rw [hx]
        simp
    have hflt0 : csF.flatMap holes = [] := by
      rw [hflt, hkept]
      rfl
    exact align_push_const condsF hc "1=0" (by decide) ps0 conds1 ps1 h1
      (by rw [← h2, hflt0]; simp)

theorem norBranch_align (condsF csF : List (List Frag)) (q : String → Bool)
    (ps0 : List JVal) (conds1 : List String) (ps1 : List JVal)
    (hc : CleanLL condsF) (hcs1 : CleanLL csF)
    (hdrop : ∀ cf ∈ csF, q (render cf) = false → holes cf = [])
    (h : (if ((csF.map render).filter q).length ≠ 0 then
            (.ok (condsF.map render ++ ["NOT (" ++ joinSep " OR "
                ((csF.map render).filter q) ++ ")"],
              (ps0 ++ condsF.flatMap holes) ++ csF.flatMap holes)
              : Except Err (List String × List JVal))
          else .ok (condsF.map render ++ ["1=1"],
            (ps0 ++ condsF.flatMap holes) ++ csF.flatMap holes))
      = .ok (conds1, ps1)) :
    ∃ outF : List (List Frag), CleanLL (condsF ++ outF) ∧
      conds1 = (condsF ++ outF).map render ∧
      ps1 = ps0 ++ (condsF ++ outF).flatMap holes := by
  rw [filter_map_render] at h
  have hflt : csF.flatMap holes = (csF.filter (fun cf => q (render cf))).flatMap holes :=
    flatMap_holes_filter _ csF (fun cf hcf hq => hdrop cf hcf hq)
  split at h
  · simp only [Except.ok.injEq, Prod.mk.injEq] at h
    obtain ⟨h1, h2⟩ := h
    have hr : "NOT (" ++ joinSep " OR " ((csF.filter (fun cf => q (render cf))).map
          render) ++ ")"
        = render ([Frag.txt "NOT ("] ++ joinFrags " OR " (csF.filter
            (fun cf => q (render cf))) ++ [Frag.txt ")"]) := by
      simp only [List.append_eq, render_append, render, render_joinFrags,
        List.nil_append, List.cons_append, String.append_assoc, String.append_empty]
    rw [hr] at h1
    have hh : holes ([Frag.txt "NOT ("] ++ joinFrags " OR " (csF.filter
          (fun cf => q (render cf))) ++ [Frag.txt ")"])
        = (csF.filter (fun cf => q (render cf))).flatMap holes := by
      simp [List.append_eq, holes_append, holes, holes_joinFrags, List.nil_append,
        List.cons_append]
    refine align_push_frag condsF hc _ ?_ ps0 conds1 ps1 h1 (by rw [hh, ← hflt]; exact h2)
    exact CleanF_append (CleanF_append (CleanF_txt (by decide))
      (CleanF_joinFrags (by decide) (CleanLL_filter hcs1 _))) (CleanF_txt (by decide))
  · rename_i hcond
    simp only [Except.ok.injEq, Prod.mk.injEq] at h
    obtain ⟨h1, h2⟩ := h
    have hkept : csF.filter (fun cf => q (render cf)) = [] := by
      rcases hx : csF.filter (fun cf => q (render cf)) with _ | ⟨a, l⟩
      · rfl
      · exfalso
        apply hcond
        rw [hx]
        simp
    have hflt0 : csF.flatMap holes = [] := by
      rw [hflt, hkept]
      rfl
    exact align_push_const condsF hc "1=1" (by decide) ps0 conds1 ps1 h1
      (by rw [← h2, hflt0]; simp)

theorem andBranch_align (condsF csF : List (List Frag)) (q : String → Bool)
    (ps0 : List JVal) (conds1 : List String) (ps1 : List JVal)
    (hc : CleanLL condsF) (hcs1 : CleanLL csF)
    (hdrop : ∀ cf ∈ csF, q (render cf) = false → holes cf = [])
    (h : (if ((csF.map render).filter q).length ≠ 0 then
            (.ok (condsF.map render ++ [joinSep " AND " ((csF.map render).filter q)],
              (ps0 ++ condsF.flatMap holes) ++ csF.flatMap holes)
              : Except Err (List String × List JVal))
          else .ok (condsF.map render,
            (ps0 ++ condsF.flatMap holes) ++ csF.flatMap holes))
      = .ok (conds1, ps1)) :
    ∃ outF : List (List Frag), CleanLL (condsF ++ outF) ∧
      conds1 = (condsF ++ outF).map render ∧
      ps1 = ps0 ++ (condsF ++ outF).flatMap holes := by
  rw [filter_map_render] at h
  have hflt : csF.flatMap holes = (csF.filter (fun cf => q (render cf))).flatMap holes :=
    flatMap_holes_filter _ csF (fun cf hcf hq => hdrop cf hcf hq)
  split at h
  · simp only [Except.ok.injEq, Prod.mk.injEq] at h
    obtain ⟨h1, h2⟩ := h
    have hr : joinSep " AND " ((csF.filter (fun cf => q (render cf))).map render)
        = render (joinFrags " AND " (csF.filter (fun cf => q (render cf)))) := by
      rw [render_joinFrags]
    rw [hr] at h1
    have hh : holes (joinFrags " AND " (csF.filter (fun cf => q (render cf))))
        = (csF.filter (fun cf => q (render cf))).flatMap holes := holes_joinFrags _ _
    refine align_push_frag condsF hc _ ?_ ps0 conds1 ps1 h1 (by rw [hh, ← hflt]; exact h2)
    exact CleanF_joinFrags (by decide) (CleanLL_filter hcs1 _)
  · rename_i hcond
    simp only [Except.ok.injEq, Prod.mk.injEq] at h
    obtain ⟨h1, h2⟩ := h
    have hkept : csF.filter (fun cf => q (render cf)) = [] := by
      rcases hx : csF.filter (fun cf => q (render cf)) with _ | ⟨a, l⟩
      · rfl
      · exfalso
        apply hcond
        rw [hx]
        simp
    have hflt0 : csF.flatMap holes = [] := by
      rw [hflt, hkept]
      rfl
    exact align_push_none condsF hc ps0 conds1 ps1 h1 (by rw [← h2, hflt0]; simp)

theorem countQM_pagingSuffix (lim off : Option Int) :
    countQM (pagingSuffix lim off) = 0 := by
  cases lim <;> cases off <;>
    first
      | decide
      | (simp only [pagingSuffix, countQM_append, countQM_intToString]; decide)

theorem countQM_orderSuffix (sort : String) (h : noQMb sort = true) :
    countQM (orderSuffix sort) = 0 := by
  unfold orderSuffix
  split
  · rw [countQM_append, countQM_of_noQMb sort h]
    decide
  · decide

theorem countQM_selectPrefix_none (t : String) (joins : List JoinConfig)
    (ht : noQMb t = true)
    (hj : joins.all (fun j => noQMb j.tableName && noQMb j.aliasStr && noQMb j.joinType &&
      noQMb j.onStr) = true) :
    countQM (selectPrefix t none joins) = 0 := by
  show countQM (if joins.isEmpty then "SELECT " ++ "*" ++ " FROM " ++ t
    else ("SELECT " ++ "*" ++ " FROM " ++ t) ++ generateJoinClause joins) = 0
  by_cases hje : joins.isEmpty
  · rw [if_pos hje]
    simp only [countQM_append, countQM_of_noQMb t ht]
    decide
  · rw [if_neg hje]
    simp only [countQM_append, countQM_of_noQMb t ht, countQM_genJoin joins hj]
    decide

theorem countQM_selectPrefix_some (t : String) (fields : List String)
    (joins : List JoinConfig) (ht : noQMb t = true) (hfs : fields.all noQMb = true)
    (hj : joins.all (fun j => noQMb j.tableName && noQMb j.aliasStr && noQMb j.joinType &&
      noQMb j.onStr) = true) :
    countQM (selectPrefix t (some fields) joins) = 0 := by
  show countQM (if joins.isEmpty
    then "SELECT " ++ (if joins.isEmpty then joinSep ", " fields
      else parseProjectStageWithJoinsOptimized fields (prepareJoinMappings joins) t)
      ++ " FROM " ++ t
    else ("SELECT " ++ (if joins.isEmpty then joinSep ", " fields
      else parseProjectStageWithJoinsOptimized fields (prepareJoinMappings joins) t)
      ++ " FROM " ++ t) ++ generateJoinClause joins) = 0
  by_cases hje : joins.isEmpty
  · simp only [if_pos hje]
    simp only [countQM_append, countQM_of_noQMb t ht, countQM_projFields fields hfs]
    decide
  · simp only [if_neg hje]
    simp only [countQM_append, countQM_of_noQMb t ht, countQM_genJoin joins hj,
      countQM_projStage fields (prepareJoinMappings joins) t hfs ht]
    decide

theorem countQM_selectPrefix (t : String) (proj : Option (List String))
    (joins : List JoinConfig) (ht : noQMb t = true)
    (hp : ∀ fs, proj = some fs → fs.all noQMb = true)
    (hj : joins.all (fun j => noQMb j.tableName && noQMb j.aliasStr && noQMb j.joinType &&
      noQMb j.onStr) = true) :
    countQM (selectPrefix t proj joins) = 0 := by
  cases proj with
  | none => exact countQM_selectPrefix_none t joins ht hj
  | some fields => exact countQM_selectPrefix_some t fields joins ht (hp fields rfl) hj

theorem builderToSQL_eq2 (pl : List OperatorPlugin) (t : String)
    (f : List (String × JVal)) (proj : Option (List String)) (joins : List JoinConfig)
    (sort : String) (lim off : Option Int) :
    MongoQueryBuilder.toSQL pl (.mk t f proj joins sort lim off) = (do
      let (whereClause, params) ← parseMongoQuery pl f [] [] "SELECT"
      .ok ((selectPrefix t proj joins ++
            (if whereClause ≠ "" then " WHERE " ++ whereClause else "")) ++
           (orderSuffix sort ++ pagingSuffix lim off), params)) := by
  rw [builderToSQL_eq]
  cases hpq : parseMongoQuery pl f [] [] "SELECT" with
  | error e =>
    rfl
  | ok pr =>
    obtain ⟨w, params⟩ := pr
    simp only [bindOk, Except.ok.injEq, Prod.mk.injEq]
    refine ⟨?_, ?_⟩
    · simp only [selectPrefix, orderSuffix, pagingSuffix]
      by_cases hW : w ≠ "" <;> by_cases hS : sort ≠ "" <;> cases lim <;> cases off <;>
        simp [hW, hS, String.append_assoc, String.append_empty]
    · trivial

theorem assembleSelect_align (base sfx : String) (wF : List Frag)
    (hbase : countQM base = 0) (hsfx : countQM sfx = 0) (hw1 : CleanF wF)
    (s : String) (ps : List JVal)
    (hs : (base ++ (if render wF ≠ "" then " WHERE " ++ render wF else "")) ++ sfx = s)
    (hp : holes wF = ps) :
    ∃ bf : List Frag, CleanF bf ∧ s = render bf ∧ ps = holes bf := by
  by_cases hW : render wF ≠ ""
  · rw [if_pos hW] at hs
    refine ⟨[Frag.txt (base ++ " WHERE ")] ++ wF ++ [Frag.txt sfx], ?_, ?_, ?_⟩
    · refine CleanF_append (CleanF_append (CleanF_txt ?_) hw1) (CleanF_txt hsfx)
      rw [countQM_append, hbase]
      decide
    · rw [← hs]
      simp only [List.append_eq, render_append, render, List.nil_append,
        List.cons_append, String.append_assoc, String.append_empty]
    · rw [← hp]
      simp [List.append_eq, holes_append, holes, List.nil_append, List.cons_append]
  · rw [if_neg hW] at hs
    have hre : render wF = "" := by simpa using hW
    have hnil : holes wF = [] := holes_nil_of_render_clean hw1 (by rw [hre]; decide)
    refine ⟨[Frag.txt ((base ++ "") ++ sfx)], ?_, ?_, ?_⟩
    · refine CleanF_txt ?_
      rw [countQM_append, countQM_append, hbase, hsfx]
      decide
    · rw [← hs]
      simp [render, String.append_empty]
    · rw [← hp, hnil]
      simp [holes]

end MongoAdapter

namespace MongoAdapter

mutual
/-- parseMongoQuery_align: for plugin-free translation of a well-formed
filter object, the returned WHERE text and the final params decompose
into condition fragment lists whose rendered text is the emitted text
and whose holes are exactly the appended parameters, in order. -/
theorem parseMongoQuery_align (query : List (String × JVal)) (condsF : List (List Frag))
    (ps0 : List JVal) (context : String) (t : String) (psOut : List JVal)
    (hwf : wfEntries query = true) (hc : CleanLL condsF)
    (h : parseMongoQuery [] query (condsF.map render) (ps0 ++ condsF.flatMap holes) context
      = .ok (t, psOut)) :
    ∃ outF : List (List Frag), CleanLL outF ∧
      t = (if outF.isEmpty then "1=1" else joinSep " AND " (outF.map render)) ∧
      psOut = ps0 ++ outF.flatMap holes := by
  match query with
  | [] =>
    rw [parseMongoQuery_nil] at h
    simp only [Except.ok.injEq, Prod.mk.injEq] at h
    obtain ⟨h1, h2⟩ := h
    refine ⟨condsF, hc, ?_, ?_⟩
    · rw [← h1]
      cases condsF <;> simp
    · rw [← h2]
  | (key, value) :: rest =>
    simp only [wfEntries, Bool.and_eq_true] at hwf
    obtain ⟨⟨hk, hkv⟩, hrest⟩ := hwf
    rw [parseMongoQuery_cons] at h
    cases hpk : parseKey [] key value (condsF.map render) (ps0 ++ condsF.flatMap holes)
        context with
    | error e => rw [hpk] at h; exact absurd h (by simp)
    | ok pr =>
      obtain ⟨conds1, params1⟩ := pr
      rw [hpk] at h
      replace h : parseMongoQuery [] rest conds1 params1 context = .ok (t, psOut) := h
      obtain ⟨outF, hcF, hc1, hp1⟩ :=
        parseKey_align key value condsF ps0 context conds1 params1 hk hkv hc hpk
      subst hc1
      subst hp1
      exact parseMongoQuery_align rest (condsF ++ outF) ps0 context t psOut hrest hcF h
  termination_by sizeOf query

/-- parseKey_align: one key of the filter object appends condition
fragments whose rendered text matches the pushed conditions and whose
holes are the parameters pushed while processing the key. -/
theorem parseKey_align (key : String) (value : JVal) (condsF : List (List Frag))
    (ps0 : List JVal) (ctx : String) (conds1 : List String) (ps1 : List JVal)
    (hkey : noQMb key = true)
    (hwf : (if startsWithDollar key then wfQueryArr value else wfFieldVal value) = true)
    (hc : CleanLL condsF)
    (h : parseKey [] key value (condsF.map render) (ps0 ++ condsF.flatMap holes) ctx
      = .ok (conds1, ps1)) :
    ∃ outF : List (List Frag), CleanLL (condsF ++ outF) ∧
      conds1 = (condsF ++ outF).map render ∧
      ps1 = ps0 ++ (condsF ++ outF).flatMap holes := by
  by_cases hd : startsWithDollar key = true
  · rw [if_pos hd] at hwf
    obtain ⟨xs, rfl, hxs⟩ := wfQueryArr_arr hwf
    rw [parseKey_arr] at h
    rw [if_pos hd] at h
    by_cases hor : key = "$or"
    · rw [if_pos hor] at h
      cases hql : parseQueryList [] xs (ps0 ++ condsF.flatMap holes) ctx "OR" 0 with
      | error e =>
        rw [hql] at h
        rw [bindErr] at h
        exact absurd h (by simp)
      | ok pr =>
        obtain ⟨cs, p1⟩ := pr
        rw [hql] at h
        simp only [bindOk] at h
        obtain ⟨csF, hcs1, hcs2, hcs3⟩ :=
          parseQueryList_align xs (ps0 ++ condsF.flatMap holes) ctx "OR" 0 cs p1 hxs hql
        subst hcs2
        subst hcs3
        refine orBranch_align condsF csF _ ps0 conds1 ps1 hc hcs1 ?_ h
        intro cf hcf hq
        simp at hq
        by_cases hq1 : render cf = ""
        · exact holes_nil_of_render_clean (hcs1 cf hcf) (by rw [hq1]; decide)
        · exact holes_nil_of_render_clean (hcs1 cf hcf) (by rw [hq hq1]; decide)
    · rw [if_neg hor] at h
      by_cases hnor : key = "$nor"
      · rw [if_pos hnor] at h
        cases hql : parseQueryList [] xs (ps0 ++ condsF.flatMap holes) ctx "NOR" 0 with
        | error e =>
          rw [hql] at h
          rw [bindErr] at h
          exact absurd h (by simp)
        | ok pr =>
          obtain ⟨cs, p1⟩ := pr
          rw [hql] at h
          simp only [bindOk] at h
          obtain ⟨csF, hcs1, hcs2, hcs3⟩ :=
            parseQueryList_align xs (ps0 ++ condsF.flatMap holes) ctx "NOR" 0 cs p1 hxs hql
          subst hcs2
          subst hcs3
          refine norBranch_align condsF csF _ ps0 conds1 ps1 hc hcs1 ?_ h
          intro cf hcf hq
          simp at hq
          by_cases hq1 : render cf = ""
          · exact holes_nil_of_render_clean (hcs1 cf hcf) (by rw [hq1]; decide)
          · exact holes_nil_of_render_clean (hcs1 cf hcf) (by rw [hq hq1]; decide)
      · rw [if_neg hnor] at h
        by_cases hand : key = "$and"
        · rw [if_pos hand] at h
          cases hql : parseQueryList [] xs (ps0 ++ condsF.flatMap holes) ctx "AND" 0 with
          | error e =>
            rw [hql] at h
            rw [bindErr] at h
            exact absurd h (by simp)
          | ok pr =>
            obtain ⟨cs, p1⟩ := pr
            rw [hql] at h
            simp only [bindOk] at h
            obtain ⟨csF, hcs1, hcs2, hcs3⟩ :=
              parseQueryList_align xs (ps0 ++ condsF.flatMap holes) ctx "AND" 0 cs p1
                hxs hql
            subst hcs2
            subst hcs3
            refine andBranch_align condsF csF _ ps0 conds1 ps1 hc hcs1 ?_ h
            intro cf hcf hq
            simp at hq
            exact holes_nil_of_render_clean (hcs1 cf hcf) (by rw [hq]; decide)
        · rw [if_neg hand] at h
          by_cases hemp : xs.isEmpty
          · rw [if_pos hemp] at h
            rw [if_neg hand] at h
            simp only [Except.ok.injEq, Prod.mk.injEq] at h
            obtain ⟨h1, h2⟩ := h
            exact align_push_const condsF hc "1=0" (by decide) ps0 conds1 ps1 h1 h2
          · rw [if_neg hemp] at h
            cases hql : parseQueryList [] xs (ps0 ++ condsF.flatMap holes) ctx key 0 with
            | error e =>
              rw [hql] at h
              rw [bindErr] at h
              exact absurd h (by simp)
            | ok pr =>
              obtain ⟨cs, p1⟩ := pr
              rw [hql] at h
              simp only [bindOk] at h
              obtain ⟨csF, hcs1, hcs2, hcs3⟩ :=
                parseQueryList_align xs (ps0 ++ condsF.flatMap holes) ctx key 0 cs p1
                  hxs hql
              subst hcs2
              subst hcs3
              rw [if_neg hnor] at h
              rw [map_paren_render] at h
              simp only [Except.ok.injEq, Prod.mk.injEq] at h
              obtain ⟨h1, h2⟩ := h
              have hr : "(" ++ joinSep (" " ++ opOrSelf key ++ " ")
                    ((csF.map (fun cf => [Frag.txt "("] ++ cf ++ [Frag.txt ")"])).map
                      render) ++ ")"
                  = render ([Frag.txt "("] ++ joinFrags (" " ++ opOrSelf key ++ " ")
                      (csF.map (fun cf => [Frag.txt "("] ++ cf ++ [Frag.txt ")"]))
                      ++ [Frag.txt ")"]) := by
                simp only [List.append_eq, render_append, render, render_joinFrags,
                  List.nil_append, List.cons_append, String.append_assoc,
                  String.append_empty]
              rw [hr] at h1
              have hh : holes ([Frag.txt "("] ++ joinFrags (" " ++ opOrSelf key ++ " ")
                    (csF.map (fun cf => [Frag.txt "("] ++ cf ++ [Frag.txt ")"]))
                    ++ [Frag.txt ")"])
                  = csF.flatMap holes := by
                simp only [List.append_eq, List.nil_append, holes_append, holes,
                  holes_joinFrags, List.append_nil]
                rw [flatMap_holes_paren]
              refine align_push_frag condsF hc _ ?_ ps0 conds1 ps1 h1
                (by rw [hh]; exact h2)
              refine CleanF_append (CleanF_append (CleanF_txt (by decide))
                (CleanF_joinFrags ?_ (CleanLL_paren hcs1))) (CleanF_txt (by decide))
              rw [countQM_append, countQM_append, countQM_opOrSelf key hkey]
              decide
  · rw [if_neg hd] at hwf
    by_cases hsv : ∃ s, value = .sub s
    · obtain ⟨s, rfl⟩ := hsv
      have hvs : wfSubQ s = true := hwf
      rw [parseKey_sub] at h
      rw [if_neg hd] at h
      rcases subQueryPair_align s hvs with ⟨e, he1, he2⟩ | ⟨bf, hb1, hb2, hb3⟩
      · rw [he1] at h
        rw [bindErr] at h
        exact absurd h (by simp)
      · rw [hb2] at h
        simp only [bindOk] at h
        rw [hb3] at h
        simp only [bindOk, Except.ok.injEq, Prod.mk.injEq] at h
        obtain ⟨h1, h2⟩ := h
        have hr : key ++ " IN " ++ ("(" ++ render bf ++ ")")
            = render ([Frag.txt (key ++ " IN " ++ "(")] ++ bf ++ [Frag.txt ")"]) := by
          simp only [List.append_eq, render_append, render, List.nil_append,
            List.cons_append, String.append_assoc, String.append_empty]
        rw [hr] at h1
        have hh : holes ([Frag.txt (key ++ " IN " ++ "(")] ++ bf ++ [Frag.txt ")"])
            = holes bf := by
          simp [List.append_eq, holes_append, holes, List.nil_append, List.cons_append]
        refine align_push_frag condsF hc _ ?_ ps0 conds1 ps1 h1 (by rw [hh]; exact h2)
        refine CleanF_append (CleanF_append (CleanF_txt ?_) hb1) (CleanF_txt (by decide))
        rw [countQM_append, countQM_append, countQM_of_noQMb key hkey]
        decide
    · by_cases hov : ∃ fs, value = .obj fs
      · obtain ⟨fs, rfl⟩ := hov
        have hops : wfOps fs = true := hwf
        rw [parseKey_obj] at h
        rw [if_neg hd] at h
        cases hfo : parseFieldOps [] key fs [] (ps0 ++ condsF.flatMap holes) ctx with
        | error e =>
          rw [hfo] at h
          rw [bindErr] at h
          exact absurd h (by simp)
        | ok pr =>
          obtain ⟨fieldConds, params1⟩ := pr
          rw [hfo] at h
          simp only [bindOk] at h
          have hfo' : parseFieldOps [] key fs (([] : List (List Frag)).map render)
              ((ps0 ++ condsF.flatMap holes) ++ ([] : List (List Frag)).flatMap holes) ctx
              = .ok (fieldConds, params1) := by
            simpa using hfo
          obtain ⟨midsF, hm1, hm2, hm3⟩ :=
            parseFieldOps_align key fs [] (ps0 ++ condsF.flatMap holes) ctx fieldConds
              params1 hkey hops CleanLL_nil hfo'
          simp only [List.nil_append] at hm1 hm2 hm3
          subst hm2
          subst hm3
          cases midsF with
          | nil =>
            simp only [List.map_nil] at h
            simp only [Except.ok.injEq, Prod.mk.injEq] at h
            obtain ⟨h1, h2⟩ := h
            exact align_push_none condsF hc ps0 conds1 ps1 h1 (by simpa using h2)
          | cons m0 mrest =>
            cases mrest with
            | nil =>
              simp only [List.map_cons, List.map_nil] at h
              simp only [Except.ok.injEq, Prod.mk.injEq] at h
              obtain ⟨h1, h2⟩ := h
              refine align_push_frag condsF hc m0 (hm1 m0 (by simp)) ps0 conds1 ps1 h1 ?_
              simpa [holes] using h2
            | cons m1 mrest2 =>
              simp only [List.map_cons] at h
              simp only [Except.ok.injEq, Prod.mk.injEq] at h
              obtain ⟨h1, h2⟩ := h
              rw [← List.map_cons render m1 mrest2, ← List.map_cons render m0
                (m1 :: mrest2)] at h1
              have hr : "(" ++ joinSep " AND " ((m0 :: m1 :: mrest2).map render) ++ ")"
                  = render ([Frag.txt "("] ++ joinFrags " AND " (m0 :: m1 :: mrest2)
                      ++ [Frag.txt ")"]) := by
                simp only [List.append_eq, render_append, render, render_joinFrags,
                  List.nil_append, List.cons_append, String.append_assoc,
                  String.append_empty]
              rw [hr] at h1
              have hh : holes ([Frag.txt "("] ++ joinFrags " AND " (m0 :: m1 :: mrest2)
                  ++ [Frag.txt ")"]) = (m0 :: m1 :: mrest2).flatMap holes := by
                simp [List.append_eq, holes_append, holes, holes_joinFrags,
                  List.nil_append, List.cons_append]
              refine align_push_frag condsF hc _ ?_ ps0 conds1 ps1 h1
                (by rw [hh]; exact h2)
              exact CleanF_append (CleanF_append (CleanF_txt (by decide))
                (CleanF_joinFrags (by decide) hm1)) (CleanF_txt (by decide))
      · by_cases hav : ∃ xs, value = .arr xs
        · obtain ⟨xs, rfl⟩ := hav
          rw [parseKey_arr] at h
          rw [if_neg hd] at h
          simp only [Except.ok.injEq, Prod.mk.injEq] at h
          obtain ⟨h1, h2⟩ := h
          have hr : key ++ " = ?"
              = render [Frag.txt key, Frag.txt " = ", Frag.hole (JVal.arr xs)] := by
            simp only [render, strEqQM, String.append_assoc, String.append_empty]
          rw [hr] at h1
          refine align_push_frag condsF hc _ ?_ ps0 conds1 ps1 h1 h2
          exact CleanF_cons_txt (countQM_of_noQMb key hkey)
            (CleanF_cons_txt (by decide) (CleanF_hole (JVal.arr xs)))
        · push_neg at hsv
          push_neg at hov
          push_neg at hav
          rw [parseKey_lit [] key value (condsF.map render)
            (ps0 ++ condsF.flatMap holes) ctx hsv hov hav] at h
          rw [if_neg hd] at h
          simp only [Except.ok.injEq, Prod.mk.injEq] at h
          obtain ⟨h1, h2⟩ := h
          have hr : key ++ " = ?" = render [Frag.txt key, Frag.txt " = ",
              Frag.hole value] := by
            simp only [render, strEqQM, String.append_assoc, String.append_empty]
          rw [hr] at h1
          refine align_push_frag condsF hc _ ?_ ps0 conds1 ps1 h1 h2
          exact CleanF_cons_txt (countQM_of_noQMb key hkey)
            (CleanF_cons_txt (by decide) (CleanF_hole value))
  termination_by sizeOf value

theorem parseQueryList_align (xs : List JVal) (ps0 : List JVal) (ctx label : String)
    (idx : Nat) (cs : List String) (psOut : List JVal)
    (hwf : wfQueryElems xs = true)
    (h : parseQueryList [] xs ps0 ctx label idx = .ok (cs, psOut)) :
    ∃ csF : List (List Frag), CleanLL csF ∧ cs = csF.map render ∧
      psOut = ps0 ++ csF.flatMap holes := by
  match xs with
  | [] =>
    rw [parseQueryList_nil] at h
    simp only [Except.ok.injEq, Prod.mk.injEq] at h
    obtain ⟨h1, h2⟩ := h
    refine ⟨[], CleanLL_nil, ?_, ?_⟩
    · rw [← h1]; rfl
    · rw [← h2]; simp
  | x :: rest =>
    simp only [wfQueryElems, Bool.and_eq_true] at hwf
    obtain ⟨hx, hrest⟩ := hwf
    rw [parseQueryList_cons] at h
    cases hv : parseValueQuery [] x ps0 (ctx ++ "->" ++ label ++ "[" ++ toString idx ++ "]")
        with
    | error e => rw [hv] at h; rw [bindErr] at h; exact absurd h (by simp)
    | ok pr =>
      obtain ⟨c, params1⟩ := pr
      rw [hv] at h
      simp only [bindOk] at h
      cases hr : parseQueryList [] rest params1 ctx label (idx + 1) with
      | error e =>
        rw [hr] at h
        simp only [bindErr] at h
        exact absurd h (by simp)
      | ok pr2 =>
        obtain ⟨cs2, params2⟩ := pr2
        rw [hr] at h
        simp only [bindOk, Except.ok.injEq, Prod.mk.injEq] at h
        obtain ⟨h1, h2⟩ := h
        obtain ⟨cf, hcf, hcf2, hcf3⟩ := parseValueQuery_align x ps0 _ c params1 hx hv
        subst hcf3
        obtain ⟨csF, hcs1, hcs2, hcs3⟩ :=
          parseQueryList_align rest (ps0 ++ holes cf) ctx label (idx + 1) cs2 params2 hrest hr
        refine ⟨cf :: csF, ?_, ?_, ?_⟩
        · intro cc hcc
          rcases List.mem_cons.mp hcc with h3 | h3
          · subst h3; exact hcf
          · exact hcs1 cc h3
        · rw [← h1, hcf2, hcs2]
          rfl
        · rw [← h2, hcs3]
          simp
  termination_by sizeOf xs

theorem parseValueQuery_align (x : JVal) (ps0 : List JVal) (ctx : String) (c : String)
    (psOut : List JVal) (hwf : wfQueryElem x = true)
    (h : parseValueQuery [] x ps0 ctx = .ok (c, psOut)) :
    ∃ cf : List Frag, CleanF cf ∧ c = render cf ∧ psOut = ps0 ++ holes cf := by
  match x with
  | .obj fs =>
    simp only [wfQueryElem] at hwf
    rw [parseValueQuery_obj] at h
    have h' : parseMongoQuery [] fs (([] : List (List Frag)).map render)
        (ps0 ++ (([] : List (List Frag)).flatMap holes)) ctx = .ok (c, psOut) := by
      simp only [List.map_nil, List.flatMap_nil, List.append_nil]
      exact h
    obtain ⟨outF, h1, h2, h3⟩ :=
      parseMongoQuery_align fs [] ps0 ctx c psOut hwf CleanLL_nil h'
    by_cases he : outF.isEmpty
    · refine ⟨[Frag.txt "1=1"], CleanF_txt (by decide), ?_, ?_⟩
      · rw [h2, if_pos he]
        simp [render]
      · rw [h3]
        have : outF = [] := by simpa [List.isEmpty_iff] using he
        simp [this, holes]
    · refine ⟨joinFrags " AND " outF, CleanF_joinFrags (by decide) h1, ?_, ?_⟩
      · rw [h2, if_neg he, render_joinFrags]
      · rw [h3, holes_joinFrags]
  | .null => simp [wfQueryElem] at hwf
  | .undef => simp [wfQueryElem] at hwf
  | .boolV b => simp [wfQueryElem] at hwf
  | .num n => simp [wfQueryElem] at hwf
  | .str s => simp [wfQueryElem] at hwf
  | .arr ys => simp [wfQueryElem] at hwf
  | .sub q => simp [wfQueryElem] at hwf
  termination_by sizeOf x

theorem parseFieldOps_align (field : String) (ops : List (String × JVal))
    (fcF : List (List Frag)) (ps0 : List JVal) (ctx : String) (fc1 : List String)
    (ps1 : List JVal) (hf : noQMb field = true) (hwf : wfOps ops = true)
    (hc : CleanLL fcF)
    (h : parseFieldOps [] field ops (fcF.map render) (ps0 ++ fcF.flatMap holes) ctx
      = .ok (fc1, ps1)) :
    ∃ outF : List (List Frag), CleanLL (fcF ++ outF) ∧
      fc1 = (fcF ++ outF).map render ∧
      ps1 = ps0 ++ (fcF ++ outF).flatMap holes := by
  match ops with
  | [] =>
    rw [parseFieldOps_nil] at h
    simp only [Except.ok.injEq, Prod.mk.injEq] at h
    obtain ⟨h1, h2⟩ := h
    refine ⟨[], ?_, ?_, ?_⟩
    · simpa using hc
    · rw [← h1]; simp
    · rw [← h2]; simp
  | (op, ov) :: rest =>
    simp only [wfOps, Bool.and_eq_true] at hwf
    obtain ⟨⟨hop, hov⟩, hrest⟩ := hwf
    by_cases hsv : ∃ s, ov = .sub s
    · obtain ⟨s, rfl⟩ := hsv
      have hovs : wfSubQ s = true := hov
      rw [parseFieldOps_cons_sub] at h
      by_cases hd : startsWithDollar op = true
      · rw [if_pos hd] at h
        by_cases hin : op = "$in"
        · rw [if_pos (show (decide (op = "$in") && isSubQ (JVal.sub s)) = true by
            simp [hin, isSubQ])] at h
          rcases subQueryPair_align s hovs with ⟨e, he1, he2⟩ | ⟨bf, hb1, hb2, hb3⟩
          · rw [he1] at h
            rw [bindErr] at h
            exact absurd h (by simp)
          · rw [hb2] at h
            simp only [bindOk] at h
            rw [hb3] at h
            simp only [bindOk] at h
            have e1 : fcF.map render ++ [field ++ " IN " ++ ("(" ++ render bf ++ ")")]
                = (fcF ++ [[Frag.txt (field ++ " IN " ++ "(")] ++ bf
                    ++ [Frag.txt ")"]]).map render := by
              rw [List.map_append]
              simp only [List.append_eq, List.map_cons, List.map_nil, render_append,
                render, List.nil_append, List.cons_append, String.append_assoc,
                String.append_empty]
            have e2 : (ps0 ++ fcF.flatMap holes) ++ holes bf
                = ps0 ++ (fcF ++ [[Frag.txt (field ++ " IN " ++ "(")] ++ bf
                    ++ [Frag.txt ")"]]).flatMap holes := by
              simp [List.append_eq, List.flatMap_append, holes_append, holes,
                List.nil_append, List.cons_append, List.append_assoc]
            rw [e1, e2] at h
            have hcl2 : CleanLL (fcF ++ [[Frag.txt (field ++ " IN " ++ "(")] ++ bf
                ++ [Frag.txt ")"]]) := by
              refine CleanLL_append hc (CleanLL_singleton ?_)
              refine CleanF_append (CleanF_append (CleanF_txt ?_) hb1)
                (CleanF_txt (by decide))
              rw [countQM_append, countQM_append, countQM_of_noQMb field hf]
              decide
            obtain ⟨outF, ho1, ho2, ho3⟩ :=
              parseFieldOps_align field rest _ ps0 ctx fc1 ps1 hf hrest hcl2 h
            refine ⟨[[Frag.txt (field ++ " IN " ++ "(")] ++ bf ++ [Frag.txt ")"]]
              ++ outF, ?_, ?_, ?_⟩
            · rw [← List.append_assoc]
              exact ho1
            · rw [ho2]
              simp [List.append_assoc]
            · rw [ho3]
              simp [List.append_assoc]
        · rw [if_neg (show ¬ ((decide (op = "$in") && isSubQ (JVal.sub s)) = true) by
            simp [hin])] at h
          by_cases h3 : op = "$nin" ∨ op = "$all"
          · rw [if_pos (show (decide (op = "$in") || decide (op = "$nin")
                || decide (op = "$all")) = true by
              rcases h3 with h3 | h3 <;> simp [h3])] at h
            cases hha : handleArrayOperators [] field (JVal.sub s) op (fcF.map render)
                (ps0 ++ fcF.flatMap holes) ctx with
            | error e =>
              rw [hha] at h
              rw [bindErr] at h
              exact absurd h (by simp)
            | ok pr =>
              obtain ⟨fc2, p2⟩ := pr
              rw [hha] at h
              simp only [bindOk] at h
              obtain ⟨midsF, hm1, hm2, hm3⟩ :=
                handleArrayOperators_align field (JVal.sub s) op fcF ps0 ctx fc2 p2
                  hf hov hc hha
              subst hm2
              subst hm3
              obtain ⟨outF, ho1, ho2, ho3⟩ :=
                parseFieldOps_align field rest _ ps0 ctx fc1 ps1 hf hrest hm1 h
              refine ⟨midsF ++ outF, ?_, ?_, ?_⟩
              · rw [← List.append_assoc]
                exact ho1
              · rw [ho2]
                simp [List.append_assoc]
              · rw [ho3]
                simp [List.append_assoc]
          · rw [if_neg (show ¬ ((decide (op = "$in") || decide (op = "$nin")
                || decide (op = "$all")) = true) by
              push_neg at h3
              simp [hin, h3.1, h3.2])] at h
            cases hho : handleOperator [] field (JVal.sub s) op (fcF.map render)
                (ps0 ++ fcF.flatMap holes) ctx with
            | error e =>
              rw [hho] at h
              rw [bindErr] at h
              exact absurd h (by simp)
            | ok pr =>
              obtain ⟨fc2, p2⟩ := pr
              rw [hho] at h
              simp only [bindOk] at h
              obtain ⟨midsF, hm1, hm2, hm3⟩ :=
                handleOperator_align field (JVal.sub s) op fcF ps0 ctx fc2 p2
                  hf hov hc hho
              subst hm2
              subst hm3
              obtain ⟨outF, ho1, ho2, ho3⟩ :=
                parseFieldOps_align field rest _ ps0 ctx fc1 ps1 hf hrest hm1 h
              refine ⟨midsF ++ outF, ?_, ?_, ?_⟩
              · rw [← List.append_assoc]
                exact ho1
              · rw [ho2]
                simp [List.append_assoc]
              · rw [ho3]
                simp [List.append_assoc]
      · rw [if_neg hd] at h
        have e1 : fcF.map render ++ [field ++ " = ?"]
            = (fcF ++ [[Frag.txt field, Frag.txt " = ", Frag.hole (JVal.sub s)]]).map
                render := by
          rw [List.map_append]
          simp only [List.map_cons, List.map_nil, render, strEqQM,
            String.append_assoc, String.append_empty]
        have e2 : (ps0 ++ fcF.flatMap holes) ++ [JVal.sub s]
            = ps0 ++ (fcF ++ [[Frag.txt field, Frag.txt " = ",
                Frag.hole (JVal.sub s)]]).flatMap holes := by
          simp [List.flatMap_append, holes, List.append_assoc]
        rw [e1, e2] at h
        have hcl2 : CleanLL (fcF ++ [[Frag.txt field, Frag.txt " = ",
            Frag.hole (JVal.sub s)]]) :=
          CleanLL_append hc (CleanLL_singleton (CleanF_cons_txt
            (countQM_of_noQMb field hf) (CleanF_cons_txt (by decide)
              (CleanF_hole (JVal.sub s)))))
        obtain ⟨outF, ho1, ho2, ho3⟩ :=
          parseFieldOps_align field rest _ ps0 ctx fc1 ps1 hf hrest hcl2 h
        refine ⟨[[Frag.txt field, Frag.txt " = ", Frag.hole (JVal.sub s)]] ++ outF,
          ?_, ?_, ?_⟩
        · rw [← List.append_assoc]
          exact ho1
        · rw [ho2]
          simp [List.append_assoc]
        · rw [ho3]
          simp [List.append_assoc]
    · push_neg at hsv
      rw [parseFieldOps_cons_notSub [] field op ov rest (fcF.map render)
        (ps0 ++ fcF.flatMap holes) ctx hsv] at h
      by_cases hd : startsWithDollar op = true
      · rw [if_pos hd] at h
        rw [if_neg (show ¬ ((decide (op = "$in") && isSubQ ov) = true) by
          simp [isSubQ_false_of_ne ov hsv])] at h
        by_cases h3 : op = "$in" ∨ op = "$nin" ∨ op = "$all"
        · rw [if_pos (show (decide (op = "$in") || decide (op = "$nin")
              || decide (op = "$all")) = true by
            rcases h3 with h3 | h3 | h3 <;> simp [h3])] at h
          cases hha : handleArrayOperators [] field ov op (fcF.map render)
              (ps0 ++ fcF.flatMap holes) ctx with
          | error e =>
            rw [hha] at h
            rw [bindErr] at h
            exact absurd h (by simp)
          | ok pr =>
            obtain ⟨fc2, p2⟩ := pr
            rw [hha] at h
            simp only [bindOk] at h
            obtain ⟨midsF, hm1, hm2, hm3⟩ :=
              handleArrayOperators_align field ov op fcF ps0 ctx fc2 p2 hf hov hc hha
            subst hm2
            subst hm3
            obtain ⟨outF, ho1, ho2, ho3⟩ :=
              parseFieldOps_align field rest _ ps0 ctx fc1 ps1 hf hrest hm1 h
            refine ⟨midsF ++ outF, ?_, ?_, ?_⟩
            · rw [← List.append_assoc]
              exact ho1
            · rw [ho2]
              simp [List.append_assoc]
            · rw [ho3]
              simp [List.append_assoc]
        · rw [if_neg (show ¬ ((decide (op = "$in") || decide (op = "$nin")
              || decide (op = "$all")) = true) by
            push_neg at h3
            simp [h3.1, h3.2.1, h3.2.2])] at h
          cases hho : handleOperator [] field ov op (fcF.map render)
              (ps0 ++ fcF.flatMap holes) ctx with
          | error e =>
            rw [hho] at h
            rw [bindErr] at h
            exact absurd h (by simp)
          | ok pr =>
            obtain ⟨fc2, p2⟩ := pr
            rw [hho] at h
            simp only [bindOk] at h
            obtain ⟨midsF, hm1, hm2, hm3⟩ :=
              handleOperator_align field ov op fcF ps0 ctx fc2 p2 hf hov hc hho
            subst hm2
            subst hm3
            obtain ⟨outF, ho1, ho2, ho3⟩ :=
              parseFieldOps_align field rest _ ps0 ctx fc1 ps1 hf hrest hm1 h
            refine ⟨midsF ++ outF, ?_, ?_, ?_⟩
            · rw [← List.append_assoc]
              exact ho1
            · rw [ho2]
              simp [List.append_assoc]
            · rw [ho3]
              simp [List.append_assoc]
      · rw [if_neg hd] at h
        have e1 : fcF.map render ++ [field ++ " = ?"]
            = (fcF ++ [[Frag.txt field, Frag.txt " = ", Frag.hole ov]]).map render := by
          rw [List.map_append]
          simp only [List.map_cons, List.map_nil, render, strEqQM,
            String.append_assoc, String.append_empty]
        have e2 : (ps0 ++ fcF.flatMap holes) ++ [ov]
            = ps0 ++ (fcF ++ [[Frag.txt field, Frag.txt " = ",
                Frag.hole ov]]).flatMap holes := by
          simp [List.flatMap_append, holes, List.append_assoc]
        rw [e1, e2] at h
        have hcl2 : CleanLL (fcF ++ [[Frag.txt field, Frag.txt " = ", Frag.hole ov]]) :=
          CleanLL_append hc (CleanLL_singleton (CleanF_cons_txt
            (countQM_of_noQMb field hf) (CleanF_cons_txt (by decide)
              (CleanF_hole ov))))
        obtain ⟨outF, ho1, ho2, ho3⟩ :=
          parseFieldOps_align field rest _ ps0 ctx fc1 ps1 hf hrest hcl2 h
        refine ⟨[[Frag.txt field, Frag.txt " = ", Frag.hole ov]] ++ outF, ?_, ?_, ?_⟩
        · rw [← List.append_assoc]
          exact ho1
        · rw [ho2]
          simp [List.append_assoc]
        · rw [ho3]
          simp [List.append_assoc]
  termination_by sizeOf ops

theorem handleArrayOperators_align (field : String) (values : JVal) (operator : String)
    (condsF : List (List Frag)) (ps0 : List JVal) (ctx : String) (c1 : List String)
    (ps1 : List JVal) (hf : noQMb field = true) (hwf : wfOperand values = true)
    (hc : CleanLL condsF)
    (h : handleArrayOperators [] field values operator (condsF.map render)
      (ps0 ++ condsF.flatMap holes) ctx = .ok (c1, ps1)) :
    ∃ outF : List (List Frag), CleanLL (condsF ++ outF) ∧
      c1 = (condsF ++ outF).map render ∧
      ps1 = ps0 ++ (condsF ++ outF).flatMap holes := by
  by_cases ha : ∃ xs, values = .arr xs
  · obtain ⟨xs, rfl⟩ := ha
    have hxs : wfArrElems xs = true := hwf
    rw [handleArrayOperators_arr] at h
    by_cases hemp : xs.isEmpty
    · rw [if_pos hemp] at h
      by_cases hin : operator = "$in"
      · rw [if_pos hin] at h
        simp only [Except.ok.injEq, Prod.mk.injEq] at h
        obtain ⟨h1, h2⟩ := h
        exact align_push_const condsF hc "1=0" (by decide) ps0 c1 ps1 h1 h2
      · rw [if_neg hin] at h
        by_cases hnin : operator = "$nin"
        · rw [if_pos hnin] at h
          simp only [Except.ok.injEq, Prod.mk.injEq] at h
          obtain ⟨h1, h2⟩ := h
          exact align_push_const condsF hc "1=1" (by decide) ps0 c1 ps1 h1 h2
        · rw [if_neg hnin] at h
          simp only [Except.ok.injEq, Prod.mk.injEq] at h
          obtain ⟨h1, h2⟩ := h
          exact align_push_none condsF hc ps0 c1 ps1 h1 h2
    · rw [if_neg hemp] at h
      by_cases hmix : xs.any isSubQ
      · rw [if_pos hmix] at h
        cases hmg : arrMixGo [] xs (ps0 ++ condsF.flatMap holes) with
        | error e =>
          rw [hmg] at h
          rw [bindErr] at h
          exact absurd h (by simp)
        | ok pr =>
          obtain ⟨frags, p1⟩ := pr
          rw [hmg] at h
          simp only [bindOk, Except.ok.injEq, Prod.mk.injEq] at h
          obtain ⟨h1, h2⟩ := h
          obtain ⟨frsF, hf1, hf2, hf3⟩ :=
            arrMixGo_align xs (ps0 ++ condsF.flatMap holes) frags p1 hxs hmg
          have hr : field ++ " IN (" ++ joinSep ", " frags ++ ")"
              = render ([Frag.txt (field ++ " IN (")] ++ joinFrags ", " frsF
                  ++ [Frag.txt ")"]) := by
            rw [hf2]
            simp only [List.append_eq, render_append, render, render_joinFrags,
              List.nil_append, List.cons_append, String.append_assoc, String.append_empty]
          rw [hr] at h1
          have hh : holes ([Frag.txt (field ++ " IN (")] ++ joinFrags ", " frsF
              ++ [Frag.txt ")"]) = frsF.flatMap holes := by
            simp [List.append_eq, holes_append, holes, holes_joinFrags,
              List.nil_append, List.cons_append]
          refine align_push_frag condsF hc _ ?_ ps0 c1 ps1 h1 (by rw [hh, ← hf3]; exact h2)
          refine CleanF_append (CleanF_append (CleanF_txt ?_)
            (CleanF_joinFrags (by decide) hf1)) (CleanF_txt (by decide))
          rw [countQM_append, countQM_of_noQMb field hf]
          decide
      · rw [if_neg hmix] at h
        have hlen : ¬ xs.length = 0 := by
          simp only [List.isEmpty_iff] at hemp
          exact fun hh => hemp (List.eq_nil_of_length_eq_zero hh)
        by_cases hin : operator = "$in"
        · rw [if_pos hin, if_neg hlen] at h
          simp only [Except.ok.injEq, Prod.mk.injEq] at h
          obtain ⟨h1, h2⟩ := h
          have hr : field ++ " IN (" ++ joinSep ", " (xs.map (fun _ => "?")) ++ ")"
              = render ([Frag.txt (field ++ " IN (")]
                  ++ joinFrags ", " (xs.map (fun v => [Frag.hole v])) ++ [Frag.txt ")"]) := by
            simp only [List.append_eq, render_append, render, render_joinFrags,
              map_render_qm, List.nil_append, List.cons_append, String.append_assoc,
              String.append_empty]
          rw [hr] at h1
          have hh : holes ([Frag.txt (field ++ " IN (")]
              ++ joinFrags ", " (xs.map (fun v => [Frag.hole v])) ++ [Frag.txt ")"])
              = xs := by
            simp [List.append_eq, holes_append, holes, holes_joinFrags, flatMap_holes_qm,
              List.nil_append, List.cons_append]
          refine align_push_frag condsF hc _ ?_ ps0 c1 ps1 h1 (by rw [hh]; exact h2)
          refine CleanF_append (CleanF_append (CleanF_txt ?_)
            (CleanF_joinFrags (by decide) (CleanLL_qm xs))) (CleanF_txt (by decide))
          rw [countQM_append, countQM_of_noQMb field hf]
          decide
        · rw [if_neg hin] at h
          by_cases hnin : operator = "$nin"
          · rw [if_pos hnin, if_neg hlen] at h
            simp only [Except.ok.injEq, Prod.mk.injEq] at h
            obtain ⟨h1, h2⟩ := h
            have hr : field ++ " NOT IN (" ++ joinSep ", " (xs.map (fun _ => "?")) ++ ")"
                = render ([Frag.txt (field ++ " NOT IN (")]
                    ++ joinFrags ", " (xs.map (fun v => [Frag.hole v]))
                    ++ [Frag.txt ")"]) := by
              simp only [List.append_eq, render_append, render, render_joinFrags,
                map_render_qm, List.nil_append, List.cons_append, String.append_assoc,
                String.append_empty]
            rw [hr] at h1
            have hh : holes ([Frag.txt (field ++ " NOT IN (")]
                ++ joinFrags ", " (xs.map (fun v => [Frag.hole v])) ++ [Frag.txt ")"])
                = xs := by
              simp [List.append_eq, holes_append, holes, holes_joinFrags, flatMap_holes_qm,
                List.nil_append, List.cons_append]
            refine align_push_frag condsF hc _ ?_ ps0 c1 ps1 h1 (by rw [hh]; exact h2)
            refine CleanF_append (CleanF_append (CleanF_txt ?_)
              (CleanF_joinFrags (by decide) (CleanLL_qm xs))) (CleanF_txt (by decide))
            rw [countQM_append, countQM_of_noQMb field hf]
            decide
          · rw [if_neg hnin] at h
            by_cases hall : operator = "$all"
            · rw [if_pos hall] at h
              simp only [Except.ok.injEq, Prod.mk.injEq] at h
              obtain ⟨h1, h2⟩ := h
              have hr : "(" ++ joinSep " AND "
                    (xs.map (fun _ => "JSON_CONTAINS(" ++ field ++ ", ?)")) ++ ")"
                  = render ([Frag.txt "("]
                      ++ joinFrags " AND " (xs.map (fun v =>
                          [Frag.txt ("JSON_CONTAINS(" ++ field), Frag.txt ", ",
                            Frag.hole (JVal.str (jsonStringify v)), Frag.txt ")"]))
                      ++ [Frag.txt ")"]) := by
                simp only [List.append_eq, render_append, render, render_joinFrags,
                  map_render_jc, List.nil_append, List.cons_append, String.append_assoc,
                  String.append_empty]
              rw [hr] at h1
              have hh : holes ([Frag.txt "("]
                  ++ joinFrags " AND " (xs.map (fun v =>
                      [Frag.txt ("JSON_CONTAINS(" ++ field), Frag.txt ", ",
                        Frag.hole (JVal.str (jsonStringify v)), Frag.txt ")"]))
                  ++ [Frag.txt ")"]) = xs.map (fun v => JVal.str (jsonStringify v)) := by
                simp [List.append_eq, holes_append, holes, holes_joinFrags,
                  flatMap_holes_jc, List.nil_append, List.cons_append]
              refine align_push_frag condsF hc _ ?_ ps0 c1 ps1 h1 (by rw [hh]; exact h2)
              exact CleanF_append (CleanF_append (CleanF_txt (by decide))
                (CleanF_joinFrags (by decide) (CleanLL_jc field hf xs)))
                (CleanF_txt (by decide))
            · rw [if_neg hall] at h
              simp only [Except.ok.injEq, Prod.mk.injEq] at h
              obtain ⟨h1, h2⟩ := h
              exact align_push_none condsF hc ps0 c1 ps1 h1 h2
  · push_neg at ha
    rw [handleArrayOperators_notArr [] field values operator (condsF.map render)
      (ps0 ++ condsF.flatMap holes) ctx ha] at h
    by_cases hin : operator = "$in"
    · rw [if_pos hin] at h
      simp only [Except.ok.injEq, Prod.mk.injEq] at h
      obtain ⟨h1, h2⟩ := h
      exact align_push_const condsF hc "1=0" (by decide) ps0 c1 ps1 h1 h2
    · rw [if_neg hin] at h
      by_cases hnin : operator = "$nin"
      · rw [if_pos hnin] at h
        simp only [Except.ok.injEq, Prod.mk.injEq] at h
        obtain ⟨h1, h2⟩ := h
        exact align_push_const condsF hc "1=1" (by decide) ps0 c1 ps1 h1 h2
      · rw [if_neg hnin] at h
        simp only [Except.ok.injEq, Prod.mk.injEq] at h
        obtain ⟨h1, h2⟩ := h
        exact align_push_none condsF hc ps0 c1 ps1 h1 h2
  termination_by sizeOf values

theorem arrMixGo_align (xs : List JVal) (ps0 : List JVal) (frs : List String)
    (psOut : List JVal) (hwf : wfArrElems xs = true)
    (h : arrMixGo [] xs ps0 = .ok (frs, psOut)) :
    ∃ frsF : List (List Frag), CleanLL frsF ∧ frs = frsF.map render ∧
      psOut = ps0 ++ frsF.flatMap holes := by
  match xs with
  | [] =>
    rw [arrMixGo_nil] at h
    simp only [Except.ok.injEq, Prod.mk.injEq] at h
    obtain ⟨h1, h2⟩ := h
    refine ⟨[], CleanLL_nil, ?_, ?_⟩
    · rw [← h1]; rfl
    · rw [← h2]; simp
  | v :: rest =>
    obtain ⟨hv, hrest⟩ := wfArrElems_cons hwf
    by_cases hs : ∃ s, v = .sub s
    · obtain ⟨s, rfl⟩ := hs
      have hvs : wfSubQ s = true := hv s rfl
      rw [arrMixGo_cons_sub] at h
      rcases subQueryPair_align s hvs with ⟨e, he1, he2⟩ | ⟨bf, hb1, hb2, hb3⟩
      · rw [he2] at h
        rw [bindErr] at h
        exact absurd h (by simp)
      · rw [hb3] at h
        simp only [bindOk] at h
        rw [hb2] at h
        simp only [bindOk] at h
        cases hr : arrMixGo [] rest (ps0 ++ holes bf) with
        | error e =>
          rw [hr] at h
          rw [bindErr] at h
          exact absurd h (by simp)
        | ok pr =>
          obtain ⟨frags, p1⟩ := pr
          rw [hr] at h
          simp only [bindOk, Except.ok.injEq, Prod.mk.injEq] at h
          obtain ⟨h1, h2⟩ := h
          obtain ⟨frsF, hf1, hf2, hf3⟩ :=
            arrMixGo_align rest (ps0 ++ holes bf) frags p1 hrest hr
          refine ⟨([Frag.txt "("] ++ bf ++ [Frag.txt ")"]) :: frsF, ?_, ?_, ?_⟩
          · refine CleanLL_cons ?_ hf1
            exact CleanF_append (CleanF_append (CleanF_txt (by decide)) hb1)
              (CleanF_txt (by decide))
          · rw [← h1, hf2]
            simp only [List.map_cons]
            congr 1
            simp only [List.append_eq, render_append, render, List.nil_append,
              List.cons_append, String.append_assoc, String.append_empty]
          · rw [← h2, hf3]
            simp [List.flatMap_cons, holes_append, holes, List.append_assoc]
    · push_neg at hs
      rw [arrMixGo_cons_notSub [] v rest ps0 hs] at h
      cases hr : arrMixGo [] rest (ps0 ++ [v]) with
      | error e =>
        rw [hr] at h
        rw [bindErr] at h
        exact absurd h (by simp)
      | ok pr =>
        obtain ⟨frags, p1⟩ := pr
        rw [hr] at h
        simp only [bindOk, Except.ok.injEq, Prod.mk.injEq] at h
        obtain ⟨h1, h2⟩ := h
        obtain ⟨frsF, hf1, hf2, hf3⟩ := arrMixGo_align rest (ps0 ++ [v]) frags p1 hrest hr
        refine ⟨[Frag.hole v] :: frsF, CleanLL_cons (CleanF_hole v) hf1, ?_, ?_⟩
        · rw [← h1, hf2]
          rfl
        · rw [← h2, hf3]
          simp [holes, List.append_assoc]
  termination_by sizeOf xs

theorem handleOperator_align (field : String) (opValue : JVal) (operator : String)
    (condsF : List (List Frag)) (ps0 : List JVal) (ctx : String) (c1 : List String)
    (ps1 : List JVal) (hf : noQMb field = true) (hwf : wfOperand opValue = true)
    (hc : CleanLL condsF)
    (h : handleOperator [] field opValue operator (condsF.map render)
      (ps0 ++ condsF.flatMap holes) ctx = .ok (c1, ps1)) :
    ∃ outF : List (List Frag), CleanLL (condsF ++ outF) ∧
      c1 = (condsF ++ outF).map render ∧
      ps1 = ps0 ++ (condsF ++ outF).flatMap holes := by
  by_cases hs : ∃ s, opValue = .sub s
  · obtain ⟨s, rfl⟩ := hs
    have hvs : wfSubQ s = true := hwf
    rw [handleOperator_empty_sub] at h
    rcases subQueryPair_align s hvs with ⟨e, he1, he2⟩ | ⟨bf, hb1, hb2, hb3⟩
    · rw [he1] at h
      rw [bindErr] at h
      exact absurd h (by simp)
    · rw [hb2] at h
      simp only [bindOk] at h
      rw [hb3] at h
      simp only [bindOk, Except.ok.injEq, Prod.mk.injEq] at h
      obtain ⟨h1, h2⟩ := h
      have hr : field ++ " IN " ++ ("(" ++ render bf ++ ")")
          = render ([Frag.txt (field ++ " IN " ++ "(")] ++ bf ++ [Frag.txt ")"]) := by
        simp only [List.append_eq, render_append, render, List.nil_append,
          List.cons_append, String.append_assoc, String.append_empty]
      rw [hr] at h1
      have hh : holes ([Frag.txt (field ++ " IN " ++ "(")] ++ bf ++ [Frag.txt ")"])
          = holes bf := by
        simp [List.append_eq, holes_append, holes, List.nil_append, List.cons_append]
      refine align_push_frag condsF hc _ ?_ ps0 c1 ps1 h1 (by rw [hh]; exact h2)
      refine CleanF_append (CleanF_append (CleanF_txt ?_) hb1) (CleanF_txt (by decide))
      rw [countQM_append, countQM_append, countQM_of_noQMb field hf]
      decide
  · push_neg at hs
    rw [handleOperator_empty_notSub field opValue operator (condsF.map render)
      (ps0 ++ condsF.flatMap holes) ctx hs] at h
    by_cases he : operator = "$exists"
    · rw [if_pos he] at h
      simp only [Except.ok.injEq, Prod.mk.injEq] at h
      obtain ⟨h1, h2⟩ := h
      have hx : countQM (if jsTruthy opValue then " IS NOT NULL" else " IS NULL") = 0 := by
        split <;> decide
      refine align_push_const condsF hc
        (field ++ (if jsTruthy opValue then " IS NOT NULL" else " IS NULL")) ?_ ps0 c1 ps1
        h1 h2
      rw [countQM_append, countQM_of_noQMb field hf, hx]
    · rw [if_neg he] at h
      by_cases hz : operator = "$size"
      · rw [if_pos hz] at h
        simp only [Except.ok.injEq, Prod.mk.injEq] at h
        obtain ⟨h1, h2⟩ := h
        have hr : ("JSON_LENGTH(" ++ field ++ ") = ?")
            = render [Frag.txt ("JSON_LENGTH(" ++ field), Frag.txt ") = ",
                Frag.hole opValue] := by
          simp only [render, strParenEqQM, String.append_assoc, String.append_empty]
        rw [hr] at h1
        refine align_push_frag condsF hc _ ?_ ps0 c1 ps1 h1 h2
        refine CleanF_cons_txt ?_ (CleanF_cons_txt (by decide) (CleanF_hole opValue))
        rw [countQM_append, countQM_of_noQMb field hf]
        decide
      · rw [if_neg hz] at h
        by_cases hm : operator = "$elemMatch"
        · rw [if_pos hm] at h
          simp only [Except.ok.injEq, Prod.mk.injEq] at h
          obtain ⟨h1, h2⟩ := h
          have hr : ("JSON_CONTAINS(" ++ field ++ ", ?)")
              = render [Frag.txt ("JSON_CONTAINS(" ++ field), Frag.txt ", ",
                  Frag.hole (JVal.str (jsonStringify opValue)), Frag.txt ")"] := by
            simp only [render, strCommaQMParen, String.append_assoc, String.append_empty]
          rw [hr] at h1
          refine align_push_frag condsF hc _ ?_ ps0 c1 ps1 h1 h2
          refine CleanF_cons_txt ?_ (CleanF_cons_txt (by decide)
            (CleanF_cons_hole (CleanF_txt (by decide))))
          rw [countQM_append, countQM_of_noQMb field hf]
          decide
        · rw [if_neg hm] at h
          by_cases hg : operator = "$regex"
          · rw [if_pos hg] at h
            simp only [Except.ok.injEq, Prod.mk.injEq] at h
            obtain ⟨h1, h2⟩ := h
            have hr : (field ++ " REGEXP ?")
                = render [Frag.txt field, Frag.txt " REGEXP ", Frag.hole opValue] := by
              simp only [render, strRegexQM, String.append_assoc, String.append_empty]
            rw [hr] at h1
            refine align_push_frag condsF hc _ ?_ ps0 c1 ps1 h1 h2
            exact CleanF_cons_txt (countQM_of_noQMb field hf)
              (CleanF_cons_txt (by decide) (CleanF_hole opValue))
          · rw [if_neg hg] at h
            by_cases hl : operator = "$like"
            · rw [if_pos hl] at h
              simp only [Except.ok.injEq, Prod.mk.injEq] at h
              obtain ⟨h1, h2⟩ := h
              have hr : (field ++ " LIKE ?")
                  = render [Frag.txt field, Frag.txt " LIKE ", Frag.hole opValue] := by
                simp only [render, strLikeQM, String.append_assoc, String.append_empty]
              rw [hr] at h1
              refine align_push_frag condsF hc _ ?_ ps0 c1 ps1 h1 h2
              exact CleanF_cons_txt (countQM_of_noQMb field hf)
                (CleanF_cons_txt (by decide) (CleanF_hole opValue))
            · rw [if_neg hl] at h
              cases hop : OPERATORS_MYSQL operator with
              | none =>
                rw [hop] at h
                exact absurd h (by simp)
              | some sqlOp =>
                rw [hop] at h
                simp only [Except.ok.injEq, Prod.mk.injEq] at h
                obtain ⟨h1, h2⟩ := h
                have hr : (field ++ " " ++ sqlOp ++ " ?")
                    = render [Frag.txt (field ++ " " ++ sqlOp), Frag.txt " ",
                        Frag.hole opValue] := by
                  simp only [render, strSpaceQM, String.append_assoc, String.append_empty]
                rw [hr] at h1
                refine align_push_frag condsF hc _ ?_ ps0 c1 ps1 h1 h2
                refine CleanF_cons_txt ?_ (CleanF_cons_txt (by decide)
                  (CleanF_hole opValue))
                rw [countQM_append, countQM_append, countQM_of_noQMb field hf,
                  OPERATORS_MYSQL_clean operator sqlOp hop]
                decide
  termination_by sizeOf opValue

/-- subQueryPair_align: for a well-formed SubQuery with an empty cache,
toSQL and getParams both derive from the same builder compilation, so
either both observe the compilation error, or the cached text and the
recompiled params come from one aligned fragment list. -/
theorem subQueryPair_align (s : SubQuery) (hwf : wfSubQ s = true) :
    (∃ e, SubQuery.toSQL [] s = .error e ∧ SubQuery.getParams [] s = .error e) ∨
    (∃ bf : List Frag, CleanF bf ∧ SubQuery.toSQL [] s = .ok ("(" ++ render bf ++ ")") ∧
      SubQuery.getParams [] s = .ok (holes bf)) := by
  match s with
  | .mk b cached =>
    simp only [wfSubQ, Bool.and_eq_true, Option.isNone_iff_eq_none] at hwf
    obtain ⟨hnone, hb⟩ := hwf
    subst hnone
    cases hts : MongoQueryBuilder.toSQL [] b with
    | error e =>
      left
      refine ⟨e, ?_, ?_⟩
      · rw [subToSQL_fresh, hts, bindErr]
      · rw [subGetParams_eq, hts, bindErr]
    | ok pr =>
      obtain ⟨sql, ps⟩ := pr
      obtain ⟨bf, h1, h2, h3⟩ := builderToSQL_align b sql ps hb hts
      right
      refine ⟨bf, h1, ?_, ?_⟩
      · rw [subToSQL_fresh, hts, bindOk, ← h2]
      · rw [subGetParams_eq, hts, bindOk, ← h3]
  termination_by sizeOf s

theorem builderToSQL_align (b : MongoQueryBuilder) (s : String) (ps : List JVal)
    (hwf : wfQB b = true) (h : MongoQueryBuilder.toSQL [] b = .ok (s, ps)) :
    ∃ bf : List Frag, CleanF bf ∧ s = render bf ∧ ps = holes bf := by
  match b with
  | .mk t f proj joins sort lim off =>
    simp only [wfQB, Bool.and_eq_true] at hwf
    obtain ⟨⟨⟨⟨h1t, h2f⟩, h3p⟩, h4j⟩, h5s⟩ := hwf
    rw [builderToSQL_eq2] at h
    cases hpq : parseMongoQuery [] f [] [] "SELECT" with
    | error e =>
      rw [hpq] at h
      rw [bindErr] at h
      exact absurd h (by simp)
    | ok pr =>
      obtain ⟨w, wps⟩ := pr
      rw [hpq] at h
      simp only [bindOk] at h
      have hpq' : parseMongoQuery [] f (([] : List (List Frag)).map render)
          (([] : List JVal) ++ ([] : List (List Frag)).flatMap holes) "SELECT"
          = .ok (w, wps) := by
        simpa using hpq
      obtain ⟨outF, ho1, ho2, ho3⟩ :=
        parseMongoQuery_align f [] [] "SELECT" w wps h2f CleanLL_nil hpq'
      simp only [List.nil_append] at ho3
      have hWfacts : ∃ wF : List Frag, CleanF wF ∧ w = render wF ∧
          holes wF = outF.flatMap holes := by
        by_cases hemp : outF.isEmpty
        · refine ⟨[Frag.txt "1=1"], CleanF_txt (by decide), ?_, ?_⟩
          · rw [ho2, if_pos hemp]
            simp [render]
          · have : outF = [] := by simpa [List.isEmpty_iff] using hemp
            simp [this, holes]
        · refine ⟨joinFrags " AND " outF, CleanF_joinFrags (by decide) ho1, ?_, ?_⟩
          · rw [ho2, if_neg hemp, render_joinFrags]
          · rw [holes_joinFrags]
      obtain ⟨wF, hw1, hw2, hw3⟩ := hWfacts
      subst hw2
      subst ho3
      simp only [Except.ok.injEq, Prod.mk.injEq] at h
      obtain ⟨hs, hp⟩ := h
      refine assembleSelect_align (selectPrefix t proj joins)
        (orderSuffix sort ++ pagingSuffix lim off) wF ?_ ?_ hw1 s ps hs ?_
      · refine countQM_selectPrefix t proj joins h1t ?_ h4j
        intro fs hfs
        subst hfs
        simpa using h3p
      · rw [countQM_append, countQM_orderSuffix sort h5s, countQM_pagingSuffix]
      · rw [hw3]
        exact hp
  termination_by sizeOf b
end

end MongoAdapter

namespace MongoAdapter

theorem handleOperator_eq (pl : List OperatorPlugin) (field : String) (opValue : JVal)
    (operator : String) (conds : List String) (ps : List JVal) (ctx : String) :
    handleOperator pl field opValue operator conds ps ctx =
      (match pl.find? (fun p => p.operator == operator) with
      | some plugin => .ok (plugin.handler field opValue conds ps ctx)
      | none =>
        match opValue with
        | .sub s => do
          let subSql ← SubQuery.toSQL pl s
          let conditions1 := conds ++ [field ++ " IN " ++ subSql]
          let ps2 ← SubQuery.getParams pl s
          .ok (conditions1, ps ++ ps2)
        | _ =>
          if operator = "$exists" then
            .ok (conds ++ [field ++ (if jsTruthy opValue then " IS NOT NULL" else " IS NULL")],
              ps)
          else if operator = "$size" then
            .ok (conds ++ ["JSON_LENGTH(" ++ field ++ ") = ?"], ps ++ [opValue])
          else if operator = "$elemMatch" then
            .ok (conds ++ ["JSON_CONTAINS(" ++ field ++ ", ?)"],
              ps ++ [JVal.str (jsonStringify opValue)])
          else if operator = "$regex" then
            .ok (conds ++ [field ++ " REGEXP ?"], ps ++ [opValue])
          else if operator = "$like" then
            .ok (conds ++ [field ++ " LIKE ?"], ps ++ [opValue])
          else
            match OPERATORS_MYSQL operator with
            | some sqlOperator =>
              .ok (conds ++ [field ++ " " ++ sqlOperator ++ " ?"], ps ++ [opValue])
            | none =>
              .error (handleErrorSQLGen
                ("Unsupported operator \"" ++ operator ++ "\" for field \"" ++ field ++ "\"")
                ctx)) := by
  cases opValue <;> rfl

theorem handleOperator_plugin (pl : List OperatorPlugin) (p : OperatorPlugin)
    (field : String) (ov : JVal) (op : String) (conds : List String) (ps : List JVal)
    (ctx : String) (hfind : pl.find? (fun q => q.operator == op) = some p) :
    handleOperator pl field ov op conds ps ctx = .ok (p.handler field ov conds ps ctx) := by
  rw [handleOperator_eq, hfind]

theorem foldl_append_flatMap {α β : Type} (g : α → List β) (l : List α) (acc : List β) :
    l.foldl (fun a x => a ++ g x) acc = acc ++ l.flatMap g := by
  induction l generalizing acc with
  | nil => simp
  | cons x rest ih => simp [List.foldl_cons, List.flatMap_cons, ih, List.append_assoc]

theorem bulkColsGo_row (idF : String) (row : List (String × JVal)) (acc : List String) :
    row.foldl (fun acc2 kv =>
      if kv.1 ≠ idF && !(acc2.contains kv.1) then acc2 ++ [kv.1] else acc2) acc
      = ((row.map Prod.fst).filter (fun k => k ≠ idF)).foldl
          (fun a k => if !(a.contains k) then a ++ [k] else a) acc := by
  induction row generalizing acc with
  | nil => rfl
  | cons kv rest ih =>
    simp only [List.foldl_cons, List.map_cons, List.filter_cons]
    by_cases hk : kv.1 = idF
    · rw [if_neg (show ¬ ((decide (kv.1 ≠ idF) && !(acc.contains kv.1)) = true) by
          simp [hk]),
        if_neg (show ¬ (decide (kv.1 ≠ idF) = true) by simp [hk])]
      exact ih acc
    · cases hcb : acc.contains kv.1 with
      | false =>
        rw [if_pos (show (decide (kv.1 ≠ idF) && !false) = true by simp [hk]),
          if_pos (show decide (kv.1 ≠ idF) = true by simp [hk]),
          List.foldl_cons, hcb,
          if_pos (show (!false) = true by rfl)]
        exact ih (acc ++ [kv.1])
      | true =>
        rw [if_neg (show ¬ ((decide (kv.1 ≠ idF) && !true) = true) by simp),
          if_pos (show decide (kv.1 ≠ idF) = true by simp [hk]),
          List.foldl_cons, hcb,
          if_neg (show ¬ ((!true) = true) by simp)]
        exact ih acc

theorem bulkUpdateColumns_eq (idF : String) (rows : List (List (String × JVal))) :
    bulkUpdateColumns idF rows = bulkFirstSeenColumns idF rows := by
  simp only [bulkUpdateColumns, bulkFirstSeenColumns]
  suffices h : ∀ acc : List String,
      rows.foldl (fun acc row => row.foldl (fun acc2 kv =>
        if kv.1 ≠ idF && !(acc2.contains kv.1) then acc2 ++ [kv.1] else acc2) acc) acc
      = (rows.flatMap (fun row => (row.map Prod.fst).filter (fun k => k ≠ idF))).foldl
          (fun acc k => if !(acc.contains k) then acc ++ [k] else acc) acc by
    exact h []
  intro acc
  induction rows generalizing acc with
  | nil => rfl
  | cons row rest ih =>
    simp only [List.foldl_cons, List.flatMap_cons, List.foldl_append]
    rw [bulkColsGo_row, ih]

theorem bulkCases_eq (col : String) (rows : List (List (String × JVal))) :
    ((rows.map (fun row =>
        if (lookupJ row col).isSome then "WHEN ? THEN ?" else "")).filter
      (fun x => x ≠ ""))
      = (bulkRowsSetting col rows).map (fun _ => "WHEN ? THEN ?") := by
  induction rows with
  | nil => rfl
  | cons row rest ih =>
    simp only [List.map_cons]
    by_cases hs : (lookupJ row col).isSome
    · rw [if_pos hs, List.filter_cons, if_pos (by decide),
        show bulkRowsSetting col (row :: rest) = row :: bulkRowsSetting col rest from by
          simp [bulkRowsSetting, List.filter_cons, hs],
        List.map_cons, ih]
    · rw [if_neg hs, List.filter_cons, if_neg (by decide),
        show bulkRowsSetting col (row :: rest) = bulkRowsSetting col rest from by
          simp [bulkRowsSetting, List.filter_cons, hs],
        ih]

theorem bulkColParamsGo (idF col : String) (rows : List (List (String × JVal)))
    (acc : List JVal) :
    rows.foldl (fun a2 row =>
      if (lookupJ row col).isSome then
        a2 ++ [(lookupJ row idF).getD .undef, (lookupJ row col).getD .undef]
      else a2) acc
      = acc ++ bulkColumnParams idF col rows := by
  induction rows generalizing acc with
  | nil => simp [bulkColumnParams, bulkRowsSetting]
  | cons row rest ih =>
    rw [List.foldl_cons]
    by_cases hs : (lookupJ row col).isSome
    · rw [if_pos hs, ih,
        show bulkColumnParams idF col (row :: rest)
            = [(lookupJ row idF).getD .undef, (lookupJ row col).getD .undef]
              ++ bulkColumnParams idF col rest from by
          simp [bulkColumnParams, bulkRowsSetting, List.filter_cons, hs]]
      simp [List.append_assoc]
    · rw [if_neg hs, ih,
        show bulkColumnParams idF col (row :: rest) = bulkColumnParams idF col rest from by
          simp [bulkColumnParams, bulkRowsSetting, List.filter_cons, hs]]

theorem bulkCaseParams_eq (idF : String) (rows : List (List (String × JVal)))
    (cols : List String) :
    cols.foldl (fun acc col => rows.foldl (fun a2 row =>
      if (lookupJ row col).isSome then
        a2 ++ [(lookupJ row idF).getD .undef, (lookupJ row col).getD .undef]
      else a2) acc) []
      = cols.flatMap (fun col => bulkColumnParams idF col rows) := by
  suffices h : ∀ acc : List JVal,
      cols.foldl (fun acc col => rows.foldl (fun a2 row =>
        if (lookupJ row col).isSome then
          a2 ++ [(lookupJ row idF).getD .undef, (lookupJ row col).getD .undef]
        else a2) acc) acc
      = acc ++ cols.flatMap (fun col => bulkColumnParams idF col rows) by
    simpa using h []
  intro acc
  induction cols generalizing acc with
  | nil => simp
  | cons col rest ih =>
    simp only [List.foldl_cons, List.flatMap_cons]
    rw [bulkColParamsGo, ih]
    simp [List.append_assoc]

theorem bulkSetClauses_eq (idF : String) (rows : List (List (String × JVal)))
    (cols : List String) :
    cols.map (fun col =>
      col ++ " = CASE " ++ idF ++ " " ++ joinSep " "
        ((rows.map (fun row =>
          if (lookupJ row col).isSome then "WHEN ? THEN ?" else "")).filter
          (fun x => x ≠ "")) ++ " ELSE " ++ col ++ " END")
      = cols.map (fun col => bulkCaseClause idF col rows) := by
  induction cols with
  | nil => rfl
  | cons col rest ih =>
    simp only [List.map_cons]
    rw [ih]
    congr 1
    rw [bulkCases_eq]
    rfl

end MongoAdapter

namespace MongoAdapter

/-- C1: for every well-formed filter tree translated with the built-in
operator handling (no caller-registered plugins), the number of `?`
placeholders in the returned WHERE text equals the length of the
accumulated parameter list, and the parameters are bound to the
placeholders in left-to-right textual order: the text and the list are
the rendering and the holes of one common clean fragment list. -/
theorem C1_placeholder_param_alignment (query : List (String × JVal)) (ctx t : String)
    (ps : List JVal) (hwf : wfEntries query = true)
    (h : parseMongoQuery [] query [] [] ctx = .ok (t, ps)) :
    countQM t = ps.length ∧
    ∃ bf : List Frag, CleanF bf ∧ t = render bf ∧ ps = holes bf := by
  have h' : parseMongoQuery [] query (([] : List (List Frag)).map render)
      (([] : List JVal) ++ ([] : List (List Frag)).flatMap holes) ctx = .ok (t, ps) := by
    simpa using h
  obtain ⟨outF, ho1, ho2, ho3⟩ :=
    parseMongoQuery_align query [] [] ctx t ps hwf CleanLL_nil h'
  simp only [List.nil_append] at ho3
  have hbf : ∃ bf : List Frag, CleanF bf ∧ t = render bf ∧ ps = holes bf := by
    by_cases hemp : outF.isEmpty
    · refine ⟨[Frag.txt "1=1"], CleanF_txt (by decide), ?_, ?_⟩
      · rw [ho2, if_pos hemp]
        simp [render]
      · rw [ho3]
        have : outF = [] := by simpa [List.isEmpty_iff] using hemp
        simp [this, holes]
    · refine ⟨joinFrags " AND " outF, CleanF_joinFrags (by decide) ho1, ?_, ?_⟩
      · rw [ho2, if_neg hemp, render_joinFrags]
      · rw [ho3, holes_joinFrags]
  obtain ⟨bf, hb1, hb2, hb3⟩ := hbf
  refine ⟨?_, bf, hb1, hb2, hb3⟩
  rw [hb2, hb3, countQM_render hb1]

/-- C1 witness: the filter {age: {$gt: 18}} translates to one
placeholder bound to the single parameter 18. -/
theorem C1_witness : countQM "age > ?" = ([JVal.num 18] : List JVal).length ∧
    ∃ bf : List Frag, CleanF bf ∧ "age > ?" = render bf ∧
      ([JVal.num 18] : List JVal) = holes bf :=
  C1_placeholder_param_alignment [("age", .obj [("$gt", .num 18)])] "root" "age > ?"
    [JVal.num 18] (by rfl) (by rfl)

/-- C2: the empty-collection policy of the filter translator.  An
`$and: []` entry appends no condition and no parameter; `$or: []`
compiles to the always-false predicate 1=0; `$nor: []` compiles to the
always-true predicate 1=1; `$in` over the empty array compiles to 1=0
and `$nin` over the empty array to 1=1; none of the five cases appends
a parameter. -/
theorem C2_empty_collection_policy (conds : List String) (ps : List JVal)
    (ctx field : String) :
    parseKey [] "$and" (.arr []) conds ps ctx = .ok (conds, ps) ∧
    parseKey [] "$or" (.arr []) conds ps ctx = .ok (conds ++ ["1=0"], ps) ∧
    parseKey [] "$nor" (.arr []) conds ps ctx = .ok (conds ++ ["1=1"], ps) ∧
    handleArrayOperators [] field (.arr []) "$in" conds ps ctx
      = .ok (conds ++ ["1=0"], ps) ∧
    handleArrayOperators [] field (.arr []) "$nin" conds ps ctx
      = .ok (conds ++ ["1=1"], ps) :=
  ⟨rfl, rfl, rfl, rfl, rfl⟩

/-- C3: evidence for the single-compilation-pass claim being violated by
the code.  A SubQuery whose toSQL has been cached and whose wrapped
builder is afterwards given a second filter serves cached SQL with one
placeholder while getParams recompiles the mutated builder and returns
two parameters, so the two accessors are no longer positionally
aligned. -/
theorem C3_getParams_recompiles :
    MongoQueryBuilder.query
        (MongoQueryBuilder.mk "t" [("a", JVal.num 1)] none [] "" none none)
        [("b", JVal.num 2)]
      = .ok (MongoQueryBuilder.mk "t"
          [("$and", JVal.arr [JVal.obj [("a", JVal.num 1)], JVal.obj [("b", JVal.num 2)]])]
          none [] "" none none) ∧
    subToSQLState []
        (SubQuery.mk (MongoQueryBuilder.mk "t" [("a", JVal.num 1)] none [] "" none none)
          none)
      = .ok ("(SELECT * FROM t WHERE a = ?)",
          SubQuery.mk (MongoQueryBuilder.mk "t" [("a", JVal.num 1)] none [] "" none none)
            (some "(SELECT * FROM t WHERE a = ?)")) ∧
    SubQuery.toSQL []
        (SubQuery.mk (MongoQueryBuilder.mk "t"
            [("$and", JVal.arr [JVal.obj [("a", JVal.num 1)],
              JVal.obj [("b", JVal.num 2)]])] none [] "" none none)
          (some "(SELECT * FROM t WHERE a = ?)"))
      = .ok "(SELECT * FROM t WHERE a = ?)" ∧
    SubQuery.getParams []
        (SubQuery.mk (MongoQueryBuilder.mk "t"
            [("$and", JVal.arr [JVal.obj [("a", JVal.num 1)],
              JVal.obj [("b", JVal.num 2)]])] none [] "" none none)
          (some "(SELECT * FROM t WHERE a = ?)"))
      = .ok [JVal.num 1, JVal.num 2] ∧
    countQM "(SELECT * FROM t WHERE a = ?)" = 1 ∧
    ([JVal.num 1, JVal.num 2] : List JVal).length = 2 :=
  ⟨rfl, rfl, rfl, rfl, by decide, rfl⟩

/-- C4 counterexample: a registered plugin for `$in` is never consulted
when the operand is an array — the built-in array handler answers first,
so the emitted clause is the built-in IN form, not the plugin's. -/
theorem C4_counterexample :
    parseMongoQuery
        [OperatorPlugin.mk "$in" (fun f _ conds ps _ => (conds ++ ["PLUGIN(" ++ f ++ ")"], ps))]
        [("a", JVal.obj [("$in", JVal.arr [JVal.num 1])])] [] [] "root"
      = .ok ("a IN (?)", [JVal.num 1]) ∧
    ("a IN (?)" : String) ≠ "PLUGIN(a)" :=
  ⟨rfl, by decide⟩

/-- C4 (amended): a registered plugin takes full responsibility for a
filter entry's operator only when the operator is none of the
array-shaped operators `$in`, `$nin`, `$all` (those are routed to the
built-in array handler before plugins are consulted); in that case the
plugin's handler alone produces the clause and the parameter appends. -/
theorem C4_plugin_resolution (pl : List OperatorPlugin) (p : OperatorPlugin)
    (field op : String) (ov : JVal) (fcs : List String) (ps : List JVal) (ctx : String)
    (hfind : pl.find? (fun q => q.operator == op) = some p)
    (hd : startsWithDollar op = true)
    (h1 : op ≠ "$in") (h2 : op ≠ "$nin") (h3 : op ≠ "$all") :
    parseFieldOps pl field [(op, ov)] fcs ps ctx
      = .ok (p.handler field ov fcs ps ctx) := by
  by_cases hsv : ∃ s, ov = .sub s
  · obtain ⟨s, rfl⟩ := hsv
    rw [parseFieldOps_cons_sub, if_pos hd,
      if_neg (show ¬ ((decide (op = "$in") && isSubQ (JVal.sub s)) = true) by simp [h1]),
      if_neg (show ¬ ((decide (op = "$in") || decide (op = "$nin")
        || decide (op = "$all")) = true) by simp [h1, h2, h3]),
      handleOperator_plugin pl p field (JVal.sub s) op fcs ps ctx hfind, bindOk]
    rfl
  · push_neg at hsv
    rw [parseFieldOps_cons_notSub pl field op ov [] fcs ps ctx hsv, if_pos hd,
      if_neg (show ¬ ((decide (op = "$in") && isSubQ ov) = true) by
        simp [isSubQ_false_of_ne ov hsv]),
      if_neg (show ¬ ((decide (op = "$in") || decide (op = "$nin")
        || decide (op = "$all")) = true) by simp [h1, h2, h3]),
      handleOperator_plugin pl p field ov op fcs ps ctx hfind, bindOk]
    rfl

/-- C4 witness: a plugin registered for the non-array operator $near is
invoked and its output alone is returned. -/
theorem C4_witness :
    parseFieldOps
        [OperatorPlugin.mk "$near" (fun f ov conds ps _ => (conds ++ [f ++ " NEAR ?"], ps ++ [ov]))]
        "loc" [("$near", JVal.num 5)] [] [] "root"
      = .ok ((OperatorPlugin.mk "$near"
          (fun f ov conds ps _ => (conds ++ [f ++ " NEAR ?"], ps ++ [ov]))).handler
          "loc" (JVal.num 5) [] [] "root") :=
  C4_plugin_resolution
    [OperatorPlugin.mk "$near" (fun f ov conds ps _ => (conds ++ [f ++ " NEAR ?"], ps ++ [ov]))]
    (OperatorPlugin.mk "$near" (fun f ov conds ps _ => (conds ++ [f ++ " NEAR ?"], ps ++ [ov])))
    "loc" "$near" (JVal.num 5) [] [] "root" rfl rfl (by decide) (by decide) (by decide)

/-- C5: an Update builder and a Delete builder whose accumulated filter
is empty both fail fatally from toSQL with the missing-filter safety
error, producing no statement. -/
theorem C5_missing_filter_guard (pl : List OperatorPlugin) (bu : MongoUpdateBuilder)
    (bd : MongoDeleteBuilder) (hu : bu.filter = []) (hd : bd.filter = []) :
    MongoUpdateBuilder.toSQL pl bu
      = .error (handleErrorSQLGen "更新操作必须指定查询条件，防止误更新所有记录。" "MongoUpdateBuilder") ∧
    MongoDeleteBuilder.toSQL pl bd
      = .error (handleErrorSQLGen "删除操作必须指定查询条件，防止误删除所有记录。" "MongoDeleteBuilder") := by
  constructor
  · simp [MongoUpdateBuilder.toSQL, hu]
  · simp [MongoDeleteBuilder.toSQL, hd]

/-- C5 witness: freshly constructed Update and Delete builders have the
empty filter and toSQL raises the safety errors. -/
theorem C5_witness :
    MongoUpdateBuilder.toSQL [] (MongoUpdateBuilder.new "t" "id")
      = .error (handleErrorSQLGen "更新操作必须指定查询条件，防止误更新所有记录。" "MongoUpdateBuilder") ∧
    MongoDeleteBuilder.toSQL [] (MongoDeleteBuilder.new "t")
      = .error (handleErrorSQLGen "删除操作必须指定查询条件，防止误删除所有记录。" "MongoDeleteBuilder") :=
  C5_missing_filter_guard [] (MongoUpdateBuilder.new "t" "id") (MongoDeleteBuilder.new "t")
    rfl rfl

end MongoAdapter

namespace MongoAdapter

/-- C6 counterexample: when the first filter already carries a truthy
`$and` key, the second `.query` call pushes onto that array instead of
wrapping, so `.query(A).query(B)` and `.query({$and: [A, B]})` compile
to different WHERE texts and different parameter orders. -/
theorem C6_counterexample :
    (do
      let b1 ← (MongoQueryBuilder.new "t").query
        [("$and", JVal.arr [JVal.obj [("a", JVal.num 1)]]), ("c", JVal.num 3)]
      let b2 ← b1.query [("b", JVal.num 2)]
      MongoQueryBuilder.toSQL [] b2)
      = .ok ("SELECT * FROM t WHERE a = ? AND b = ? AND c = ?",
          [JVal.num 1, JVal.num 2, JVal.num 3]) ∧
    (do
      let b1 ← (MongoQueryBuilder.new "t").query
        [("$and", JVal.arr [JVal.obj [("$and", JVal.arr [JVal.obj [("a", JVal.num 1)]]),
          ("c", JVal.num 3)], JVal.obj [("b", JVal.num 2)]])]
      MongoQueryBuilder.toSQL [] b1)
      = .ok ("SELECT * FROM t WHERE a = ? AND c = ? AND b = ?",
          [JVal.num 1, JVal.num 3, JVal.num 2]) ∧
    ("SELECT * FROM t WHERE a = ? AND b = ? AND c = ?" : String)
      ≠ "SELECT * FROM t WHERE a = ? AND c = ? AND b = ?" :=
  ⟨rfl, rfl, by decide⟩

/-- C6 (amended): when the first filter A is nonempty and carries no
`$and` key, `.query(A).query(B)` accumulates exactly the explicit
single-key filter {$and: [A, B]} with A before B. -/
theorem C6_query_merge (t : String) (A B : List (String × JVal))
    (hA : lookupJ A "$and" = none) (hne : A ≠ []) :
    (do
      let b1 ← (MongoQueryBuilder.new t).query A
      MongoQueryBuilder.query b1 B)
      = .ok (MongoQueryBuilder.mk t [("$and", JVal.arr [JVal.obj A, JVal.obj B])]
          none [] "" none none) := by
  have h1 : (MongoQueryBuilder.new t).query A = .ok (.mk t A none [] "" none none) := by
    show (do
      let f1 ← mergeFilter [] A
      Except.ok (MongoQueryBuilder.mk t f1 none [] "" none none)) = _
    rw [show mergeFilter [] A = .ok A from rfl, bindOk]
  rw [h1, bindOk]
  show (do
    let f1 ← mergeFilter A B
    Except.ok (MongoQueryBuilder.mk t f1 none [] "" none none)) = _
  have hAe : ¬ (A.isEmpty = true) := by simpa [List.isEmpty_iff] using hne
  have h2 : mergeFilter A B = .ok [("$and", JVal.arr [JVal.obj A, JVal.obj B])] := by
    simp only [mergeFilter, if_neg hAe]
    rw [hA]
  rw [h2, bindOk]

/-- C6 witness: two plain one-key filters merge into the explicit $and
pair. -/
theorem C6_witness :
    (do
      let b1 ← (MongoQueryBuilder.new "t").query [("a", JVal.num 1)]
      MongoQueryBuilder.query b1 [("b", JVal.num 2)])
      = .ok (MongoQueryBuilder.mk "t"
          [("$and", JVal.arr [JVal.obj [("a", JVal.num 1)], JVal.obj [("b", JVal.num 2)]])]
          none [] "" none none) :=
  C6_query_merge "t" [("a", JVal.num 1)] [("b", JVal.num 2)] rfl (by simp)

/-- C7 counterexample: the aggregation pipeline treats a zero skip as
unset (a JS truthiness test), so `.skip(0)` with no limit emits no
OFFSET at all instead of the sentinel LIMIT/OFFSET pair. -/
theorem C7_counterexample :
    MongoAggregationBuilder.toSQL [] ((MongoAggregationBuilder.new "orders").skip 0)
      = .ok ("SELECT * FROM orders", []) ∧
    hasSubstr "SELECT * FROM orders" "OFFSET" = false :=
  ⟨rfl, rfl⟩

/-- C7 (amended): the offset-without-limit sentinel as the code
implements it.  For the Select builder it holds for every stored offset:
with no limit the text ends in LIMIT 18446744073709551615 OFFSET o, and
with a limit it ends in LIMIT l OFFSET o.  For the aggregation pipeline
it holds for a skip-only pipeline exactly when the skip value is
nonzero. -/
theorem C7_offset_policy (t : String) (f : List (String × JVal))
    (proj : Option (List String)) (joins : List JoinConfig) (sort : String)
    (l o n : Int) (s1 s2 : String) (ps1 ps2 : List JVal) (hn : n ≠ 0)
    (h1 : MongoQueryBuilder.toSQL [] (.mk t f proj joins sort none (some o))
      = .ok (s1, ps1))
    (h2 : MongoQueryBuilder.toSQL [] (.mk t f proj joins sort (some l) (some o))
      = .ok (s2, ps2)) :
    (∃ X, s1 = X ++ (" LIMIT 18446744073709551615 OFFSET " ++ toString o)) ∧
    (∃ X, s2 = X ++ (" LIMIT " ++ toString l ++ " OFFSET " ++ toString o)) ∧
    MongoAggregationBuilder.toSQL [] ((MongoAggregationBuilder.new t).skip n)
      = .ok ("SELECT " ++ "*" ++ " FROM " ++ t ++ " LIMIT 18446744073709551615 OFFSET "
          ++ toString n, []) := by
  rw [builderToSQL_eq2] at h1 h2
  cases hpq : parseMongoQuery [] f [] [] "SELECT" with
  | error e =>
    rw [hpq] at h1
    rw [bindErr] at h1
    exact absurd h1 (by simp)
  | ok pr =>
    obtain ⟨w, wps⟩ := pr
    rw [hpq] at h1 h2
    simp only [bindOk, Except.ok.injEq, Prod.mk.injEq] at h1 h2
    obtain ⟨hs1, hp1⟩ := h1
    obtain ⟨hs2, hp2⟩ := h2
    refine ⟨⟨(selectPrefix t proj joins ++ (if w ≠ "" then " WHERE " ++ w else ""))
        ++ orderSuffix sort, ?_⟩,
      ⟨(selectPrefix t proj joins ++ (if w ≠ "" then " WHERE " ++ w else ""))
        ++ orderSuffix sort, ?_⟩, ?_⟩
    · rw [← hs1]
      exact (String.append_assoc _ _ _).symm
    · rw [← hs2]
      exact (String.append_assoc _ _ _).symm
    · have hf : foldStages [] t [Stage.skip n]
          (aggInitState ((MongoAggregationBuilder.new t).skip n))
          = .ok ⟨[], [], "", "", "*", "", none, some n, "", []⟩ := by
        simp [foldStages, aggInitState, MongoAggregationBuilder.new,
          MongoAggregationBuilder.skip, hn]
      show (do
        let st ← foldStages [] t [Stage.skip n]
          (aggInitState ((MongoAggregationBuilder.new t).skip n))
        Except.ok (assembleAgg t st, st.params)) = _
      rw [hf, bindOk]
      simp [assembleAgg]

/-- C7 witness: skip 20 with no limit on the select builder and the
aggregation builder both emit the sentinel; limit 10 with skip 20 emits
a plain OFFSET. -/
theorem C7_witness :
    (∃ X, "SELECT * FROM orders WHERE 1=1 LIMIT 18446744073709551615 OFFSET 20"
      = X ++ (" LIMIT 18446744073709551615 OFFSET " ++ toString (20 : Int))) ∧
    (∃ X, "SELECT * FROM orders WHERE 1=1 LIMIT 10 OFFSET 20"
      = X ++ (" LIMIT " ++ toString (10 : Int) ++ " OFFSET " ++ toString (20 : Int))) ∧
    MongoAggregationBuilder.toSQL [] ((MongoAggregationBuilder.new "orders").skip 20)
      = .ok ("SELECT " ++ "*" ++ " FROM " ++ "orders"
          ++ " LIMIT 18446744073709551615 OFFSET " ++ toString (20 : Int), []) :=
  C7_offset_policy "orders" [] none [] "" 10 20 20
    "SELECT * FROM orders WHERE 1=1 LIMIT 18446744073709551615 OFFSET 20" 
    "SELECT * FROM orders WHERE 1=1 LIMIT 10 OFFSET 20" [] [] (by decide) rfl rfl

/-- C9 counterexample: a nested failure is not propagated unchanged —
every enclosing recursion frame re-wraps it as a fresh QueryParseError,
so the surfaced message differs from the innermost frame's message and
grows with nesting depth. -/
theorem C9_counterexample :
    handleOperator [] "a" (JVal.num 1) "$bogus" [] [] "root"
      = .error (handleErrorSQLGen "Unsupported operator \"$bogus\" for field \"a\"" "root") ∧
    parseMongoQuery [] [("a", JVal.obj [("$bogus", JVal.num 1)])] [] [] "root"
      = .error (Err.mk "QueryParseError"
          "[QueryParseError] [SQLGenerationError] Unsupported operator \"$bogus\" for field \"a\" | Context: \"root\" | Context: undefined | Context: root") ∧
    parseMongoQuery []
        [("$and", JVal.arr [JVal.obj [("a", JVal.obj [("$bogus", JVal.num 1)])]])]
        [] [] "root"
      = .error (Err.mk "QueryParseError"
          "[QueryParseError] [QueryParseError] [SQLGenerationError] Unsupported operator \"$bogus\" for field \"a\" | Context: \"root->AND[0]\" | Context: undefined | Context: root->AND[0] | Context: root") ∧
    (Err.mk "QueryParseError"
        "[QueryParseError] [SQLGenerationError] Unsupported operator \"$bogus\" for field \"a\" | Context: \"root\" | Context: undefined | Context: root").message
      ≠ (handleErrorSQLGen "Unsupported operator \"$bogus\" for field \"a\"" "root").message :=
  ⟨rfl, rfl, rfl, by decide⟩

/-- C9 (amended): when translating one key of a filter object fails with
error e, the surrounding parseMongoQuery frame surfaces a QueryParseError
carrying e's message and that frame's context — each enclosing frame
re-wraps rather than passing the error through unchanged — and no
statement is returned. -/
theorem C9_error_wrapping (key : String) (value : JVal) (rest : List (String × JVal))
    (conds : List String) (ps : List JVal) (ctx : String) (e : Err)
    (h : parseKey [] key value conds ps ctx = .error e) :
    parseMongoQuery [] ((key, value) :: rest) conds ps ctx
      = .error (QueryParseError e.message ctx) := by
  rw [parseMongoQuery_cons, h]

/-- C9 witness: the unsupported-operator failure of one key surfaces
re-wrapped with the root context. -/
theorem C9_witness :
    parseMongoQuery [] [("a", JVal.obj [("$bogus", JVal.num 1)])] [] [] "root"
      = .error (QueryParseError
          (handleErrorSQLGen "Unsupported operator \"$bogus\" for field \"a\"" "root").message
          "root") :=
  C9_error_wrapping "a" (JVal.obj [("$bogus", JVal.num 1)]) [] [] [] "root"
    (handleErrorSQLGen "Unsupported operator \"$bogus\" for field \"a\"" "root") rfl

/-- C10: a non-dollar inner key of a field's operator object compiles to
the implicit equality `outerField = ?`: the inner key's name never
enters the SQL text, and the inner value is appended as the parameter;
in particular {a: {b: 1, c: 2}} compiles to (a = ? AND a = ?)
with parameters [1, 2]. -/
theorem C10_nondollar_inner_key (pl : List OperatorPlugin) (field op : String)
    (ov : JVal) (rest : List (String × JVal)) (fcs : List String) (ps : List JVal)
    (ctx : String) (hd : startsWithDollar op = false) :
    parseFieldOps pl field ((op, ov) :: rest) fcs ps ctx
      = parseFieldOps pl field rest (fcs ++ [field ++ " = ?"]) (ps ++ [ov]) ctx ∧
    parseMongoQuery [] [("a", JVal.obj [("b", JVal.num 1), ("c", JVal.num 2)])] [] [] "root"
      = .ok ("(a = ? AND a = ?)", [JVal.num 1, JVal.num 2]) := by
  refine ⟨?_, rfl⟩
  by_cases hsv : ∃ s, ov = .sub s
  · obtain ⟨s, rfl⟩ := hsv
    rw [parseFieldOps_cons_sub, if_neg (by simp [hd])]
  · push_neg at hsv
    rw [parseFieldOps_cons_notSub pl field op ov rest fcs ps ctx hsv,
      if_neg (by simp [hd])]

/-- C10 witness: the inner key b of {score: {b: 7}} contributes
score = ? and the parameter 7. -/
theorem C10_witness :
    parseFieldOps [] "score" [("b", JVal.num 7)] [] [] "root"
      = parseFieldOps [] "score" [] ([] ++ ["score" ++ " = ?"]) ([] ++ [JVal.num 7])
          "root" ∧
    parseMongoQuery [] [("a", JVal.obj [("b", JVal.num 1), ("c", JVal.num 2)])] [] [] "root"
      = .ok ("(a = ? AND a = ?)", [JVal.num 1, JVal.num 2]) :=
  C10_nondollar_inner_key [] "score" "b" (JVal.num 7) [] [] [] "root" rfl

end MongoAdapter

namespace MongoAdapter

/-- C8: the bulk form of the Update builder refines the specification's
statement builder.  For a nonempty row sequence with at least one
non-identity column and a nonempty extra filter whose translation is
given, toSQL emits exactly the statement of bulkSpecStatement: one CASE
assignment per distinct non-identity column in first-seen order with
WHEN/THEN arms only for the rows that set the column, parameters
ordered as the per-column (id, value) pairs, then the identity list of
the IN restriction, then the extra filter's parameters, and the extra
filter ANDed on only when it is not the always-true predicate. -/
theorem C8_bulk_update_matches_spec (t idF : String)
    (rows : List (List (String × JVal))) (fil : List (String × JVal))
    (extraCondition : String) (extraParams : List JVal)
    (hrows : rows ≠ []) (hcols : bulkUpdateColumns idF rows ≠ [])
    (hfil : fil ≠ [])
    (hpq : parseMongoQuery [] fil [] [] "BULK_UPDATE" = .ok (extraCondition, extraParams)) :
    MongoUpdateBuilder.toSQL [] ⟨t, idF, none, some rows, fil, false⟩
      = .ok (bulkSpecStatement t idF rows extraCondition extraParams) := by
  have hf1 : ¬ (fil.isEmpty = true) := by simpa [List.isEmpty_iff] using hfil
  have hr1 : ¬ (rows.isEmpty = true) := by simpa [List.isEmpty_iff] using hrows
  have hc1 : ¬ ((bulkUpdateColumns idF rows).isEmpty = true) := by
    simpa [List.isEmpty_iff] using hcols
  simp only [MongoUpdateBuilder.toSQL]
  rw [if_neg hf1, if_neg hr1, if_neg hc1, hpq]
  simp only [bindOk]
  rw [bulkUpdateColumns_eq, bulkSetClauses_eq, bulkCaseParams_eq]
  simp only [bulkSpecStatement, Bool.false_eq_true, if_false, String.append_empty]

end MongoAdapter

namespace MongoAdapter

/-- C8 witness: the two-row Carol/Dave-style bulk update against an
active-users filter produces exactly the specification's statement. -/
theorem C8_witness :
    MongoUpdateBuilder.toSQL [] ⟨"users", "id", none,
        some [[("id", JVal.num 1), ("name", JVal.str "Carol")],
          [("id", JVal.num 2), ("age", JVal.num 31)]],
        [("active", JVal.boolV true)], false⟩
      = .ok (bulkSpecStatement "users" "id"
          [[("id", JVal.num 1), ("name", JVal.str "Carol")],
            [("id", JVal.num 2), ("age", JVal.num 31)]]
          "active = ?" [JVal.boolV true]) :=
  C8_bulk_update_matches_spec "users" "id"
    [[("id", JVal.num 1), ("name", JVal.str "Carol")],
      [("id", JVal.num 2), ("age", JVal.num 31)]]
    [("active", JVal.boolV true)] "active = ?" [JVal.boolV true]
    (by simp) (by decide) (by simp) rfl

end MongoAdapter
